import Mathlib

/-!
CPU scheduling lab: the scheduler engine of `scheduler.c`.

A shallow embedding of `src/scheduler.c`.  The global variables `g_scheduler`
and `g_interrupted` become fields of an explicit `World`, together with the
list of operating-system calls and console lines the scheduler has issued so
far.  Everything the operating system answers during one call of
`interrupt_handler` (the result of `waitpid`, of each `fork`, of
`kill(pid, SIGCONT)`, and the clock readings) is an explicit input `Env`.
The three places where the C program leaves the scheduler (`exit` after a
failed `fork`, the forked child itself, `exit` after a failed `SIGCONT`) are
the errors of an `Except`.  Signals are delivered between two calls of
`interrupt_handler`, not while one runs.  The loops over `pcbs` run over the
indices below `num_processes`, as in the C code; an index outside the array
is skipped.
-/

namespace Scheduler

/-! ## Data model -/

/-- Signal number of the timer interrupt (`SIGALRM` of `<signal.h>`, Linux value). -/
def SIGALRM : Int := 14

/-- Signal number of the child-state-changed notification (`SIGCHLD`, Linux value). -/
def SIGCHLD : Int := 17

/-- Signal number that resumes a stopped process (`SIGCONT`, Linux value). -/
def SIGCONT : Int := 18

/-- Signal number that suspends a process (`SIGSTOP`, Linux value). -/
def SIGSTOP : Int := 19

/-- Modelled from the spec: the enumeration of PCB states declared in
`scheduler.h` (not under `src/`); section 3 lists its four values. -/
inductive process_state where
  | CREATED
  | WAITING
  | RUNNING
  | TERMINATED
deriving DecidableEq, Repr

/-- Modelled from the spec: `struct process_ctl_block` of `scheduler.h` (not
under `src/`), with the fields `scheduler.c` reads and writes.  Timestamps are
clock readings in microseconds, `0` meaning unset; `pid` is `0` until the
process is forked.  Integer fields are unbounded: their C width is not in the
sources. -/
structure process_ctl_block where
  name : String
  workload : Int
  creation_quantum : Int
  state : process_state
  pid : Int
  arrival_time : Nat
  start_time : Nat
  completion_time : Nat
deriving DecidableEq, Repr

/-- Modelled from the spec: `struct scheduler_state` of `scheduler.h` (not
under `src/`).  `current_process` is a pointer into `pcbs`; it is kept as the
index it points at, `none` being `NULL`. -/
structure scheduler_state where
  pcbs : List process_ctl_block
  num_processes : Nat
  current_quantum : Int
  current_process : Option Nat
deriving DecidableEq, Repr

/-- What the scheduler does to the outside world, in program order. -/
inductive event where
  /-- The call `waitpid(-1, &status, WNOHANG)` and the value it returned. -/
  | waitpid (ret : Int)
  /-- The call `alarm(seconds)`. -/
  | alarm (seconds : Nat)
  /-- The call `kill(pid, sig)`. -/
  | kill (pid : Int) (sig : Int)
  /-- The call `fork()` and the value it returned. -/
  | fork (ret : Int)
  /-- The console line `-> interrupt (q)`. -/
  | out_interrupt (quantum : Int)
  /-- The console line `[*] New process arrival: name`. -/
  | out_arrival (name : String)
  /-- The console line `[i] 'name' [pid=..] created. Workload = ..s`. -/
  | out_created (name : String) (pid : Int) (workload : Int)
deriving DecidableEq, Repr

/-- The globals of `scheduler.c` and the record of what has been done. -/
structure World where
  g_scheduler : scheduler_state
  g_interrupted : Int
  trace : List event
deriving DecidableEq, Repr

/-- What the operating system answers during one call of `interrupt_handler`. -/
structure Env where
  /-- Value returned by `waitpid(-1, &status, WNOHANG)`. -/
  waitpid : Int
  /-- Value returned by `fork()` when called for `pcbs[i]`. -/
  fork : Nat → Int
  /-- Value returned by `kill(pid, SIGCONT)` in `context_switch`. -/
  kill_ret : Int
  /-- Clock read by `get_time()` for `completion_time`. -/
  time_completion : Nat
  /-- Clock read by `get_time()` for the `arrival_time` of `pcbs[i]`. -/
  time_arrival : Nat → Nat
  /-- Clock read by `get_time()` for `start_time`. -/
  time_start : Nat

/-- The ways the scheduler process stops inside `interrupt_handler`. -/
inductive Halt where
  /-- `fork` returned `-1`: `exit(EXIT_FAILURE)` in `handle_arrivals`. -/
  | fork_failed
  /-- `fork` returned `0`: this is the child, which stops itself and then
  becomes the workload program. -/
  | child
  /-- `kill(pid, SIGCONT)` returned `-1`: `exit(EXIT_FAILURE)` in `context_switch`. -/
  | invalid_process
deriving DecidableEq, Repr

/-- Replace `pcbs[i]`. -/
def set_pcb (w : World) (i : Nat) (p : process_ctl_block) : World :=
  { w with g_scheduler := { w.g_scheduler with pcbs := w.g_scheduler.pcbs.set i p } }

/-- Append to the record of calls. -/
def emit (w : World) (es : List event) : World :=
  { w with trace := w.trace ++ es }

/-! ## The functions of `scheduler.c` -/

/-- The function `context_switch`, called on `&pcbs[i]`.  A pointer outside the
array is not dereferenced. -/
def context_switch (env : Env) (i : Nat) (w : World) : Except Halt World :=
  match w.g_scheduler.pcbs[i]? with
  | none => .ok w
  | some pcb =>
    let pcb1 := if pcb.start_time = 0 then { pcb with start_time := env.time_start } else pcb
    let pcb2 := { pcb1 with state := process_state.RUNNING }
    let w1 := set_pcb w i pcb2
    let w2 := { w1 with g_scheduler :=
      { w1.g_scheduler with
        current_process := some i
        current_quantum := w1.g_scheduler.current_quantum + 1 } }
    let w3 := emit w2 [event.alarm 1, event.kill pcb2.pid SIGCONT]
    if env.kill_ret = -1 then .error Halt.invalid_process else .ok w3

/-- The loop of `handle_arrivals`, at index `i` with `n` iterations left. -/
def handle_arrivals_loop (env : Env) : Nat → Nat → World → Except Halt World
  | 0, _, w => .ok w
  | n + 1, i, w =>
    match w.g_scheduler.pcbs[i]? with
    | none => handle_arrivals_loop env n (i + 1) w
    | some pcb =>
      if pcb.creation_quantum = w.g_scheduler.current_quantum then
        let pcb1 := { pcb with state := process_state.WAITING, arrival_time := env.time_arrival i }
        let w1 := emit (set_pcb w i pcb1) [event.out_arrival pcb1.name, event.fork (env.fork i)]
        if env.fork i = -1 then .error Halt.fork_failed
        else if env.fork i = 0 then .error Halt.child
        else
          let pcb2 := { pcb1 with pid := env.fork i }
          let w2 := emit (set_pcb w1 i pcb2)
            [event.out_created pcb2.name (env.fork i) pcb2.workload]
          handle_arrivals_loop env n (i + 1) w2
      else handle_arrivals_loop env n (i + 1) w

/-- The function `handle_arrivals`. -/
def handle_arrivals (env : Env) (w : World) : Except Halt World :=
  handle_arrivals_loop env w.g_scheduler.num_processes 0 w

/-- The function `signal_handler`: it records the signal number. -/
def signal_handler (signo : Int) (w : World) : World :=
  { w with g_interrupted := signo }

/-- The search loop of `interrupt_handler` for the PCB whose `pid` is `child`,
at index `i` with `n` iterations left; `none` is the `NULL` pointer. -/
def find_pcb_loop (s : scheduler_state) (child : Int) : Nat → Nat → Option Nat
  | 0, _ => none
  | n + 1, i =>
    match s.pcbs[i]? with
    | none => find_pcb_loop s child n (i + 1)
    | some pcb => if pcb.pid = child then some i else find_pcb_loop s child n (i + 1)

/-- The first statement of the timer branch of `interrupt_handler`: a current
process that is `RUNNING` is sent `SIGSTOP` and put back to `WAITING`. -/
def preempt (w : World) : World :=
  match w.g_scheduler.current_process with
  | none => w
  | some c =>
    match w.g_scheduler.pcbs[c]? with
    | none => w
    | some cur =>
      if cur.state = process_state.RUNNING then
        set_pcb (emit w [event.kill cur.pid SIGSTOP]) c
          { cur with state := process_state.WAITING }
      else w

/-- The second `if` of `interrupt_handler`: the time quantum has expired. -/
def timer_expiry (alg : Env → World → Except Halt World) (env : Env) (w : World) :
    Except Halt World :=
  if w.g_interrupted = SIGALRM then
    let w1 := emit { w with g_interrupted := 0 } [event.out_interrupt w.g_scheduler.current_quantum]
    match handle_arrivals env (preempt w1) with
    | .error e => .error e
    | .ok w3 => alg env w3
  else .ok w

/-- The assignments made when the reaped child is `pcbs[i]`. -/
def mark_terminated (env : Env) (i : Nat) (w : World) : World :=
  match w.g_scheduler.pcbs[i]? with
  | none => w
  | some pcb =>
    let w1 := emit w [event.alarm 0]
    let w2 := set_pcb w1 i
      { pcb with state := process_state.TERMINATED, completion_time := env.time_completion }
    { w2 with g_interrupted := SIGALRM }

/-- The function `interrupt_handler`, with `g_scheduling_algorithm` as `alg`. -/
def interrupt_handler (alg : Env → World → Except Halt World) (env : Env) (w : World) :
    Except Halt World :=
  if w.g_interrupted = SIGCHLD then
    let w1 := emit w [event.waitpid env.waitpid]
    if env.waitpid = 0 ∨ env.waitpid = -1 then
      .ok { w1 with g_interrupted := 0 }
    else
      match find_pcb_loop w1.g_scheduler env.waitpid w1.g_scheduler.num_processes 0 with
      | none => timer_expiry alg env w1
      | some i => timer_expiry alg env (mark_terminated env i w1)
  else timer_expiry alg env w

/-- The loop of `basic`, at index `i` with `n` iterations left. -/
def basic_loop (env : Env) : Nat → Nat → World → Except Halt World
  | 0, _, w => .ok w
  | n + 1, i, w =>
    match w.g_scheduler.pcbs[i]? with
    | none => basic_loop env n (i + 1) w
    | some pcb =>
      if pcb.state = process_state.WAITING then context_switch env i w
      else basic_loop env n (i + 1) w

/-- The function `basic`, called on `&g_scheduler`. -/
def basic (env : Env) (w : World) : Except Halt World :=
  basic_loop env w.g_scheduler.num_processes 0 w

/-- The counting loop of `main`, at index `i` with `n` iterations left and
`terminated` counted so far. -/
def count_terminated_loop (s : scheduler_state) : Nat → Nat → Nat → Nat
  | 0, _, terminated => terminated
  | n + 1, i, terminated =>
    match s.pcbs[i]? with
    | none => count_terminated_loop s n (i + 1) terminated
    | some pcb =>
      if pcb.state = process_state.TERMINATED then
        count_terminated_loop s n (i + 1) (terminated + 1)
      else count_terminated_loop s n (i + 1) terminated

/-- The exit test of the loop of `main`: `terminated == g_scheduler.num_processes`. -/
def loop_exits (s : scheduler_state) : Bool :=
  decide (count_terminated_loop s s.num_processes 0 0 = s.num_processes)

/-- One job of the specification file: name, workload, creation quantum. -/
structure job where
  name : String
  workload : Int
  creation_quantum : Int
deriving DecidableEq, Repr

/-- Modelled from the spec: `read_spec` of `file_format.c` (not under `src/`),
section 4.1 `load`: every PCB `CREATED`, process handle and timestamps unset,
`current_quantum = 0`, no current process. -/
def read_spec (jobs : List job) : scheduler_state :=
  { pcbs := jobs.map fun j =>
      { name := j.name, workload := j.workload, creation_quantum := j.creation_quantum,
        state := process_state.CREATED, pid := 0,
        arrival_time := 0, start_time := 0, completion_time := 0 }
    num_processes := jobs.length
    current_quantum := 0
    current_process := none }

/-- The globals when `main` enters its loop: `g_interrupted` is initialised to
`SIGALRM`. -/
def boot (jobs : List job) : World :=
  { g_scheduler := read_spec jobs, g_interrupted := SIGALRM, trace := [] }

/-- What happens between two exit tests of `main`: the signals delivered while
the program waits, and the answers of the operating system to the dispatch. -/
structure Step where
  signals : List Int
  env : Env

/-- Deliver signals in order, each through `signal_handler`. -/
def deliver (signals : List Int) (w : World) : World :=
  signals.foldl (fun acc signo => signal_handler signo acc) w

/-- The first statement of the loop body of `main`, after the signals of the
step have been delivered: `if (g_interrupted != 0) interrupt_handler();` with
`g_scheduling_algorithm = &basic`. -/
def dispatch (st : Step) (w : World) : Except Halt World :=
  let w1 := deliver st.signals w
  if w1.g_interrupted ≠ 0 then interrupt_handler basic st.env w1 else .ok w1

/-- Any sequence of dispatches. -/
def run : List Step → World → Except Halt World
  | [], w => .ok w
  | st :: rest, w =>
    match dispatch st w with
    | .error e => .error e
    | .ok w1 => run rest w1

/-! ## Names for the values the functions write -/

/-- The PCB `context_switch` writes back. -/
def switched (env : Env) (p : process_ctl_block) : process_ctl_block :=
  { (if p.start_time = 0 then { p with start_time := env.time_start } else p) with
    state := process_state.RUNNING }

/-- The PCB `handle_arrivals` writes back for index `i`. -/
def admitted (env : Env) (i : Nat) (p : process_ctl_block) : process_ctl_block :=
  { p with state := process_state.WAITING, arrival_time := env.time_arrival i, pid := env.fork i }

/-- The PCB `interrupt_handler` writes back for the reaped child. -/
def reaped (env : Env) (p : process_ctl_block) : process_ctl_block :=
  { p with state := process_state.TERMINATED, completion_time := env.time_completion }

/-- The events `handle_arrivals` issues: console lines and `fork`. -/
def arrival_event : event → Bool
  | event.out_arrival _ => true
  | event.fork _ => true
  | event.out_created _ _ _ => true
  | _ => false

/-- The PCB after the preemption step of the timer branch. -/
def preempted (p : process_ctl_block) : process_ctl_block :=
  if p.state = process_state.RUNNING then { p with state := process_state.WAITING } else p

/-- The PCB at index `j` after `handle_arrivals` at quantum `q`. -/
def arrived (env : Env) (q : Int) (j : Nat) (p : process_ctl_block) : process_ctl_block :=
  if p.creation_quantum = q then admitted env j p else p

/-! ## Invariants -/

/-- What holds of the scheduler state between two dispatches. -/
structure Inv (s : scheduler_state) : Prop where
  /-- `num_processes` is the number of PCBs. -/
  wf : s.num_processes = s.pcbs.length
  /-- A `RUNNING` PCB is the one `current_process` points at. -/
  running_is_current : ∀ (i : Nat) (p : process_ctl_block), s.pcbs[i]? = some p →
    p.state = process_state.RUNNING →
    s.current_process = some i
  /-- A PCB that has left `CREATED` has its creation quantum in the past. -/
  admitted_before : ∀ (i : Nat) (p : process_ctl_block), s.pcbs[i]? = some p →
    p.state ≠ process_state.CREATED →
    p.creation_quantum < s.current_quantum
  /-- A `CREATED` PCB has no process handle yet. -/
  created_pid : ∀ (i : Nat) (p : process_ctl_block), s.pcbs[i]? = some p →
    p.state = process_state.CREATED → p.pid = 0
  /-- The PCB `current_process` points at is `RUNNING` or `TERMINATED`. -/
  current_state : ∀ c, s.current_process = some c → ∃ p : process_ctl_block,
    s.pcbs[c]? = some p ∧
    (p.state = process_state.RUNNING ∨ p.state = process_state.TERMINATED)

/-- What holds inside the timer branch, between the preemption and the call of
the scheduling algorithm. -/
structure Mid (s : scheduler_state) : Prop where
  /-- `num_processes` is the number of PCBs. -/
  wf : s.num_processes = s.pcbs.length
  /-- No PCB is `RUNNING`. -/
  none_running : ∀ (i : Nat) (p : process_ctl_block), s.pcbs[i]? = some p →
    p.state ≠ process_state.RUNNING
  /-- A PCB that has left `CREATED` arrived earlier, or arrives now and is `WAITING`. -/
  admitted_by_now : ∀ (i : Nat) (p : process_ctl_block), s.pcbs[i]? = some p →
    p.state ≠ process_state.CREATED →
    p.creation_quantum < s.current_quantum ∨
    (p.creation_quantum = s.current_quantum ∧ p.state = process_state.WAITING)
  /-- A `CREATED` PCB has no process handle yet. -/
  created_pid : ∀ (i : Nat) (p : process_ctl_block), s.pcbs[i]? = some p →
    p.state = process_state.CREATED → p.pid = 0
  /-- The PCB `current_process` points at is `WAITING` or `TERMINATED`. -/
  current_state : ∀ c, s.current_process = some c → ∃ p : process_ctl_block,
    s.pcbs[c]? = some p ∧
    (p.state = process_state.WAITING ∨ p.state = process_state.TERMINATED)

/-! ## Concrete runs used as witnesses -/

/-- Number of PCBs in state `RUNNING`. -/
def num_running (s : scheduler_state) : Nat :=
  s.pcbs.countP (fun p => decide (p.state = process_state.RUNNING))

/-- An operating system in which every call succeeds: `fork` for `pcbs[i]`
returns pid `100 + i`, `waitpid` reports nothing. -/
def demo_env : Env :=
  { waitpid := 0
    fork := fun i => 100 + (i : Int)
    kill_ret := 0
    time_completion := 50
    time_arrival := fun i => 10 + i
    time_start := 20 }

/-- The same operating system, with `waitpid` reporting that pid `100` exited. -/
def demo_env_exit : Env := { demo_env with waitpid := 100 }

/-- Job `A`, arriving at quantum 0. -/
def job_A : job := { name := "A", workload := 2, creation_quantum := 0 }

/-- Job `B`, arriving at quantum 5. -/
def job_B : job := { name := "B", workload := 2, creation_quantum := 5 }

/-- Job `L`, arriving at quantum 1. -/
def job_L : job := { name := "L", workload := 2, creation_quantum := 1 }

/-- The first dispatch of `main`: no signal has arrived, `g_interrupted` still
holds its initial value. -/
def first_step : Step := { signals := [], env := demo_env }

/-- PCB of job `A` once it has been admitted and switched to. -/
def pcb_A_running : process_ctl_block :=
  { name := "A", workload := 2, creation_quantum := 0, state := process_state.RUNNING,
    pid := 100, arrival_time := 10, start_time := 20, completion_time := 0 }

/-- PCB of job `B` as loaded. -/
def pcb_B_created : process_ctl_block :=
  { name := "B", workload := 2, creation_quantum := 5, state := process_state.CREATED,
    pid := 0, arrival_time := 0, start_time := 0, completion_time := 0 }

/-- The globals after the first dispatch on jobs `A` and `B`. -/
def world_A_running : World :=
  { g_scheduler :=
      { pcbs := [pcb_A_running, pcb_B_created]
        num_processes := 2
        current_quantum := 1
        current_process := some 0 }
    g_interrupted := 0
    trace := [event.out_interrupt 0, event.out_arrival "A", event.fork 100,
      event.out_created "A" 100 2, event.alarm 1, event.kill 100 SIGCONT] }

/-- PCB of job `A` as loaded. -/
def pcb_A_created : process_ctl_block :=
  { name := "A", workload := 2, creation_quantum := 0, state := process_state.CREATED,
    pid := 0, arrival_time := 0, start_time := 0, completion_time := 0 }

/-- PCB of job `A` once its process has been reaped. -/
def pcb_A_terminated : process_ctl_block :=
  { name := "A", workload := 2, creation_quantum := 0, state := process_state.TERMINATED,
    pid := 100, arrival_time := 10, start_time := 20, completion_time := 50 }

/-- A child-exit notification arrives and `waitpid` reports pid `100`. -/
def exit_step : Step := { signals := [SIGCHLD], env := demo_env_exit }

/-- A timer notification arrives. -/
def tick_step : Step := { signals := [SIGALRM], env := demo_env }

/-- A child-exit notification arrives and then, before the dispatch, a timer
notification; `waitpid` would report pid `100`. -/
def late_step : Step := { signals := [SIGCHLD, SIGALRM], env := demo_env_exit }

/-- The globals after job `A` has run and exited while job `B` is not yet due. -/
def world_A_terminated : World :=
  { g_scheduler :=
      { pcbs := [pcb_A_terminated, pcb_B_created]
        num_processes := 2
        current_quantum := 1
        current_process := some 0 }
    g_interrupted := 0
    trace := [event.out_interrupt 0, event.out_arrival "A", event.fork 100,
      event.out_created "A" 100 2, event.alarm 1, event.kill 100 SIGCONT,
      event.waitpid 100, event.alarm 0, event.out_interrupt 1] }

/-- The same globals after one more timer dispatch. -/
def world_A_terminated_tick : World :=
  { world_A_terminated with trace := world_A_terminated.trace ++ [event.out_interrupt 1] }

/-- A PCB that is `TERMINATED` although its creation quantum is the current
quantum (not a state the driver reaches). -/
def pcb_stale : process_ctl_block :=
  { name := "Z", workload := 1, creation_quantum := 0, state := process_state.TERMINATED,
    pid := 7, arrival_time := 1, start_time := 2, completion_time := 3 }

/-- A scheduler state holding only `pcb_stale`, at quantum 0. -/
def world_stale : World :=
  { g_scheduler :=
      { pcbs := [pcb_stale], num_processes := 1, current_quantum := 0, current_process := none }
    g_interrupted := 0
    trace := [] }

/-- A `WAITING` PCB with pid `101`. -/
def pcb_W : process_ctl_block :=
  { name := "W", workload := 3, creation_quantum := 1, state := process_state.WAITING,
    pid := 101, arrival_time := 11, start_time := 0, completion_time := 0 }

/-- A `WAITING` PCB with pid `102`. -/
def pcb_V : process_ctl_block :=
  { name := "V", workload := 3, creation_quantum := 1, state := process_state.WAITING,
    pid := 102, arrival_time := 12, start_time := 0, completion_time := 0 }

/-- A scheduler state with a terminated job followed by two waiting ones. -/
def world_queue : World :=
  { g_scheduler :=
      { pcbs := [pcb_A_terminated, pcb_W, pcb_V]
        num_processes := 3
        current_quantum := 3
        current_process := some 0 }
    g_interrupted := 0
    trace := [] }

/-! ## Further invariants -/

/-- Further facts that hold of the scheduler state between two dispatches. -/
structure Inv2 (s : scheduler_state) : Prop where
  /-- A PCB that has left `CREATED` holds a pid that `fork` returned to the parent. -/
  pid_set : ∀ (i : Nat) (p : process_ctl_block), s.pcbs[i]? = some p →
    p.state ≠ process_state.CREATED → p.pid ≠ 0 ∧ p.pid ≠ -1
  /-- No PCB in front of a `RUNNING` PCB is `WAITING`. -/
  priority : ∀ (i : Nat) (p : process_ctl_block), s.pcbs[i]? = some p →
    p.state = process_state.RUNNING →
    ∀ (j : Nat) (q : process_ctl_block), j < i → s.pcbs[j]? = some q →
      q.state ≠ process_state.WAITING

/-- Every PCB still `CREATED` has its creation quantum at or after the current
quantum. -/
def Due (s : scheduler_state) : Prop :=
  ∀ (i : Nat) (p : process_ctl_block), s.pcbs[i]? = some p →
    p.state = process_state.CREATED → s.current_quantum ≤ p.creation_quantum

/-- The timestamps of one PCB are consistent, `hi` being the latest clock
reading so far. -/
structure TOk (hi : Nat) (p : process_ctl_block) : Prop where
  /-- The arrival time is not in the future. -/
  arrival_le : p.arrival_time ≤ hi
  /-- The start time is not in the future. -/
  start_le : p.start_time ≤ hi
  /-- The completion time is not in the future. -/
  completion_le : p.completion_time ≤ hi
  /-- A `CREATED` PCB has neither start nor completion time. -/
  created_unset : p.state = process_state.CREATED → p.start_time = 0 ∧ p.completion_time = 0
  /-- A start time that is set is not before the arrival time. -/
  arrival_start : p.start_time ≠ 0 → p.arrival_time ≤ p.start_time
  /-- A completion time is only set on a `TERMINATED` PCB. -/
  completed_terminated : p.completion_time ≠ 0 → p.state = process_state.TERMINATED
  /-- A completion time that is set is not before the start time. -/
  start_completion : p.completion_time ≠ 0 → p.start_time ≤ p.completion_time

/-- The clock read by `get_time` is non-decreasing along the steps, starting
from a reading `lo`: within one dispatch the completion time is read first,
then the arrival times, then the start time. -/
def clock_ok : Nat → List Step → Prop
  | _, [] => True
  | lo, st :: rest =>
    lo ≤ st.env.time_completion ∧
    (∀ i, st.env.time_completion ≤ st.env.time_arrival i) ∧
    (∀ i, st.env.time_arrival i ≤ st.env.time_start) ∧
    clock_ok st.env.time_start rest

/-- Nothing can run and nothing arrives now: no PCB is `RUNNING` or `WAITING`
and no PCB has its creation quantum equal to the current quantum. -/
def stalled (s : scheduler_state) : Prop :=
  ∀ (i : Nat) (p : process_ctl_block), s.pcbs[i]? = some p →
    p.state ≠ process_state.RUNNING ∧ p.state ≠ process_state.WAITING ∧
    p.creation_quantum ≠ s.current_quantum

/-- The claim's description of a matched child exit, to be compared with
`interrupt_handler`: the child is reaped, `pcbs[i]` is marked `TERMINATED` with
its completion time and the timer disarmed, and then a timer-expiry dispatch is
performed on the resulting state. -/
def mark_then_timer_dispatch (env : Env) (i : Nat) (p : process_ctl_block) (w : World) :
    Except Halt World :=
  interrupt_handler basic env
    { set_pcb (emit w [event.waitpid env.waitpid, event.alarm 0]) i (reaped env p)
      with g_interrupted := SIGALRM }

/-- The PCB `read_spec` builds for a job. -/
def loaded (j : job) : process_ctl_block :=
  { name := j.name, workload := j.workload, creation_quantum := j.creation_quantum,
    state := process_state.CREATED, pid := 0,
    arrival_time := 0, start_time := 0, completion_time := 0 }

/-- The preemption step on the PCB at index `j`, the current process being
`cur`: only the current process is preempted, and only if it is `RUNNING`. -/
def preempted_at (cur : Option Nat) (j : Nat) (x : process_ctl_block) : process_ctl_block :=
  if cur = some j ∧ x.state = process_state.RUNNING
  then { x with state := process_state.WAITING } else x

/-- The PCB at index `j` as the scheduling algorithm finds it in a dispatch that
reaps `pcbs[i]`, `x` being the PCB before the dispatch: marked terminated if
`j = i`, then preempted if it is the current process and `RUNNING`, then
admitted if its creation quantum is the current quantum. -/
def seen_by_policy (env : Env) (w : World) (i j : Nat) (x : process_ctl_block) :
    process_ctl_block :=
  arrived env w.g_scheduler.current_quantum j
    (preempted_at w.g_scheduler.current_process j (if j = i then reaped env x else x))

/-! ## Further concrete runs -/

/-- Job `C`, arriving at quantum 0. -/
def job_C : job := { name := "C", workload := 2, creation_quantum := 0 }

/-- PCB of job `C`, running with pid `101`. -/
def pcb_C_running : process_ctl_block :=
  { name := "C", workload := 2, creation_quantum := 0, state := process_state.RUNNING,
    pid := 101, arrival_time := 11, start_time := 20, completion_time := 0 }

/-- The globals for jobs `A` and `C` after `A` has run and exited and `C` has
been switched to. -/
def world_C_running : World :=
  { g_scheduler :=
      { pcbs := [pcb_A_terminated, pcb_C_running]
        num_processes := 2
        current_quantum := 2
        current_process := some 1 }
    g_interrupted := 0
    trace := [event.out_interrupt 0, event.out_arrival "A", event.fork 100,
      event.out_created "A" 100 2, event.out_arrival "C", event.fork 101,
      event.out_created "C" 101 2, event.alarm 1, event.kill 100 SIGCONT,
      event.waitpid 100, event.alarm 0, event.out_interrupt 1, event.alarm 1,
      event.kill 101 SIGCONT] }

/-- The first dispatch, with clock readings 5, 10 and 20. -/
def timed_first_step : Step :=
  { signals := []
    env := { waitpid := 0, fork := fun i => 100 + (i : Int), kill_ret := 0,
             time_completion := 5, time_arrival := fun _ => 10, time_start := 20 } }

/-- A child-exit notification for pid `100`, with clock readings 50, 60 and 70. -/
def timed_exit_step : Step :=
  { signals := [SIGCHLD]
    env := { waitpid := 100, fork := fun i => 100 + (i : Int), kill_ret := 0,
             time_completion := 50, time_arrival := fun _ => 60, time_start := 70 } }

/-- The globals after the first dispatch on job `A` alone. -/
def world_solo_running : World :=
  { g_scheduler :=
      { pcbs := [pcb_A_running]
        num_processes := 1
        current_quantum := 1
        current_process := some 0 }
    g_interrupted := 0
    trace := [event.out_interrupt 0, event.out_arrival "A", event.fork 100,
      event.out_created "A" 100 2, event.alarm 1, event.kill 100 SIGCONT] }

/-- The same globals after one timer dispatch. -/
def world_solo_tick : World :=
  { g_scheduler := { world_solo_running.g_scheduler with current_quantum := 2 }
    g_interrupted := 0
    trace := world_solo_running.trace ++
      [event.out_interrupt 1, event.kill 100 SIGSTOP, event.alarm 1, event.kill 100 SIGCONT] }

/-- A child-exit notification arrives and `waitpid` reports pid `101`. -/
def exit_step_101 : Step := { signals := [SIGCHLD], env := { demo_env with waitpid := 101 } }

/-- The globals after the first dispatch on jobs `L` (due at quantum 1), `A`
and `C` (both due at quantum 0): `A` runs with pid 101, `C` waits with pid 102. -/
def world_LAC_running : World :=
  { g_scheduler :=
      { pcbs := [loaded job_L,
          { pcb_A_running with pid := 101, arrival_time := 11 },
          { pcb_C_running with state := process_state.WAITING, pid := 102,
                               arrival_time := 12, start_time := 0 }]
        num_processes := 3
        current_quantum := 1
        current_process := some 1 }
    g_interrupted := 0
    trace := [event.out_interrupt 0, event.out_arrival "A", event.fork 101,
      event.out_created "A" 101 2, event.out_arrival "C", event.fork 102,
      event.out_created "C" 102 2, event.alarm 1, event.kill 101 SIGCONT] }

/-- PCB of job `C`, waiting with pid `101`. -/
def pcb_C_waiting : process_ctl_block :=
  { pcb_C_running with state := process_state.WAITING, start_time := 0 }

/-- The globals after the first dispatch on jobs `A` and `C`: `A` runs, `C`
waits. -/
def world_AC_running : World :=
  { g_scheduler :=
      { pcbs := [pcb_A_running, pcb_C_waiting]
        num_processes := 2
        current_quantum := 1
        current_process := some 0 }
    g_interrupted := 0
    trace := [event.out_interrupt 0, event.out_arrival "A", event.fork 100,
      event.out_created "A" 100 2, event.out_arrival "C", event.fork 101,
      event.out_created "C" 101 2, event.alarm 1, event.kill 100 SIGCONT] }

/-! ## Elementary facts about the building blocks -/

@[simp] theorem set_pcb_pcbs (w : World) (i : Nat) (p : process_ctl_block) :
    (set_pcb w i p).g_scheduler.pcbs = w.g_scheduler.pcbs.set i p := rfl

@[simp] theorem set_pcb_num (w : World) (i : Nat) (p : process_ctl_block) :
    (set_pcb w i p).g_scheduler.num_processes = w.g_scheduler.num_processes := rfl

@[simp] theorem set_pcb_quantum (w : World) (i : Nat) (p : process_ctl_block) :
    (set_pcb w i p).g_scheduler.current_quantum = w.g_scheduler.current_quantum := rfl

@[simp] theorem set_pcb_current (w : World) (i : Nat) (p : process_ctl_block) :
    (set_pcb w i p).g_scheduler.current_process = w.g_scheduler.current_process := rfl

@[simp] theorem set_pcb_flag (w : World) (i : Nat) (p : process_ctl_block) :
    (set_pcb w i p).g_interrupted = w.g_interrupted := rfl

@[simp] theorem set_pcb_trace (w : World) (i : Nat) (p : process_ctl_block) :
    (set_pcb w i p).trace = w.trace := rfl

@[simp] theorem emit_sched (w : World) (es : List event) :
    (emit w es).g_scheduler = w.g_scheduler := rfl

@[simp] theorem emit_flag (w : World) (es : List event) :
    (emit w es).g_interrupted = w.g_interrupted := rfl

@[simp] theorem emit_trace (w : World) (es : List event) :
    (emit w es).trace = w.trace ++ es := rfl

@[simp] theorem switched_state (env : Env) (p : process_ctl_block) :
    (switched env p).state = process_state.RUNNING := rfl

@[simp] theorem switched_pid (env : Env) (p : process_ctl_block) :
    (switched env p).pid = p.pid := by
  unfold switched; split <;> rfl

@[simp] theorem switched_creation (env : Env) (p : process_ctl_block) :
    (switched env p).creation_quantum = p.creation_quantum := by
  unfold switched; split <;> rfl

/-- A successful `context_switch` on an existing PCB, field by field. -/
theorem context_switch_ok {env : Env} {i : Nat} {w w' : World} {p : process_ctl_block}
    (hp : w.g_scheduler.pcbs[i]? = some p) (h : context_switch env i w = .ok w') :
    env.kill_ret ≠ -1 ∧
    w'.g_scheduler.pcbs = w.g_scheduler.pcbs.set i (switched env p) ∧
    w'.g_scheduler.num_processes = w.g_scheduler.num_processes ∧
    w'.g_scheduler.current_quantum = w.g_scheduler.current_quantum + 1 ∧
    w'.g_scheduler.current_process = some i ∧
    w'.g_interrupted = w.g_interrupted ∧
    w'.trace = w.trace ++ [event.alarm 1, event.kill p.pid SIGCONT] := by
  unfold context_switch at h
  rw [hp] at h
  simp only at h
  by_cases hk : env.kill_ret = -1
  · rw [if_pos hk] at h; cases h
  · rw [if_neg hk] at h
    injection h with h
    subst h
    refine ⟨hk, ?_, rfl, rfl, rfl, rfl, ?_⟩
    · rfl
    · show w.trace ++ _ = _
      by_cases h0 : p.start_time = 0 <;> simp [h0]

/-- When `kill(pid, SIGCONT)` succeeds, `context_switch` returns. -/
theorem context_switch_returns {env : Env} (i : Nat) (w : World) (hk : env.kill_ret ≠ -1) :
    ∃ w', context_switch env i w = .ok w' := by
  unfold context_switch
  cases w.g_scheduler.pcbs[i]? with
  | none => exact ⟨_, rfl⟩
  | some p => simp only [if_neg hk]; exact ⟨_, rfl⟩

/-- What a successful run of the arrival loop over the indices `i, ..., i+n-1`
does to each PCB and to the rest of the globals. -/
theorem handle_arrivals_loop_ok (env : Env) :
    ∀ (n i : Nat) (w w' : World), handle_arrivals_loop env n i w = .ok w' →
      w'.g_scheduler.num_processes = w.g_scheduler.num_processes ∧
      w'.g_scheduler.current_quantum = w.g_scheduler.current_quantum ∧
      w'.g_scheduler.current_process = w.g_scheduler.current_process ∧
      w'.g_interrupted = w.g_interrupted ∧
      w'.g_scheduler.pcbs.length = w.g_scheduler.pcbs.length ∧
      (∃ es, w'.trace = w.trace ++ es ∧ ∀ e ∈ es, arrival_event e = true) ∧
      (∀ j, w'.g_scheduler.pcbs[j]? = (w.g_scheduler.pcbs[j]?).map (fun p =>
          if i ≤ j ∧ j < i + n ∧ p.creation_quantum = w.g_scheduler.current_quantum
          then admitted env j p else p)) ∧
      (∀ j p, i ≤ j → j < i + n → w.g_scheduler.pcbs[j]? = some p →
          p.creation_quantum = w.g_scheduler.current_quantum →
          env.fork j ≠ -1 ∧ env.fork j ≠ 0) := by
  intro n
  induction n with
  | zero =>
    intro i w w' h
    simp only [handle_arrivals_loop] at h
    injection h with h
    subst h
    refine ⟨rfl, rfl, rfl, rfl, rfl, ⟨[], by simp, by simp⟩, ?_, ?_⟩
    · intro j
      cases hj : w.g_scheduler.pcbs[j]? with
      | none => rfl
      | some p =>
        have : ¬ (i ≤ j ∧ j < i + 0 ∧ p.creation_quantum = w.g_scheduler.current_quantum) := by
          omega
        simp only [Option.map_some', if_neg this]
    · intro j p h1 h2
      omega
  | succ n ih =>
    intro i w w' h
    rw [handle_arrivals_loop] at h
    cases hi : w.g_scheduler.pcbs[i]? with
    | none =>
      rw [hi] at h
      simp only at h
      obtain ⟨a1, a2, a3, a4, a5, a6, a7, a8⟩ := ih (i + 1) w w' h
      refine ⟨a1, a2, a3, a4, a5, a6, ?_, ?_⟩
      · intro j
        rw [a7 j]
        by_cases hji : j = i
        · subst hji; rw [hi]; rfl
        · cases hj : w.g_scheduler.pcbs[j]? with
          | none => rfl
          | some p =>
            simp only [Option.map_some']
            congr 1
            have : (i + 1 ≤ j ∧ j < i + 1 + n ∧
                p.creation_quantum = w.g_scheduler.current_quantum) ↔
                (i ≤ j ∧ j < i + (n + 1) ∧
                p.creation_quantum = w.g_scheduler.current_quantum) := by
              constructor <;> rintro ⟨x, y, z⟩ <;> exact ⟨by omega, by omega, z⟩
            simp only [this]
      · intro j p h1 h2 h3 h4
        by_cases hji : j = i
        · subst hji; rw [hi] at h3; cases h3
        · exact a8 j p (by omega) (by omega) h3 h4
    | some pcb =>
      rw [hi] at h
      simp only at h
      by_cases hq : pcb.creation_quantum = w.g_scheduler.current_quantum
      · rw [if_pos hq] at h
        by_cases hf1 : env.fork i = -1
        · rw [if_pos hf1] at h; cases h
        rw [if_neg hf1] at h
        by_cases hf0 : env.fork i = 0
        · rw [if_pos hf0] at h; cases h
        rw [if_neg hf0] at h
        obtain ⟨a1, a2, a3, a4, a5, a6, a7, a8⟩ := ih (i + 1) _ w' h
        have hlen : i < w.g_scheduler.pcbs.length := by
          rcases List.getElem?_eq_some_iff.mp hi with ⟨hl, _⟩
          exact hl
        refine ⟨a1, a2, a3, a4, ?_, ?_, ?_, ?_⟩
        · rw [a5]; simp
        · obtain ⟨es, he, hall⟩ := a6
          refine ⟨[event.out_arrival pcb.name, event.fork (env.fork i)] ++
            ([event.out_created pcb.name (env.fork i) pcb.workload] ++ es), ?_, ?_⟩
          · rw [he]; simp
          · intro e hmem
            simp only [List.mem_append, List.mem_cons, List.mem_singleton, List.not_mem_nil,
              or_false] at hmem
            rcases hmem with (h1 | h1) | h1 | h1
            · subst h1; rfl
            · subst h1; rfl
            · subst h1; rfl
            · exact hall e h1
        · intro j
          rw [a7 j]
          simp only [set_pcb_pcbs, emit_sched, set_pcb_quantum, List.set_set]
          by_cases hji : j = i
          · subst hji
            rw [hi, List.getElem?_set_self hlen]
            simp only [Option.map_some']
            congr 1
            have h1 : ¬ (j + 1 ≤ j ∧ j < j + 1 + n ∧ env.time_arrival j = env.time_arrival j) := by
              omega
            have h2 : (j ≤ j ∧ j < j + (n + 1) ∧
                pcb.creation_quantum = w.g_scheduler.current_quantum) := ⟨le_refl _, by omega, hq⟩
            simp [h2, admitted]
          · rw [List.getElem?_set_ne (Ne.symm hji)]
            cases hj : w.g_scheduler.pcbs[j]? with
            | none => rfl
            | some p =>
              simp only [Option.map_some']
              congr 1
              have : (i + 1 ≤ j ∧ j < i + 1 + n ∧
                  p.creation_quantum = w.g_scheduler.current_quantum) ↔
                  (i ≤ j ∧ j < i + (n + 1) ∧
                  p.creation_quantum = w.g_scheduler.current_quantum) := by
                constructor <;> rintro ⟨x, y, z⟩ <;> exact ⟨by omega, by omega, z⟩
              simp only [this]
        · intro j p h1 h2 h3 h4
          by_cases hji : j = i
          · subst hji; exact ⟨hf1, hf0⟩
          · refine a8 j p (by omega) (by omega) ?_ h4
            simp only [set_pcb_pcbs, emit_sched, List.set_set]
            rw [List.getElem?_set_ne (Ne.symm hji)]
            exact h3
      · rw [if_neg hq] at h
        obtain ⟨a1, a2, a3, a4, a5, a6, a7, a8⟩ := ih (i + 1) w w' h
        refine ⟨a1, a2, a3, a4, a5, a6, ?_, ?_⟩
        · intro j
          rw [a7 j]
          by_cases hji : j = i
          · subst hji
            rw [hi]
            simp only [Option.map_some']
            congr 1
            have h1 : ¬ (j + 1 ≤ j ∧ j < j + 1 + n ∧
                pcb.creation_quantum = w.g_scheduler.current_quantum) := by omega
            have h2 : ¬ (j ≤ j ∧ j < j + (n + 1) ∧
                pcb.creation_quantum = w.g_scheduler.current_quantum) := fun h => hq h.2.2
            simp only [h1, h2, if_false]
          · cases hj : w.g_scheduler.pcbs[j]? with
            | none => rfl
            | some p =>
              simp only [Option.map_some']
              congr 1
              have : (i + 1 ≤ j ∧ j < i + 1 + n ∧
                  p.creation_quantum = w.g_scheduler.current_quantum) ↔
                  (i ≤ j ∧ j < i + (n + 1) ∧
                  p.creation_quantum = w.g_scheduler.current_quantum) := by
                constructor <;> rintro ⟨x, y, z⟩ <;> exact ⟨by omega, by omega, z⟩
              simp only [this]
        · intro j p h1 h2 h3 h4
          by_cases hji : j = i
          · subst hji; rw [hi] at h3; cases h3; exact absurd h4 hq
          · exact a8 j p (by omega) (by omega) h3 h4

/-- When every `fork` the loop has to make succeeds, the arrival loop returns. -/
theorem handle_arrivals_loop_returns (env : Env) :
    ∀ (n i : Nat) (w : World),
      (∀ j p, i ≤ j → j < i + n → w.g_scheduler.pcbs[j]? = some p →
        p.creation_quantum = w.g_scheduler.current_quantum →
        env.fork j ≠ -1 ∧ env.fork j ≠ 0) →
      ∃ w', handle_arrivals_loop env n i w = .ok w' := by
  intro n
  induction n with
  | zero => intro i w _; exact ⟨w, rfl⟩
  | succ n ih =>
    intro i w hf
    rw [handle_arrivals_loop]
    cases hi : w.g_scheduler.pcbs[i]? with
    | none =>
      exact ih (i + 1) w fun j p h1 h2 h3 h4 => hf j p (by omega) (by omega) h3 h4
    | some pcb =>
      simp only
      by_cases hq : pcb.creation_quantum = w.g_scheduler.current_quantum
      · obtain ⟨hf1, hf0⟩ := hf i pcb (le_refl _) (by omega) hi hq
        rw [if_pos hq, if_neg hf1, if_neg hf0]
        apply ih
        intro j p h1 h2 h3 h4
        simp only [set_pcb_pcbs, emit_sched, List.set_set] at h3
        rw [List.getElem?_set_ne (by omega)] at h3
        exact hf j p (by omega) (by omega) h3 h4
      · rw [if_neg hq]
        exact ih (i + 1) w fun j p h1 h2 h3 h4 => hf j p (by omega) (by omega) h3 h4

/-- A successful run of the loop of `basic` over the indices `i, ..., i+n-1`:
either none of them is `WAITING` and nothing happens, or the first `WAITING`
one is switched to. -/
theorem basic_loop_ok (env : Env) :
    ∀ (n i : Nat) (w w' : World), basic_loop env n i w = .ok w' →
      ((∀ j p, i ≤ j → j < i + n → w.g_scheduler.pcbs[j]? = some p →
          p.state ≠ process_state.WAITING) ∧ w' = w) ∨
      (∃ k p, i ≤ k ∧ k < i + n ∧ w.g_scheduler.pcbs[k]? = some p ∧
          p.state = process_state.WAITING ∧
          (∀ j q, i ≤ j → j < k → w.g_scheduler.pcbs[j]? = some q →
            q.state ≠ process_state.WAITING) ∧
          context_switch env k w = .ok w') := by
  intro n
  induction n with
  | zero =>
    intro i w w' h
    simp only [basic_loop] at h
    injection h with h
    exact Or.inl ⟨fun j p h1 h2 => by omega, h.symm⟩
  | succ n ih =>
    intro i w w' h
    rw [basic_loop] at h
    have step : basic_loop env n (i + 1) w = .ok w' →
        (∀ q, w.g_scheduler.pcbs[i]? = some q → q.state ≠ process_state.WAITING) →
        ((∀ j p, i ≤ j → j < i + (n + 1) → w.g_scheduler.pcbs[j]? = some p →
          p.state ≠ process_state.WAITING) ∧ w' = w) ∨
        (∃ k p, i ≤ k ∧ k < i + (n + 1) ∧ w.g_scheduler.pcbs[k]? = some p ∧
          p.state = process_state.WAITING ∧
          (∀ j q, i ≤ j → j < k → w.g_scheduler.pcbs[j]? = some q →
            q.state ≠ process_state.WAITING) ∧
          context_switch env k w = .ok w') := by
      intro h hi
      rcases ih (i + 1) w w' h with ⟨hall, he⟩ | ⟨k, p, h1, h2, h3, h4, h5, h6⟩
      · left
        refine ⟨fun j p h1 h2 h3 => ?_, he⟩
        by_cases hji : j = i
        · subst hji; exact hi p h3
        · exact hall j p (by omega) (by omega) h3
      · right
        refine ⟨k, p, by omega, by omega, h3, h4, fun j q g1 g2 g3 => ?_, h6⟩
        by_cases hji : j = i
        · subst hji; exact hi q g3
        · exact h5 j q (by omega) g2 g3
    cases hi : w.g_scheduler.pcbs[i]? with
    | none =>
      rw [hi] at h
      exact step h (fun q hq => by rw [hi] at hq; cases hq)
    | some pcb =>
      rw [hi] at h
      simp only at h
      by_cases hw : pcb.state = process_state.WAITING
      · rw [if_pos hw] at h
        right
        exact ⟨i, pcb, le_refl _, by omega, hi, hw, fun j q g1 g2 => by omega, h⟩
      · rw [if_neg hw] at h
        exact step h (fun q hq => by rw [hi] at hq; cases hq; exact hw)

/-- When `kill(pid, SIGCONT)` succeeds, the loop of `basic` returns. -/
theorem basic_loop_returns (env : Env) (hk : env.kill_ret ≠ -1) :
    ∀ (n i : Nat) (w : World), ∃ w', basic_loop env n i w = .ok w' := by
  intro n
  induction n with
  | zero => intro i w; exact ⟨w, rfl⟩
  | succ n ih =>
    intro i w
    rw [basic_loop]
    cases hi : w.g_scheduler.pcbs[i]? with
    | none => exact ih (i + 1) w
    | some pcb =>
      simp only
      by_cases hw : pcb.state = process_state.WAITING
      · rw [if_pos hw]; exact context_switch_returns i w hk
      · rw [if_neg hw]; exact ih (i + 1) w

/-- The search loop returns the first index in its range whose `pid` is `child`. -/
theorem find_pcb_loop_some (s : scheduler_state) (child : Int) :
    ∀ (n i k : Nat), find_pcb_loop s child n i = some k →
      i ≤ k ∧ k < i + n ∧ (∃ p, s.pcbs[k]? = some p ∧ p.pid = child) ∧
      ∀ (j : Nat) (q : process_ctl_block), i ≤ j → j < k → s.pcbs[j]? = some q →
        q.pid ≠ child := by
  intro n
  induction n with
  | zero => intro i k h; simp [find_pcb_loop] at h
  | succ n ih =>
    intro i k h
    rw [find_pcb_loop] at h
    cases hi : s.pcbs[i]? with
    | none =>
      rw [hi] at h
      obtain ⟨a, b, c, d⟩ := ih (i + 1) k h
      refine ⟨by omega, by omega, c, fun j q h1 h2 h3 => ?_⟩
      by_cases hji : j = i
      · subst hji; rw [hi] at h3; cases h3
      · exact d j q (by omega) h2 h3
    | some pcb =>
      rw [hi] at h
      simp only at h
      by_cases hp : pcb.pid = child
      · rw [if_pos hp] at h
        injection h with h
        subst h
        exact ⟨le_refl _, by omega, ⟨pcb, hi, hp⟩, fun j q h1 h2 => by omega⟩
      · rw [if_neg hp] at h
        obtain ⟨a, b, c, d⟩ := ih (i + 1) k h
        refine ⟨by omega, by omega, c, fun j q h1 h2 h3 => ?_⟩
        by_cases hji : j = i
        · subst hji; rw [hi] at h3; cases h3; exact hp
        · exact d j q (by omega) h2 h3

/-- The search loop finds nothing exactly when no PCB in its range has the `pid`. -/
theorem find_pcb_loop_none (s : scheduler_state) (child : Int) :
    ∀ (n i : Nat), find_pcb_loop s child n i = none ↔
      ∀ j p, i ≤ j → j < i + n → s.pcbs[j]? = some p → p.pid ≠ child := by
  intro n
  induction n with
  | zero =>
    intro i
    simp only [find_pcb_loop, true_iff]
    intro j p h1 h2; omega
  | succ n ih =>
    intro i
    rw [find_pcb_loop]
    cases hi : s.pcbs[i]? with
    | none =>
      simp only
      rw [ih (i + 1)]
      constructor
      · intro h j p h1 h2 h3
        by_cases hji : j = i
        · subst hji; rw [hi] at h3; cases h3
        · exact h j p (by omega) (by omega) h3
      · intro h j p h1 h2 h3
        exact h j p (by omega) (by omega) h3
    | some pcb =>
      simp only
      by_cases hp : pcb.pid = child
      · rw [if_pos hp]
        constructor
        · intro h; cases h
        · intro h; exact absurd hp (h i pcb (le_refl _) (by omega) hi)
      · rw [if_neg hp, ih (i + 1)]
        constructor
        · intro h j p h1 h2 h3
          by_cases hji : j = i
          · subst hji; rw [hi] at h3; cases h3; exact hp
          · exact h j p (by omega) (by omega) h3
        · intro h j p h1 h2 h3
          exact h j p (by omega) (by omega) h3

/-- The counting loop of `main` adds to its counter the number of `TERMINATED`
PCBs from index `i` on, when its range ends with the array. -/
theorem count_terminated_loop_eq (s : scheduler_state) :
    ∀ (n i t : Nat), i + n = s.pcbs.length →
      count_terminated_loop s n i t =
        t + (s.pcbs.drop i).countP (fun p => decide (p.state = process_state.TERMINATED)) := by
  intro n
  induction n with
  | zero =>
    intro i t h
    have : s.pcbs.drop i = [] := List.drop_eq_nil_of_le (by omega)
    simp [count_terminated_loop, this]
  | succ n ih =>
    intro i t h
    have hlt : i < s.pcbs.length := by omega
    rw [count_terminated_loop, List.getElem?_eq_getElem hlt, List.drop_eq_getElem_cons hlt,
      List.countP_cons]
    simp only
    by_cases ht : (s.pcbs[i]).state = process_state.TERMINATED
    · rw [if_pos ht, ih (i + 1) (t + 1) (by omega)]
      simp [ht]; omega
    · rw [if_neg ht, ih (i + 1) t (by omega)]
      simp [ht]

theorem preempt_no_current {w : World} (hc : w.g_scheduler.current_process = none) :
    preempt w = w := by
  unfold preempt; rw [hc]

theorem preempt_dangling {w : World} {c : Nat} (hc : w.g_scheduler.current_process = some c)
    (hp : w.g_scheduler.pcbs[c]? = none) : preempt w = w := by
  unfold preempt; rw [hc]; simp only; rw [hp]

theorem preempt_not_running {w : World} {c : Nat} {cur : process_ctl_block}
    (hc : w.g_scheduler.current_process = some c) (hp : w.g_scheduler.pcbs[c]? = some cur)
    (hr : cur.state ≠ process_state.RUNNING) : preempt w = w := by
  unfold preempt; rw [hc]; simp only; rw [hp]; simp only; rw [if_neg hr]

theorem preempt_running {w : World} {c : Nat} {cur : process_ctl_block}
    (hc : w.g_scheduler.current_process = some c) (hp : w.g_scheduler.pcbs[c]? = some cur)
    (hr : cur.state = process_state.RUNNING) :
    preempt w = set_pcb (emit w [event.kill cur.pid SIGSTOP]) c
      { cur with state := process_state.WAITING } := by
  unfold preempt; rw [hc]; simp only; rw [hp]; simp only; rw [if_pos hr]

/-- What `preempt` does to each PCB and to the rest of the globals. -/
theorem preempt_spec (w : World) :
    (preempt w).g_scheduler.num_processes = w.g_scheduler.num_processes ∧
    (preempt w).g_scheduler.current_quantum = w.g_scheduler.current_quantum ∧
    (preempt w).g_scheduler.current_process = w.g_scheduler.current_process ∧
    (preempt w).g_interrupted = w.g_interrupted ∧
    (preempt w).g_scheduler.pcbs.length = w.g_scheduler.pcbs.length ∧
    (∀ j, (preempt w).g_scheduler.pcbs[j]? =
      (w.g_scheduler.pcbs[j]?).map (fun p : process_ctl_block =>
      if w.g_scheduler.current_process = some j ∧ p.state = process_state.RUNNING
      then { p with state := process_state.WAITING } else p)) := by
  have same : ∀ j : Nat, (∀ p : process_ctl_block, w.g_scheduler.pcbs[j]? = some p →
      ¬ (w.g_scheduler.current_process = some j ∧ p.state = process_state.RUNNING)) →
      w.g_scheduler.pcbs[j]? = (w.g_scheduler.pcbs[j]?).map (fun p : process_ctl_block =>
      if w.g_scheduler.current_process = some j ∧ p.state = process_state.RUNNING
      then { p with state := process_state.WAITING } else p) := by
    intro j hj
    cases hq : w.g_scheduler.pcbs[j]? with
    | none => rfl
    | some p => simp only [Option.map_some', if_neg (hj p hq)]
  cases hc : w.g_scheduler.current_process with
  | none =>
    rw [preempt_no_current hc]
    refine ⟨rfl, rfl, hc, rfl, rfl, fun j => ?_⟩
    rw [← hc]
    exact same j (fun p _ h => by rw [hc] at h; cases h.1)
  | some c =>
    cases hp : w.g_scheduler.pcbs[c]? with
    | none =>
      rw [preempt_dangling hc hp]
      refine ⟨rfl, rfl, hc, rfl, rfl, fun j => ?_⟩
      rw [← hc]
      refine same j (fun p hj h => ?_)
      rw [hc] at h
      have := h.1
      injection this with this
      subst this
      rw [hp] at hj; cases hj
    | some cur =>
      by_cases hr : cur.state = process_state.RUNNING
      · rw [preempt_running hc hp hr]
        have hlen : c < w.g_scheduler.pcbs.length := by
          rcases List.getElem?_eq_some_iff.mp hp with ⟨hl, _⟩
          exact hl
        refine ⟨rfl, rfl, hc, rfl, by simp, fun j => ?_⟩
        simp only [set_pcb_pcbs, emit_sched]
        by_cases hjc : c = j
        · subst hjc
          rw [List.getElem?_set_self hlen, hp]
          simp [hr]
        · rw [List.getElem?_set_ne hjc, ← hc]
          refine same j (fun p _ h => ?_)
          rw [hc] at h
          have := h.1
          injection this with this
          exact hjc this
      · rw [preempt_not_running hc hp hr]
        refine ⟨rfl, rfl, hc, rfl, rfl, fun j => ?_⟩
        rw [← hc]
        refine same j (fun p hj h => ?_)
        rw [hc] at h
        have := h.1
        injection this with this
        subst this
        rw [hp] at hj; cases hj; exact hr h.2

/-- The record of calls only grows in `preempt`. -/
theorem preempt_trace (w : World) : ∃ es, (preempt w).trace = w.trace ++ es := by
  unfold preempt
  split
  · exact ⟨[], by simp⟩
  · split
    · exact ⟨[], by simp⟩
    · split
      · exact ⟨_, rfl⟩
      · exact ⟨[], by simp⟩

/-- What `mark_terminated` does when `pcbs[i]` exists. -/
theorem mark_terminated_spec (env : Env) (i : Nat) (w : World) (p : process_ctl_block)
    (hp : w.g_scheduler.pcbs[i]? = some p) :
    mark_terminated env i w =
      { set_pcb (emit w [event.alarm 0]) i (reaped env p) with g_interrupted := SIGALRM } := by
  unfold mark_terminated
  rw [hp]
  rfl

/-- The PCBs after `mark_terminated`. -/
theorem mark_terminated_get (env : Env) (i : Nat) (w : World) (p : process_ctl_block)
    (hp : w.g_scheduler.pcbs[i]? = some p) (j : Nat) :
    (mark_terminated env i w).g_scheduler.pcbs[j]? =
      if i = j then some (reaped env p) else w.g_scheduler.pcbs[j]? := by
  rw [mark_terminated_spec env i w p hp]
  show (w.g_scheduler.pcbs.set i (reaped env p))[j]? = _
  rw [List.getElem?_set]
  have hlen : i < w.g_scheduler.pcbs.length := by
    rcases List.getElem?_eq_some_iff.mp hp with ⟨hl, _⟩
    exact hl
  by_cases hij : i = j
  · rw [if_pos hij, if_pos hij, if_pos hlen]
  · rw [if_neg hij, if_neg hij]

/-- The other globals after `mark_terminated`. -/
theorem mark_terminated_rest (env : Env) (i : Nat) (w : World) (p : process_ctl_block)
    (hp : w.g_scheduler.pcbs[i]? = some p) :
    (mark_terminated env i w).g_scheduler.num_processes = w.g_scheduler.num_processes ∧
    (mark_terminated env i w).g_scheduler.current_quantum = w.g_scheduler.current_quantum ∧
    (mark_terminated env i w).g_scheduler.current_process = w.g_scheduler.current_process ∧
    (mark_terminated env i w).g_interrupted = SIGALRM ∧
    (mark_terminated env i w).trace = w.trace ++ [event.alarm 0] := by
  rw [mark_terminated_spec env i w p hp]
  exact ⟨rfl, rfl, rfl, rfl, rfl⟩

/-- An index that holds a PCB is below the length of the array. -/
theorem lt_length_of_get {s : scheduler_state} {j : Nat} {p : process_ctl_block}
    (h : s.pcbs[j]? = some p) : j < s.pcbs.length := by
  rcases List.getElem?_eq_some_iff.mp h with ⟨hl, _⟩
  exact hl

/-- What a successful `handle_arrivals` does when `num_processes` is the
number of PCBs: exactly the PCBs whose creation quantum is the current quantum
are rewritten, whatever their state. -/
theorem handle_arrivals_ok {env : Env} {w w' : World}
    (hwf : w.g_scheduler.num_processes = w.g_scheduler.pcbs.length)
    (h : handle_arrivals env w = .ok w') :
    w'.g_scheduler.num_processes = w.g_scheduler.num_processes ∧
    w'.g_scheduler.current_quantum = w.g_scheduler.current_quantum ∧
    w'.g_scheduler.current_process = w.g_scheduler.current_process ∧
    w'.g_interrupted = w.g_interrupted ∧
    w'.g_scheduler.pcbs.length = w.g_scheduler.pcbs.length ∧
    (∃ es, w'.trace = w.trace ++ es ∧ ∀ e ∈ es, arrival_event e = true) ∧
    (∀ j, w'.g_scheduler.pcbs[j]? =
      (w.g_scheduler.pcbs[j]?).map (fun p : process_ctl_block =>
        if p.creation_quantum = w.g_scheduler.current_quantum
        then admitted env j p else p)) ∧
    (∀ (j : Nat) (p : process_ctl_block), w.g_scheduler.pcbs[j]? = some p →
        p.creation_quantum = w.g_scheduler.current_quantum →
        env.fork j ≠ -1 ∧ env.fork j ≠ 0) := by
  obtain ⟨a1, a2, a3, a4, a5, a6, a7, a8⟩ :=
    handle_arrivals_loop_ok env _ 0 w w' h
  refine ⟨a1, a2, a3, a4, a5, a6, fun j => ?_, fun j p hj hq => ?_⟩
  · rw [a7 j]
    cases hj : w.g_scheduler.pcbs[j]? with
    | none => rfl
    | some p =>
      have hlt := lt_length_of_get hj
      simp only [Option.map_some']
      congr 1
      have : (0 ≤ j ∧ j < 0 + w.g_scheduler.num_processes ∧
          p.creation_quantum = w.g_scheduler.current_quantum) ↔
          p.creation_quantum = w.g_scheduler.current_quantum :=
        ⟨fun x => x.2.2, fun x => ⟨Nat.zero_le _, by omega, x⟩⟩
      simp only [this]
  · have hlt := lt_length_of_get hj
    exact a8 j p (Nat.zero_le _) (by omega) hj hq

/-- When every `fork` for an arriving PCB succeeds, `handle_arrivals` returns. -/
theorem handle_arrivals_returns {env : Env} {w : World}
    (hf : ∀ (j : Nat) (p : process_ctl_block), w.g_scheduler.pcbs[j]? = some p →
        p.creation_quantum = w.g_scheduler.current_quantum →
        env.fork j ≠ -1 ∧ env.fork j ≠ 0) :
    ∃ w', handle_arrivals env w = .ok w' :=
  handle_arrivals_loop_returns env _ 0 w (fun j p _ _ h3 h4 => hf j p h3 h4)

/-- What a successful `basic` does when `num_processes` is the number of PCBs. -/
theorem basic_ok {env : Env} {w w' : World}
    (hwf : w.g_scheduler.num_processes = w.g_scheduler.pcbs.length)
    (h : basic env w = .ok w') :
    ((∀ (j : Nat) (p : process_ctl_block), w.g_scheduler.pcbs[j]? = some p →
        p.state ≠ process_state.WAITING) ∧ w' = w) ∨
    (∃ (k : Nat) (p : process_ctl_block), w.g_scheduler.pcbs[k]? = some p ∧
        p.state = process_state.WAITING ∧
        (∀ (j : Nat) (q : process_ctl_block), j < k → w.g_scheduler.pcbs[j]? = some q →
          q.state ≠ process_state.WAITING) ∧
        context_switch env k w = .ok w') := by
  rcases basic_loop_ok env _ 0 w w' h with ⟨hall, he⟩ | ⟨k, p, _, _, h3, h4, h5, h6⟩
  · left
    refine ⟨fun j p hj => ?_, he⟩
    have hlt := lt_length_of_get hj
    exact hall j p (Nat.zero_le _) (by omega) hj
  · right
    exact ⟨k, p, h3, h4, fun j q hjk hj => h5 j q (Nat.zero_le _) hjk hj, h6⟩

/-- The loaded state satisfies the invariant. -/
theorem inv_read_spec (jobs : List job) : Inv (read_spec jobs) := by
  have hget : ∀ (i : Nat) (p : process_ctl_block), (read_spec jobs).pcbs[i]? = some p →
      p.state = process_state.CREATED ∧ p.pid = 0 := by
    intro i p hp
    simp only [read_spec, List.getElem?_map] at hp
    rcases Option.map_eq_some'.mp hp with ⟨j, _, hj⟩
    subst hj
    exact ⟨rfl, rfl⟩
  refine ⟨by simp [read_spec], ?_, ?_, ?_, ?_⟩
  · intro i p hp hr
    rw [(hget i p hp).1] at hr; cases hr
  · intro i p hp hc
    exact absurd (hget i p hp).1 hc
  · intro i p hp _
    exact (hget i p hp).2
  · intro c hc
    simp [read_spec] at hc

/-- Marking a PCB that has a process handle as terminated keeps the invariant. -/
theorem inv_mark_terminated {env : Env} {i : Nat} {w : World} {p : process_ctl_block}
    (hinv : Inv w.g_scheduler) (hp : w.g_scheduler.pcbs[i]? = some p) (hpid : p.pid ≠ 0) :
    Inv (mark_terminated env i w).g_scheduler := by
  rw [mark_terminated_spec env i w p hp]
  have hlen := lt_length_of_get hp
  have hnc : p.state ≠ process_state.CREATED := fun hc => hpid (hinv.created_pid i p hp hc)
  have hget : ∀ (j : Nat) (q : process_ctl_block),
      (w.g_scheduler.pcbs.set i (reaped env p))[j]? = some q →
      (j = i ∧ q = reaped env p) ∨ (j ≠ i ∧ w.g_scheduler.pcbs[j]? = some q) := by
    intro j q hq
    by_cases hji : i = j
    · subst hji
      rw [List.getElem?_set_self hlen] at hq
      injection hq with hq
      exact Or.inl ⟨rfl, hq.symm⟩
    · rw [List.getElem?_set_ne hji] at hq
      exact Or.inr ⟨fun h => hji h.symm, hq⟩
  refine ⟨?_, ?_, ?_, ?_, ?_⟩
  · simp [hinv.wf]
  · intro j q hq hr
    rcases hget j q hq with ⟨_, he⟩ | ⟨_, ho⟩
    · subst he; cases hr
    · exact hinv.running_is_current j q ho hr
  · intro j q hq hc
    rcases hget j q hq with ⟨_, he⟩ | ⟨_, ho⟩
    · subst he; exact hinv.admitted_before i p hp hnc
    · exact hinv.admitted_before j q ho hc
  · intro j q hq hc
    rcases hget j q hq with ⟨_, he⟩ | ⟨_, ho⟩
    · subst he; cases hc
    · exact hinv.created_pid j q ho hc
  · intro c hc
    obtain ⟨q, hq, hs⟩ := hinv.current_state c hc
    by_cases hci : i = c
    · subst hci
      refine ⟨_, List.getElem?_set_self hlen, Or.inr rfl⟩
    · refine ⟨q, ?_, hs⟩
      show (w.g_scheduler.pcbs.set i _)[c]? = some q
      rw [List.getElem?_set_ne hci]
      exact hq

/-- After the preemption no PCB is `RUNNING`. -/
theorem mid_preempt {w : World} (hinv : Inv w.g_scheduler) : Mid (preempt w).g_scheduler := by
  obtain ⟨a1, a2, a3, _, a5, a6⟩ := preempt_spec w
  have hget : ∀ (j : Nat) (q : process_ctl_block), (preempt w).g_scheduler.pcbs[j]? = some q →
      ∃ p, w.g_scheduler.pcbs[j]? = some p ∧
        ((p.state = process_state.RUNNING ∧ q = { p with state := process_state.WAITING }) ∨
         (p.state ≠ process_state.RUNNING ∧ q = p)) := by
    intro j q hq
    rw [a6 j] at hq
    rcases Option.map_eq_some'.mp hq with ⟨p, hp, he⟩
    refine ⟨p, hp, ?_⟩
    by_cases hr : p.state = process_state.RUNNING
    · have hcur := hinv.running_is_current j p hp hr
      rw [if_pos ⟨hcur, hr⟩] at he
      exact Or.inl ⟨hr, he.symm⟩
    · rw [if_neg (fun h => hr h.2)] at he
      exact Or.inr ⟨hr, he.symm⟩
  refine ⟨?_, ?_, ?_, ?_, ?_⟩
  · rw [a1, a5]; exact hinv.wf
  · intro j q hq
    rcases hget j q hq with ⟨p, _, ⟨_, he⟩ | ⟨hr, he⟩⟩
    · subst he; simp
    · subst he; exact hr
  · intro j q hq hc
    left
    rw [a2]
    rcases hget j q hq with ⟨p, hp, ⟨hr, he⟩ | ⟨_, he⟩⟩
    · subst he
      exact hinv.admitted_before j p hp (by rw [hr]; simp)
    · subst he; exact hinv.admitted_before j q hp hc
  · intro j q hq hc
    rcases hget j q hq with ⟨p, hp, ⟨_, he⟩ | ⟨_, he⟩⟩
    · subst he; cases hc
    · subst he; exact hinv.created_pid j q hp hc
  · intro c hc
    rw [a3] at hc
    obtain ⟨p, hp, hs⟩ := hinv.current_state c hc
    rw [a6 c, hp]
    simp only [Option.map_some']
    by_cases hr : p.state = process_state.RUNNING
    · rw [if_pos ⟨hc, hr⟩]
      exact ⟨_, rfl, Or.inl rfl⟩
    · rw [if_neg (fun h => hr h.2)]
      rcases hs with hs | hs
      · exact absurd hs hr
      · exact ⟨p, rfl, Or.inr hs⟩

/-- Arrival admission keeps the mid-dispatch invariant. -/
theorem mid_handle_arrivals {env : Env} {w w' : World} (hm : Mid w.g_scheduler)
    (h : handle_arrivals env w = .ok w') : Mid w'.g_scheduler := by
  obtain ⟨a1, a2, a3, _, a5, _, a7, a8⟩ := handle_arrivals_ok hm.wf h
  have hget : ∀ (j : Nat) (q : process_ctl_block), w'.g_scheduler.pcbs[j]? = some q →
      ∃ p, w.g_scheduler.pcbs[j]? = some p ∧
        ((p.creation_quantum = w.g_scheduler.current_quantum ∧ q = admitted env j p ∧
            env.fork j ≠ 0) ∨
         (p.creation_quantum ≠ w.g_scheduler.current_quantum ∧ q = p)) := by
    intro j q hq
    rw [a7 j] at hq
    rcases Option.map_eq_some'.mp hq with ⟨p, hp, he⟩
    refine ⟨p, hp, ?_⟩
    by_cases hc : p.creation_quantum = w.g_scheduler.current_quantum
    · rw [if_pos hc] at he
      exact Or.inl ⟨hc, he.symm, (a8 j p hp hc).2⟩
    · rw [if_neg hc] at he
      exact Or.inr ⟨hc, he.symm⟩
  refine ⟨?_, ?_, ?_, ?_, ?_⟩
  · rw [a1, a5]; exact hm.wf
  · intro j q hq
    rcases hget j q hq with ⟨p, hp, ⟨_, he, _⟩ | ⟨_, he⟩⟩
    · subst he; simp [admitted]
    · subst he; exact hm.none_running j q hp
  · intro j q hq hc
    rw [a2]
    rcases hget j q hq with ⟨p, hp, ⟨hcq, he, _⟩ | ⟨_, he⟩⟩
    · subst he; exact Or.inr ⟨hcq, rfl⟩
    · subst he; exact hm.admitted_by_now j q hp hc
  · intro j q hq hc
    rcases hget j q hq with ⟨p, hp, ⟨_, he, _⟩ | ⟨_, he⟩⟩
    · subst he; cases hc
    · subst he; exact hm.created_pid j q hp hc
  · intro c hc
    rw [a3] at hc
    obtain ⟨p, hp, hs⟩ := hm.current_state c hc
    rw [a7 c, hp]
    simp only [Option.map_some']
    by_cases hcq : p.creation_quantum = w.g_scheduler.current_quantum
    · rw [if_pos hcq]
      exact ⟨_, rfl, Or.inl rfl⟩
    · rw [if_neg hcq]
      exact ⟨p, rfl, hs⟩

/-- The scheduling algorithm `basic` re-establishes the invariant. -/
theorem inv_basic {env : Env} {w w' : World} (hm : Mid w.g_scheduler)
    (h : basic env w = .ok w') : Inv w'.g_scheduler := by
  rcases basic_ok hm.wf h with ⟨hnone, he⟩ | ⟨k, p, hk, hw, _, hcs⟩
  · subst he
    refine ⟨hm.wf, ?_, ?_, hm.created_pid, ?_⟩
    · intro j q hq hr
      exact absurd hr (hm.none_running j q hq)
    · intro j q hq hc
      rcases hm.admitted_by_now j q hq hc with hlt | ⟨_, hwt⟩
      · exact hlt
      · exact absurd hwt (hnone j q hq)
    · intro c hc
      obtain ⟨q, hq, hs⟩ := hm.current_state c hc
      rcases hs with hs | hs
      · exact absurd hs (hnone c q hq)
      · exact ⟨q, hq, Or.inr hs⟩
  · obtain ⟨_, b1, b2, b3, b4, _, _⟩ := context_switch_ok hk hcs
    have hlen := lt_length_of_get hk
    have hget : ∀ (j : Nat) (q : process_ctl_block), w'.g_scheduler.pcbs[j]? = some q →
        (j = k ∧ q = switched env p) ∨ (j ≠ k ∧ w.g_scheduler.pcbs[j]? = some q) := by
      intro j q hq
      rw [b1] at hq
      by_cases hjk : k = j
      · subst hjk
        rw [List.getElem?_set_self hlen] at hq
        injection hq with hq
        exact Or.inl ⟨rfl, hq.symm⟩
      · rw [List.getElem?_set_ne hjk] at hq
        exact Or.inr ⟨fun x => hjk x.symm, hq⟩
    refine ⟨?_, ?_, ?_, ?_, ?_⟩
    · rw [b2, b1, List.length_set]; exact hm.wf
    · intro j q hq hr
      rcases hget j q hq with ⟨hj, _⟩ | ⟨_, ho⟩
      · rw [b4, hj]
      · exact absurd hr (hm.none_running j q ho)
    · intro j q hq hc
      rw [b3]
      rcases hget j q hq with ⟨_, he⟩ | ⟨_, ho⟩
      · subst he
        rw [switched_creation]
        rcases hm.admitted_by_now k p hk (by rw [hw]; simp) with hlt | ⟨heq, _⟩
        · omega
        · omega
      · rcases hm.admitted_by_now j q ho hc with hlt | ⟨heq, _⟩
        · omega
        · omega
    · intro j q hq hc
      rcases hget j q hq with ⟨_, he⟩ | ⟨_, ho⟩
      · subst he; simp at hc
      · exact hm.created_pid j q ho hc
    · intro c hc
      rw [b4] at hc
      injection hc with hc
      subst hc
      refine ⟨switched env p, ?_, Or.inl rfl⟩
      rw [b1, List.getElem?_set_self hlen]

/-- The two outcomes of the timer branch. -/
theorem timer_expiry_cases {alg : Env → World → Except Halt World} {env : Env} {w w' : World}
    (h : timer_expiry alg env w = .ok w') :
    (w.g_interrupted ≠ SIGALRM ∧ w' = w) ∨
    (w.g_interrupted = SIGALRM ∧ ∃ w3,
      handle_arrivals env (preempt (emit { w with g_interrupted := 0 }
        [event.out_interrupt w.g_scheduler.current_quantum])) = .ok w3 ∧
      alg env w3 = .ok w') := by
  unfold timer_expiry at h
  by_cases hf : w.g_interrupted = SIGALRM
  · rw [if_pos hf] at h
    right
    refine ⟨hf, ?_⟩
    simp only at h
    cases ha : handle_arrivals env (preempt (emit { w with g_interrupted := 0 }
        [event.out_interrupt w.g_scheduler.current_quantum])) with
    | error e => rw [ha] at h; cases h
    | ok w3 => rw [ha] at h; exact ⟨w3, rfl, h⟩
  · rw [if_neg hf] at h
    injection h with h
    exact Or.inl ⟨hf, h.symm⟩

/-- The four outcomes of `interrupt_handler`. -/
theorem interrupt_handler_cases {alg : Env → World → Except Halt World} {env : Env}
    {w w' : World} (h : interrupt_handler alg env w = .ok w') :
    (w.g_interrupted = SIGCHLD ∧ (env.waitpid = 0 ∨ env.waitpid = -1) ∧
      w' = { emit w [event.waitpid env.waitpid] with g_interrupted := 0 }) ∨
    (w.g_interrupted = SIGCHLD ∧ ¬ (env.waitpid = 0 ∨ env.waitpid = -1) ∧
      find_pcb_loop w.g_scheduler env.waitpid w.g_scheduler.num_processes 0 = none ∧
      w' = emit w [event.waitpid env.waitpid]) ∨
    (w.g_interrupted = SIGCHLD ∧ ¬ (env.waitpid = 0 ∨ env.waitpid = -1) ∧
      ∃ i, find_pcb_loop w.g_scheduler env.waitpid w.g_scheduler.num_processes 0 = some i ∧
      timer_expiry alg env (mark_terminated env i (emit w [event.waitpid env.waitpid]))
        = .ok w') ∨
    (w.g_interrupted ≠ SIGCHLD ∧ timer_expiry alg env w = .ok w') := by
  unfold interrupt_handler at h
  by_cases hf : w.g_interrupted = SIGCHLD
  · rw [if_pos hf] at h
    simp only at h
    by_cases hz : env.waitpid = 0 ∨ env.waitpid = -1
    · rw [if_pos hz] at h
      injection h with h
      exact Or.inl ⟨hf, hz, h.symm⟩
    · rw [if_neg hz] at h
      simp only [emit_sched] at h
      cases hfind : find_pcb_loop w.g_scheduler env.waitpid w.g_scheduler.num_processes 0 with
      | none =>
        rw [hfind] at h
        simp only at h
        right; left
        refine ⟨hf, hz, rfl, ?_⟩
        rcases timer_expiry_cases h with ⟨_, he⟩ | ⟨hs, _⟩
        · exact he
        · rw [emit_flag, hf] at hs
          exact absurd hs (by decide)
      | some i =>
        rw [hfind] at h
        right; right; left
        exact ⟨hf, hz, i, rfl, h⟩
  · rw [if_neg hf] at h
    exact Or.inr (Or.inr (Or.inr ⟨hf, h⟩))

/-- The timer branch keeps the invariant. -/
theorem inv_timer_expiry {env : Env} {w w' : World} (hinv : Inv w.g_scheduler)
    (h : timer_expiry basic env w = .ok w') : Inv w'.g_scheduler := by
  rcases timer_expiry_cases h with ⟨_, he⟩ | ⟨_, w3, ha, hb⟩
  · subst he; exact hinv
  · have hmid : Mid (preempt (emit { w with g_interrupted := 0 }
        [event.out_interrupt w.g_scheduler.current_quantum])).g_scheduler :=
      mid_preempt (w := emit { w with g_interrupted := 0 } _) hinv
    exact inv_basic (mid_handle_arrivals hmid ha) hb

/-- A call of `interrupt_handler` keeps the invariant. -/
theorem inv_interrupt_handler {env : Env} {w w' : World} (hinv : Inv w.g_scheduler)
    (h : interrupt_handler basic env w = .ok w') : Inv w'.g_scheduler := by
  rcases interrupt_handler_cases h with ⟨_, _, he⟩ | ⟨_, _, _, he⟩ | ⟨_, hz, i, hfind, ht⟩ |
    ⟨_, ht⟩
  · subst he; exact hinv
  · subst he; exact hinv
  · obtain ⟨_, _, ⟨p, hp, hpid⟩, _⟩ := find_pcb_loop_some _ _ _ _ _ hfind
    refine inv_timer_expiry (inv_mark_terminated (w := emit w _) hinv hp ?_) ht
    rw [hpid]
    exact fun h0 => hz (Or.inl h0)
  · exact inv_timer_expiry hinv ht

@[simp] theorem deliver_sched (signals : List Int) (w : World) :
    (deliver signals w).g_scheduler = w.g_scheduler := by
  unfold deliver
  induction signals generalizing w with
  | nil => rfl
  | cons a l ih => rw [List.foldl_cons, ih]; rfl

@[simp] theorem deliver_trace (signals : List Int) (w : World) :
    (deliver signals w).trace = w.trace := by
  unfold deliver
  induction signals generalizing w with
  | nil => rfl
  | cons a l ih => rw [List.foldl_cons, ih]; rfl

/-- The two outcomes of a dispatch. -/
theorem dispatch_cases {st : Step} {w w' : World} (h : dispatch st w = .ok w') :
    ((deliver st.signals w).g_interrupted = 0 ∧ w' = deliver st.signals w) ∨
    ((deliver st.signals w).g_interrupted ≠ 0 ∧
      interrupt_handler basic st.env (deliver st.signals w) = .ok w') := by
  unfold dispatch at h
  simp only at h
  by_cases hf : (deliver st.signals w).g_interrupted = 0
  · rw [if_neg (fun x => x hf)] at h
    injection h with h
    exact Or.inl ⟨hf, h.symm⟩
  · rw [if_pos hf] at h
    exact Or.inr ⟨hf, h⟩

/-- A dispatch keeps the invariant. -/
theorem inv_dispatch {st : Step} {w w' : World} (hinv : Inv w.g_scheduler)
    (h : dispatch st w = .ok w') : Inv w'.g_scheduler := by
  rcases dispatch_cases h with ⟨_, he⟩ | ⟨_, hi⟩
  · subst he; rw [deliver_sched]; exact hinv
  · exact inv_interrupt_handler (w := deliver st.signals w) (by rw [deliver_sched]; exact hinv) hi

/-- Every sequence of dispatches keeps the invariant. -/
theorem inv_run : ∀ (steps : List Step) (w w' : World), Inv w.g_scheduler →
    run steps w = .ok w' → Inv w'.g_scheduler := by
  intro steps
  induction steps with
  | nil =>
    intro w w' hinv h
    simp only [run] at h
    injection h with h
    subst h; exact hinv
  | cons st rest ih =>
    intro w w' hinv h
    rw [run] at h
    cases hd : dispatch st w with
    | error e => rw [hd] at h; cases h
    | ok w1 =>
      rw [hd] at h
      exact ih w1 w' (inv_dispatch hinv hd) h

/-- Every state reached from the loaded state satisfies the invariant. -/
theorem inv_reachable {jobs : List job} {steps : List Step} {w : World}
    (h : run steps (boot jobs) = .ok w) : Inv w.g_scheduler :=
  inv_run steps (boot jobs) w (inv_read_spec jobs) h

/-- When all the elements of a list that satisfy a test sit at one index, at
most one element satisfies it. -/
theorem countP_le_one_of_unique {α : Type} (f : α → Bool) :
    ∀ (l : List α), (∀ (i j : Nat) (a b : α), l[i]? = some a → l[j]? = some b →
      f a = true → f b = true → i = j) → l.countP f ≤ 1 := by
  intro l
  induction l with
  | nil => intro _; simp
  | cons x t ih =>
    intro h
    rw [List.countP_cons]
    have ht : t.countP f ≤ 1 := by
      apply ih
      intro i j a b ha hb fa fb
      have := h (i + 1) (j + 1) a b (by simpa using ha) (by simpa using hb) fa fb
      omega
    by_cases hx : f x = true
    · have hz : t.countP f = 0 := by
        rw [List.countP_eq_zero]
        intro a ha fa
        rcases List.mem_iff_getElem?.mp ha with ⟨n, hn⟩
        have := h 0 (n + 1) x a (by simp) (by simpa using hn) hx fa
        omega
      rw [hz, if_pos hx]
    · rw [if_neg hx]; omega

@[simp] theorem preempted_creation (p : process_ctl_block) :
    (preempted p).creation_quantum = p.creation_quantum := by
  unfold preempted; split <;> rfl

theorem arrived_of_eq (env : Env) {q : Int} (j : Nat) {p : process_ctl_block}
    (h : p.creation_quantum = q) : arrived env q j p = admitted env j p := by
  unfold arrived; rw [if_pos h]

theorem arrived_of_ne (env : Env) {q : Int} (j : Nat) {p : process_ctl_block}
    (h : p.creation_quantum ≠ q) : arrived env q j p = p := by
  unfold arrived; rw [if_neg h]

theorem preempted_of_running {p : process_ctl_block} (h : p.state = process_state.RUNNING) :
    preempted p = { p with state := process_state.WAITING } := by
  unfold preempted; rw [if_pos h]

theorem preempted_of_not_running {p : process_ctl_block}
    (h : p.state ≠ process_state.RUNNING) : preempted p = p := by
  unfold preempted; rw [if_neg h]

/-- What the timer branch does to the PCB at index `j`, from a state that
satisfies the invariant: it is preempted if `RUNNING`, admitted if its creation
quantum is the current one, and then either left alone or, if it is the first
`WAITING` PCB, switched to. -/
theorem timer_expiry_pcb {env : Env} {w w' : World} (hinv : Inv w.g_scheduler)
    (hflag : w.g_interrupted = SIGALRM) (h : timer_expiry basic env w = .ok w')
    (j : Nat) (p : process_ctl_block) (hp : w.g_scheduler.pcbs[j]? = some p) :
    w'.g_scheduler.pcbs[j]? =
        some (arrived env w.g_scheduler.current_quantum j (preempted p)) ∨
    ((arrived env w.g_scheduler.current_quantum j (preempted p)).state = process_state.WAITING ∧
      w'.g_scheduler.pcbs[j]? =
        some (switched env (arrived env w.g_scheduler.current_quantum j (preempted p)))) := by
  rcases timer_expiry_cases h with ⟨hne, _⟩ | ⟨_, w3, ha, hb⟩
  · exact absurd hflag hne
  · have hmid2 : Mid (preempt (emit { w with g_interrupted := 0 }
        [event.out_interrupt w.g_scheduler.current_quantum])).g_scheduler :=
      mid_preempt (w := emit { w with g_interrupted := 0 } _) hinv
    have hmid3 := mid_handle_arrivals hmid2 ha
    obtain ⟨_, a2, _, _, _, a6⟩ := preempt_spec (emit { w with g_interrupted := 0 }
        [event.out_interrupt w.g_scheduler.current_quantum])
    obtain ⟨_, _, _, _, _, _, c7, _⟩ := handle_arrivals_ok hmid2.wf ha
    have h2 : (preempt (emit { w with g_interrupted := 0 }
        [event.out_interrupt w.g_scheduler.current_quantum])).g_scheduler.pcbs[j]? =
        some (preempted p) := by
      rw [a6 j]
      show Option.map _ (w.g_scheduler.pcbs[j]?) = _
      rw [hp]
      simp only [Option.map_some']
      congr 1
      unfold preempted
      by_cases hr : p.state = process_state.RUNNING
      · rw [if_pos hr, if_pos ⟨hinv.running_is_current j p hp hr, hr⟩]
      · rw [if_neg hr, if_neg (fun x => hr x.2)]
    have h3 : w3.g_scheduler.pcbs[j]? =
        some (arrived env w.g_scheduler.current_quantum j (preempted p)) := by
      rw [c7 j, h2, a2]
      rfl
    rcases basic_ok hmid3.wf hb with ⟨_, he⟩ | ⟨k, pk, hk, hw, _, hcs⟩
    · subst he; exact Or.inl h3
    · obtain ⟨_, b1, _⟩ := context_switch_ok hk hcs
      have hlen := lt_length_of_get hk
      by_cases hkj : k = j
      · subst hkj
        rw [h3] at hk
        injection hk with hk
        subst hk
        right
        refine ⟨hw, ?_⟩
        rw [b1, List.getElem?_set_self hlen]
      · left
        rw [b1, List.getElem?_set_ne hkj]
        exact h3

/-- The timer branch, when taken, first prints its console line; the record of
calls only grows. -/
theorem timer_expiry_trace {env : Env} {w w' : World}
    (hflag : w.g_interrupted = SIGALRM) (h : timer_expiry basic env w = .ok w') :
    ∃ rest, w'.trace =
      w.trace ++ event.out_interrupt w.g_scheduler.current_quantum :: rest := by
  rcases timer_expiry_cases h with ⟨hne, _⟩ | ⟨_, w3, ha, hb⟩
  · exact absurd hflag hne
  · obtain ⟨e1, he1⟩ := preempt_trace (emit { w with g_interrupted := 0 }
        [event.out_interrupt w.g_scheduler.current_quantum])
    obtain ⟨_, _, _, _, _, ⟨e2, he2, _⟩, _, _⟩ := handle_arrivals_loop_ok env _ 0 _ w3 ha
    have h3 : w3.trace = w.trace ++
        event.out_interrupt w.g_scheduler.current_quantum :: (e1 ++ e2) := by
      rw [he2, he1]
      simp
    rcases basic_loop_ok env _ 0 w3 w' hb with ⟨_, he⟩ | ⟨k, pk, _, _, hk, _, _, hcs⟩
    · subst he; exact ⟨_, h3⟩
    · obtain ⟨_, _, _, _, _, _, b6⟩ := context_switch_ok hk hcs
      refine ⟨e1 ++ e2 ++ [event.alarm 1, event.kill pk.pid SIGCONT], ?_⟩
      rw [b6, h3]
      simp

/-- The timer branch leaves a `TERMINATED` PCB as it is. -/
theorem timer_expiry_keeps_terminated {env : Env} {w w' : World} (hinv : Inv w.g_scheduler)
    (h : timer_expiry basic env w = .ok w')
    (i : Nat) (p : process_ctl_block) (hp : w.g_scheduler.pcbs[i]? = some p)
    (ht : p.state = process_state.TERMINATED) : w'.g_scheduler.pcbs[i]? = some p := by
  by_cases hflag : w.g_interrupted = SIGALRM
  · have hpre : preempted p = p := by
      unfold preempted
      rw [if_neg (by rw [ht]; decide)]
    have hlt := hinv.admitted_before i p hp (by rw [ht]; decide)
    have harr : arrived env w.g_scheduler.current_quantum i p = p := by
      unfold arrived
      rw [if_neg (by omega)]
    rcases timer_expiry_pcb hinv hflag h i p hp with h1 | ⟨h1, _⟩
    · rw [h1, hpre, harr]
    · rw [hpre, harr, ht] at h1
      cases h1
  · rcases timer_expiry_cases h with ⟨_, he⟩ | ⟨hf, _⟩
    · subst he; exact hp
    · exact absurd hf hflag

/-- In the timer branch a `CREATED` PCB leaves `CREATED` only if the branch is
taken and the current quantum is its creation quantum; it is then `WAITING`, or
`RUNNING` if the algorithm picked it. -/
theorem timer_expiry_created {env : Env} {w w' : World} (hinv : Inv w.g_scheduler)
    (h : timer_expiry basic env w = .ok w')
    (i : Nat) (p p' : process_ctl_block) (hp : w.g_scheduler.pcbs[i]? = some p)
    (hc : p.state = process_state.CREATED) (hp' : w'.g_scheduler.pcbs[i]? = some p')
    (hn : p'.state ≠ process_state.CREATED) :
    w.g_interrupted = SIGALRM ∧ p.creation_quantum = w.g_scheduler.current_quantum ∧
    (p'.state = process_state.WAITING ∨ p'.state = process_state.RUNNING) := by
  by_cases hflag : w.g_interrupted = SIGALRM
  · have hpre : preempted p = p := by
      unfold preempted
      rw [if_neg (by rw [hc]; decide)]
    by_cases hq : p.creation_quantum = w.g_scheduler.current_quantum
    · have harr : arrived env w.g_scheduler.current_quantum i p = admitted env i p := by
        unfold arrived
        rw [if_pos hq]
      refine ⟨hflag, hq, ?_⟩
      rcases timer_expiry_pcb hinv hflag h i p hp with h1 | ⟨_, h1⟩
      · rw [hpre, harr, hp'] at h1
        injection h1 with h1
        subst h1
        exact Or.inl rfl
      · rw [hpre, harr, hp'] at h1
        injection h1 with h1
        subst h1
        exact Or.inr rfl
    · have harr : arrived env w.g_scheduler.current_quantum i p = p := by
        unfold arrived
        rw [if_neg hq]
      rcases timer_expiry_pcb hinv hflag h i p hp with h1 | ⟨h1, _⟩
      · rw [hpre, harr, hp'] at h1
        injection h1 with h1
        subst h1
        exact absurd hc hn
      · rw [hpre, harr, hc] at h1
        cases h1
  · rcases timer_expiry_cases h with ⟨_, he⟩ | ⟨hf, _⟩
    · subst he
      rw [hp] at hp'
      injection hp' with hp'
      subst hp'
      exact absurd hc hn
    · exact absurd hf hflag

/-- The state in which the timer branch calls the scheduling algorithm, from a
state that satisfies the invariant: every PCB has been preempted if `RUNNING`
and admitted if its creation quantum is the current one. -/
theorem timer_expiry_mid {env : Env} {w w3 : World} (hinv : Inv w.g_scheduler)
    (ha : handle_arrivals env (preempt (emit { w with g_interrupted := 0 }
        [event.out_interrupt w.g_scheduler.current_quantum])) = .ok w3) :
    Mid w3.g_scheduler ∧
    w3.g_scheduler.current_quantum = w.g_scheduler.current_quantum ∧
    w3.g_scheduler.current_process = w.g_scheduler.current_process ∧
    ∀ j, w3.g_scheduler.pcbs[j]? = (w.g_scheduler.pcbs[j]?).map
      (fun p => arrived env w.g_scheduler.current_quantum j (preempted p)) := by
  have hmid2 : Mid (preempt (emit { w with g_interrupted := 0 }
      [event.out_interrupt w.g_scheduler.current_quantum])).g_scheduler :=
    mid_preempt (w := emit { w with g_interrupted := 0 } _) hinv
  obtain ⟨_, a2, a3, _, _, a6⟩ := preempt_spec (emit { w with g_interrupted := 0 }
      [event.out_interrupt w.g_scheduler.current_quantum])
  obtain ⟨_, c2, c3, _, _, _, c7, _⟩ := handle_arrivals_ok hmid2.wf ha
  refine ⟨mid_handle_arrivals hmid2 ha, by rw [c2, a2]; rfl, by rw [c3, a3]; rfl, fun j => ?_⟩
  rw [c7 j, a6 j, a2]
  show Option.map _ (Option.map _ (w.g_scheduler.pcbs[j]?)) = _
  cases hp : w.g_scheduler.pcbs[j]? with
  | none => rfl
  | some p =>
    simp only [Option.map_some']
    have hpre : (if (emit { w with g_interrupted := 0 }
        [event.out_interrupt w.g_scheduler.current_quantum]).g_scheduler.current_process = some j ∧
        p.state = process_state.RUNNING then { p with state := process_state.WAITING } else p)
        = preempted p := by
      unfold preempted
      by_cases hr : p.state = process_state.RUNNING
      · rw [if_pos hr, if_pos ⟨hinv.running_is_current j p hp hr, hr⟩]
      · rw [if_neg hr, if_neg (fun x => hr x.2)]
    rw [hpre]
    rfl

/-- The search loop finds the first PCB with the `pid`. -/
theorem find_pcb_loop_first (s : scheduler_state) (child : Int) (i : Nat)
    (p : process_ctl_block) (hi : i < s.num_processes) (hp : s.pcbs[i]? = some p)
    (hpid : p.pid = child)
    (hfirst : ∀ (j : Nat) (q : process_ctl_block), j < i → s.pcbs[j]? = some q →
      q.pid ≠ child) :
    find_pcb_loop s child s.num_processes 0 = some i := by
  cases hf : find_pcb_loop s child s.num_processes 0 with
  | none =>
    have := (find_pcb_loop_none s child s.num_processes 0).mp hf i p (Nat.zero_le _)
      (by omega) hp
    exact absurd hpid this
  | some k =>
    obtain ⟨_, _, ⟨pk, hk, hkpid⟩, hmin⟩ := find_pcb_loop_some s child _ 0 k hf
    rcases Nat.lt_trichotomy k i with hlt | heq | hgt
    · exact absurd hkpid (hfirst k pk hlt hk)
    · rw [heq]
    · exact absurd hpid (hmin i p (Nat.zero_le _) hgt hp)

/-! ## The shape of a dispatch -/

@[simp] theorem switched_arrival (env : Env) (p : process_ctl_block) :
    (switched env p).arrival_time = p.arrival_time := by
  unfold switched; split <;> rfl

@[simp] theorem switched_completion (env : Env) (p : process_ctl_block) :
    (switched env p).completion_time = p.completion_time := by
  unfold switched; split <;> rfl

@[simp] theorem preempted_pid (p : process_ctl_block) : (preempted p).pid = p.pid := by
  unfold preempted; split <;> rfl

@[simp] theorem preempted_arrival (p : process_ctl_block) :
    (preempted p).arrival_time = p.arrival_time := by
  unfold preempted; split <;> rfl

@[simp] theorem preempted_start (p : process_ctl_block) :
    (preempted p).start_time = p.start_time := by
  unfold preempted; split <;> rfl

@[simp] theorem preempted_completion (p : process_ctl_block) :
    (preempted p).completion_time = p.completion_time := by
  unfold preempted; split <;> rfl

/-- Preemption does not put a PCB into or out of `CREATED`. -/
theorem preempted_created (p : process_ctl_block) :
    (preempted p).state = process_state.CREATED ↔ p.state = process_state.CREATED := by
  unfold preempted
  by_cases hr : p.state = process_state.RUNNING
  · rw [if_pos hr, hr]
    constructor <;> intro h <;> cases h
  · rw [if_neg hr]

/-- A preempted PCB is not `RUNNING`. -/
theorem preempted_not_running (p : process_ctl_block) :
    (preempted p).state ≠ process_state.RUNNING := by
  unfold preempted
  by_cases hr : p.state = process_state.RUNNING
  · rw [if_pos hr]; exact fun h => by cases h
  · rw [if_neg hr]; exact hr

/-- When `handle_arrivals` and then the algorithm return, the timer branch
returns what the algorithm returned. -/
theorem timer_expiry_of_stages {alg : Env → World → Except Halt World} {env : Env}
    {w w3 w' : World} (hflag : w.g_interrupted = SIGALRM)
    (ha : handle_arrivals env (preempt (emit { w with g_interrupted := 0 }
        [event.out_interrupt w.g_scheduler.current_quantum])) = .ok w3)
    (hb : alg env w3 = .ok w') : timer_expiry alg env w = .ok w' := by
  unfold timer_expiry
  rw [if_pos hflag]
  simp only
  rw [ha]
  exact hb

/-- The shape of a taken timer branch, from a state that satisfies the
invariant: the state `w3` the algorithm is called on, and what the algorithm
does with it. -/
theorem timer_expiry_shape {env : Env} {w w' : World} (hinv : Inv w.g_scheduler)
    (hflag : w.g_interrupted = SIGALRM) (h : timer_expiry basic env w = .ok w') :
    ∃ w3 : World,
      Mid w3.g_scheduler ∧
      w3.g_scheduler.current_quantum = w.g_scheduler.current_quantum ∧
      w3.g_scheduler.current_process = w.g_scheduler.current_process ∧
      w3.g_scheduler.pcbs.length = w.g_scheduler.pcbs.length ∧
      (∀ j, w3.g_scheduler.pcbs[j]? = (w.g_scheduler.pcbs[j]?).map
        (fun p => arrived env w.g_scheduler.current_quantum j (preempted p))) ∧
      (∀ (j : Nat) (p : process_ctl_block), w.g_scheduler.pcbs[j]? = some p →
        p.creation_quantum = w.g_scheduler.current_quantum →
        env.fork j ≠ -1 ∧ env.fork j ≠ 0) ∧
      (((∀ (j : Nat) (p : process_ctl_block), w3.g_scheduler.pcbs[j]? = some p →
            p.state ≠ process_state.WAITING) ∧ w' = w3) ∨
       (∃ (k : Nat) (pk : process_ctl_block), w3.g_scheduler.pcbs[k]? = some pk ∧
          pk.state = process_state.WAITING ∧
          (∀ (j : Nat) (q : process_ctl_block), j < k → w3.g_scheduler.pcbs[j]? = some q →
            q.state ≠ process_state.WAITING) ∧
          env.kill_ret ≠ -1 ∧
          w'.g_scheduler.pcbs = w3.g_scheduler.pcbs.set k (switched env pk) ∧
          w'.g_scheduler.num_processes = w3.g_scheduler.num_processes ∧
          w'.g_scheduler.current_quantum = w3.g_scheduler.current_quantum + 1 ∧
          w'.g_scheduler.current_process = some k ∧
          w'.trace = w3.trace ++ [event.alarm 1, event.kill pk.pid SIGCONT])) := by
  rcases timer_expiry_cases h with ⟨hne, _⟩ | ⟨_, w3, ha, hb⟩
  · exact absurd hflag hne
  · obtain ⟨hmid3, hq3, hc3, hget⟩ := timer_expiry_mid hinv ha
    have hmid2 : Mid (preempt (emit { w with g_interrupted := 0 }
        [event.out_interrupt w.g_scheduler.current_quantum])).g_scheduler :=
      mid_preempt (w := emit { w with g_interrupted := 0 } _) hinv
    obtain ⟨_, a2, _, _, a5, a6⟩ := preempt_spec (emit { w with g_interrupted := 0 }
        [event.out_interrupt w.g_scheduler.current_quantum])
    obtain ⟨_, _, _, _, c5, _, _, c8⟩ := handle_arrivals_ok hmid2.wf ha
    refine ⟨w3, hmid3, hq3, hc3, by rw [c5, a5]; rfl, hget, ?_, ?_⟩
    · intro j p hp hq
      refine c8 j (preempted p) ?_ ?_
      · rw [a6 j]
        show Option.map _ (w.g_scheduler.pcbs[j]?) = _
        rw [hp]
        simp only [Option.map_some']
        congr 1
        by_cases hr : p.state = process_state.RUNNING
        · rw [preempted_of_running hr, if_pos ⟨hinv.running_is_current j p hp hr, hr⟩]
        · rw [preempted_of_not_running hr, if_neg (fun x => hr x.2)]
      · rw [preempted_creation, a2]
        exact hq
    · rcases basic_ok hmid3.wf hb with ⟨hnone, he⟩ | ⟨k, pk, hk, hw, hmin, hcs⟩
      · exact Or.inl ⟨hnone, he⟩
      · obtain ⟨b0, b1, b2, b3, b4, _, b6⟩ := context_switch_ok hk hcs
        exact Or.inr ⟨k, pk, hk, hw, hmin, b0, b1, b2, b3, b4, b6⟩

/-- The three outcomes of a dispatch: nothing happens to the scheduler state,
the timer branch runs on it, or a PCB is marked terminated and the timer branch
runs on the result. -/
theorem dispatch_shape {st : Step} {w w' : World} (hd : dispatch st w = .ok w') :
    (w'.g_scheduler = w.g_scheduler ∧
      (w'.trace = w.trace ∨ w'.trace = w.trace ++ [event.waitpid st.env.waitpid])) ∨
    ((deliver st.signals w).g_interrupted = SIGALRM ∧
      timer_expiry basic st.env (deliver st.signals w) = .ok w') ∨
    (∃ (k : Nat) (pk : process_ctl_block),
      (deliver st.signals w).g_interrupted = SIGCHLD ∧
      st.env.waitpid ≠ 0 ∧ st.env.waitpid ≠ -1 ∧
      w.g_scheduler.pcbs[k]? = some pk ∧ pk.pid = st.env.waitpid ∧
      (∀ (j : Nat) (q : process_ctl_block), j < k → w.g_scheduler.pcbs[j]? = some q →
        q.pid ≠ st.env.waitpid) ∧
      timer_expiry basic st.env (mark_terminated st.env k
        (emit (deliver st.signals w) [event.waitpid st.env.waitpid])) = .ok w') := by
  rcases dispatch_cases hd with ⟨_, he⟩ | ⟨_, hi⟩
  · exact Or.inl ⟨by rw [he, deliver_sched], Or.inl (by rw [he, deliver_trace])⟩
  · rcases interrupt_handler_cases hi with ⟨_, _, he⟩ | ⟨_, _, _, he⟩ |
      ⟨hchld, hz, k, hfind, htm⟩ | ⟨_, htm⟩
    · refine Or.inl ⟨by rw [he]; exact deliver_sched _ _, Or.inr ?_⟩
      rw [he]
      show (deliver st.signals w).trace ++ _ = _
      rw [deliver_trace]
    · refine Or.inl ⟨by rw [he]; exact deliver_sched _ _, Or.inr ?_⟩
      rw [he]
      show (deliver st.signals w).trace ++ _ = _
      rw [deliver_trace]
    · obtain ⟨_, _, ⟨pk, hk, hpid⟩, hmin⟩ := find_pcb_loop_some _ _ _ _ _ hfind
      rw [deliver_sched] at hk hmin
      exact Or.inr (Or.inr ⟨k, pk, hchld, fun h0 => hz (Or.inl h0), fun h0 => hz (Or.inr h0),
        hk, hpid, fun j q hj hq => hmin j q (Nat.zero_le _) hj hq, htm⟩)
    · by_cases hflag : (deliver st.signals w).g_interrupted = SIGALRM
      · exact Or.inr (Or.inl ⟨hflag, htm⟩)
      · rcases timer_expiry_cases htm with ⟨_, he⟩ | ⟨hf, _⟩
        · exact Or.inl ⟨by rw [he, deliver_sched], Or.inl (by rw [he, deliver_trace])⟩
        · exact absurd hf hflag

/-- The state on which the timer branch runs after a matched child exit. -/
theorem marked_facts (st : Step) {w : World} {k : Nat} {pk : process_ctl_block}
    (hinv : Inv w.g_scheduler) (hk : w.g_scheduler.pcbs[k]? = some pk)
    (hpid : pk.pid = st.env.waitpid) (hz : st.env.waitpid ≠ 0) :
    Inv (mark_terminated st.env k
      (emit (deliver st.signals w) [event.waitpid st.env.waitpid])).g_scheduler ∧
    (mark_terminated st.env k
      (emit (deliver st.signals w) [event.waitpid st.env.waitpid])).g_interrupted = SIGALRM ∧
    (mark_terminated st.env k (emit (deliver st.signals w)
      [event.waitpid st.env.waitpid])).g_scheduler.current_quantum =
        w.g_scheduler.current_quantum ∧
    (mark_terminated st.env k (emit (deliver st.signals w)
      [event.waitpid st.env.waitpid])).g_scheduler.current_process =
        w.g_scheduler.current_process ∧
    (mark_terminated st.env k (emit (deliver st.signals w)
      [event.waitpid st.env.waitpid])).trace =
        w.trace ++ [event.waitpid st.env.waitpid, event.alarm 0] ∧
    (∀ j, (mark_terminated st.env k (emit (deliver st.signals w)
      [event.waitpid st.env.waitpid])).g_scheduler.pcbs[j]? =
        if k = j then some (reaped st.env pk) else w.g_scheduler.pcbs[j]?) ∧
    pk.state ≠ process_state.CREATED := by
  have hk' : (emit (deliver st.signals w) [event.waitpid st.env.waitpid]).g_scheduler.pcbs[k]?
      = some pk := by
    rw [emit_sched, deliver_sched]; exact hk
  have hinv0 : Inv (emit (deliver st.signals w) [event.waitpid st.env.waitpid]).g_scheduler := by
    rw [emit_sched, deliver_sched]; exact hinv
  obtain ⟨_, m2, m3, m4, m5⟩ := mark_terminated_rest st.env k _ pk hk'
  refine ⟨inv_mark_terminated hinv0 hk' (by rw [hpid]; exact hz), m4, ?_, ?_, ?_, ?_, ?_⟩
  · rw [m2, emit_sched, deliver_sched]
  · rw [m3, emit_sched, deliver_sched]
  · rw [m5, emit_trace, deliver_trace]; simp
  · intro j
    rw [mark_terminated_get _ _ _ pk hk' j, emit_sched, deliver_sched]
  · intro hc
    exact hz (by rw [← hpid]; exact hinv.created_pid k pk hk hc)

/-- An invariant of dispatches from states that satisfy `Inv` is an invariant
of every run. -/
theorem run_induction (P : scheduler_state → Prop)
    (hstep : ∀ (st : Step) (w w' : World), Inv w.g_scheduler → P w.g_scheduler →
      dispatch st w = .ok w' → P w'.g_scheduler) :
    ∀ (steps : List Step) (w w' : World), Inv w.g_scheduler → P w.g_scheduler →
      run steps w = .ok w' → P w'.g_scheduler := by
  intro steps
  induction steps with
  | nil =>
    intro w w' _ hp h
    simp only [run] at h
    injection h with h
    subst h; exact hp
  | cons st rest ih =>
    intro w w' hinv hp h
    rw [run] at h
    cases hd : dispatch st w with
    | error e => rw [hd] at h; cases h
    | ok w1 =>
      rw [hd] at h
      exact ih w1 w' (inv_dispatch hinv hd) (hstep st w w1 hinv hp hd) h

/-! ## Process handles and priority -/

/-- Every PCB after a taken timer branch comes from the PCB at the same index
before it: preempted if `RUNNING`, admitted if due, and switched to if it is
the first `WAITING` one. -/
theorem timer_expiry_back {env : Env} {w w' : World} (hinv : Inv w.g_scheduler)
    (hflag : w.g_interrupted = SIGALRM) (h : timer_expiry basic env w = .ok w')
    (j : Nat) (p' : process_ctl_block) (hp' : w'.g_scheduler.pcbs[j]? = some p') :
    ∃ p, w.g_scheduler.pcbs[j]? = some p ∧
      (p' = arrived env w.g_scheduler.current_quantum j (preempted p) ∨
       ((arrived env w.g_scheduler.current_quantum j (preempted p)).state
            = process_state.WAITING ∧
          p' = switched env (arrived env w.g_scheduler.current_quantum j (preempted p)))) := by
  obtain ⟨w3, _, _, _, _, hget, _, hb⟩ := timer_expiry_shape hinv hflag h
  rcases hb with ⟨_, he⟩ | ⟨k, pk, hk, hw, _, _, b1, _⟩
  · subst he
    rw [hget j] at hp'
    rcases Option.map_eq_some'.mp hp' with ⟨p, hp, he⟩
    exact ⟨p, hp, Or.inl he.symm⟩
  · have hlen := lt_length_of_get hk
    by_cases hkj : k = j
    · subst hkj
      rw [b1, List.getElem?_set_self hlen] at hp'
      injection hp' with hp'
      rw [hget k] at hk
      rcases Option.map_eq_some'.mp hk with ⟨p, hp, he⟩
      refine ⟨p, hp, Or.inr ⟨?_, ?_⟩⟩
      · rw [he]; exact hw
      · rw [he]; exact hp'.symm
    · rw [b1, List.getElem?_set_ne hkj, hget j] at hp'
      rcases Option.map_eq_some'.mp hp' with ⟨p, hp, he⟩
      exact ⟨p, hp, Or.inl he.symm⟩

/-- The timer branch does not change the number of PCBs. -/
theorem timer_expiry_length {env : Env} {w w' : World} (hinv : Inv w.g_scheduler)
    (hflag : w.g_interrupted = SIGALRM) (h : timer_expiry basic env w = .ok w') :
    w'.g_scheduler.pcbs.length = w.g_scheduler.pcbs.length := by
  obtain ⟨w3, _, _, _, hl, _, _, hb⟩ := timer_expiry_shape hinv hflag h
  rcases hb with ⟨_, he⟩ | ⟨k, pk, _, _, _, _, b1, _⟩
  · subst he; exact hl
  · rw [b1, List.length_set]; exact hl

/-- The timer branch re-establishes `Inv2`, from a state in which the admitted
PCBs hold a pid. -/
theorem inv2_timer_expiry {env : Env} {w w' : World} (hinv : Inv w.g_scheduler)
    (hpid : ∀ (i : Nat) (p : process_ctl_block), w.g_scheduler.pcbs[i]? = some p →
      p.state ≠ process_state.CREATED → p.pid ≠ 0 ∧ p.pid ≠ -1)
    (hflag : w.g_interrupted = SIGALRM) (h : timer_expiry basic env w = .ok w') :
    Inv2 w'.g_scheduler := by
  obtain ⟨w3, hmid3, _, _, _, hget, hfork, hb⟩ := timer_expiry_shape hinv hflag h
  have hpid3 : ∀ (i : Nat) (p : process_ctl_block), w.g_scheduler.pcbs[i]? = some p →
      (arrived env w.g_scheduler.current_quantum i (preempted p)).state
        ≠ process_state.CREATED →
      (arrived env w.g_scheduler.current_quantum i (preempted p)).pid ≠ 0 ∧
      (arrived env w.g_scheduler.current_quantum i (preempted p)).pid ≠ -1 := by
    intro i p hp hs
    by_cases hq : p.creation_quantum = w.g_scheduler.current_quantum
    · rw [arrived_of_eq _ _ (by rw [preempted_creation]; exact hq)]
      obtain ⟨f1, f0⟩ := hfork i p hp hq
      exact ⟨f0, f1⟩
    · rw [arrived_of_ne _ _ (by rw [preempted_creation]; exact hq)] at hs ⊢
      rw [preempted_pid]
      exact hpid i p hp (fun hc => hs ((preempted_created p).mpr hc))
  constructor
  · intro i p' hp' hs
    obtain ⟨p, hp, hcase⟩ := timer_expiry_back hinv hflag h i p' hp'
    rcases hcase with he | ⟨hw, he⟩
    · subst he; exact hpid3 i p hp hs
    · subst he
      rw [switched_pid]
      exact hpid3 i p hp (by rw [hw]; decide)
  · intro i p' hp' hr j q hji hq
    rcases hb with ⟨_, he⟩ | ⟨k, pk, hk, _, hmin, _, b1, _⟩
    · subst he
      exact absurd hr (hmid3.none_running i p' hp')
    · have hlen := lt_length_of_get hk
      have hik : k = i := by
        by_contra hne
        rw [b1, List.getElem?_set_ne hne] at hp'
        exact hmid3.none_running i p' hp' hr
      subst hik
      rw [b1, List.getElem?_set_ne (by omega)] at hq
      exact hmin j q hji hq

/-- A dispatch keeps `Inv2`. -/
theorem inv2_dispatch {st : Step} {w w' : World} (hinv : Inv w.g_scheduler)
    (hinv2 : Inv2 w.g_scheduler) (hd : dispatch st w = .ok w') : Inv2 w'.g_scheduler := by
  rcases dispatch_shape hd with ⟨he, _⟩ | ⟨hflag, htm⟩ | ⟨k, pk, _, hz0, hz1, hk, hpid, _, htm⟩
  · rw [he]; exact hinv2
  · exact inv2_timer_expiry (w := deliver st.signals w) (by rw [deliver_sched]; exact hinv)
      (by rw [deliver_sched]; exact hinv2.pid_set) hflag htm
  · obtain ⟨m1, m2, _, _, _, m6, _⟩ := marked_facts st hinv hk hpid hz0
    refine inv2_timer_expiry m1 ?_ m2 htm
    intro i p hp hs
    rw [m6 i] at hp
    by_cases hki : k = i
    · rw [if_pos hki] at hp
      injection hp with hp
      subst hp
      show pk.pid ≠ 0 ∧ pk.pid ≠ -1
      rw [hpid]
      exact ⟨hz0, hz1⟩
    · rw [if_neg hki] at hp
      exact hinv2.pid_set i p hp hs

/-- The loaded state satisfies `Inv2`. -/
theorem inv2_read_spec (jobs : List job) : Inv2 (read_spec jobs) := by
  have hget : ∀ (i : Nat) (p : process_ctl_block), (read_spec jobs).pcbs[i]? = some p →
      p.state = process_state.CREATED := by
    intro i p hp
    simp only [read_spec, List.getElem?_map] at hp
    rcases Option.map_eq_some'.mp hp with ⟨j, _, hj⟩
    subst hj
    rfl
  constructor
  · intro i p hp hs
    exact absurd (hget i p hp) hs
  · intro i p hp hr
    rw [hget i p hp] at hr
    cases hr

/-- Every state reached from the loaded state satisfies `Inv2`. -/
theorem inv2_reachable {jobs : List job} {steps : List Step} {w : World}
    (h : run steps (boot jobs) = .ok w) : Inv2 w.g_scheduler :=
  run_induction Inv2 (fun _ _ _ hinv hp hd => inv2_dispatch hinv hp hd) steps (boot jobs) w
    (inv_read_spec jobs) (inv2_read_spec jobs) h

/-! ## Process handles over a run, and the events of the timer branch -/

/-- A dispatch leaves the process handle, the arrival time and the creation
quantum of an admitted PCB as they are, and does not put it back to `CREATED`. -/
theorem handle_kept_dispatch {st : Step} {w w' : World} (hinv : Inv w.g_scheduler)
    (hd : dispatch st w = .ok w') (i : Nat) (p : process_ctl_block)
    (hp : w.g_scheduler.pcbs[i]? = some p) (hs : p.state ≠ process_state.CREATED) :
    ∃ p', w'.g_scheduler.pcbs[i]? = some p' ∧ p'.pid = p.pid ∧
      p'.arrival_time = p.arrival_time ∧ p'.creation_quantum = p.creation_quantum ∧
      p'.state ≠ process_state.CREATED := by
  have timer : ∀ (w0 : World) (p0 : process_ctl_block), Inv w0.g_scheduler →
      w0.g_interrupted = SIGALRM → timer_expiry basic st.env w0 = .ok w' →
      w0.g_scheduler.pcbs[i]? = some p0 → p0.state ≠ process_state.CREATED →
      ∃ p', w'.g_scheduler.pcbs[i]? = some p' ∧ p'.pid = p0.pid ∧
        p'.arrival_time = p0.arrival_time ∧ p'.creation_quantum = p0.creation_quantum ∧
        p'.state ≠ process_state.CREATED := by
    intro w0 p0 hinv0 hflag htm hp0 hs0
    have hlt := hinv0.admitted_before i p0 hp0 hs0
    have harr : arrived st.env w0.g_scheduler.current_quantum i (preempted p0) = preempted p0 :=
      arrived_of_ne _ _ (by rw [preempted_creation]; omega)
    have hnc : (preempted p0).state ≠ process_state.CREATED :=
      fun hc => hs0 ((preempted_created p0).mp hc)
    rcases timer_expiry_pcb hinv0 hflag htm i p0 hp0 with h1 | ⟨_, h1⟩
    · rw [harr] at h1
      exact ⟨_, h1, preempted_pid p0, preempted_arrival p0, preempted_creation p0, hnc⟩
    · rw [harr] at h1
      refine ⟨_, h1, ?_, ?_, ?_, ?_⟩
      · rw [switched_pid, preempted_pid]
      · rw [switched_arrival, preempted_arrival]
      · rw [switched_creation, preempted_creation]
      · rw [switched_state]; decide
  rcases dispatch_shape hd with ⟨he, _⟩ | ⟨hflag, htm⟩ | ⟨k, pk, _, hz0, _, hk, hpid, _, htm⟩
  · rw [he]; exact ⟨p, hp, rfl, rfl, rfl, hs⟩
  · exact timer (deliver st.signals w) p (by rw [deliver_sched]; exact hinv) hflag htm
      (by rw [deliver_sched]; exact hp) hs
  · obtain ⟨m1, m2, _, _, _, m6, _⟩ := marked_facts st hinv hk hpid hz0
    by_cases hki : k = i
    · subst hki
      rw [hp] at hk
      injection hk with hk
      subst hk
      exact timer _ (reaped st.env p) m1 m2 htm (by rw [m6 k, if_pos rfl])
        (by show process_state.TERMINATED ≠ _; decide)
    · exact timer _ p m1 m2 htm (by rw [m6 i, if_neg hki]; exact hp) hs

/-- Over any run from a state that satisfies the invariant, an admitted PCB
keeps its process handle, arrival time and creation quantum, and stays out of
`CREATED`. -/
theorem handle_kept_run (i : Nat) (p : process_ctl_block) :
    ∀ (steps : List Step) (w w' : World), Inv w.g_scheduler →
      (∃ p0, w.g_scheduler.pcbs[i]? = some p0 ∧ p0.pid = p.pid ∧
        p0.arrival_time = p.arrival_time ∧ p0.creation_quantum = p.creation_quantum ∧
        p0.state ≠ process_state.CREATED) →
      run steps w = .ok w' →
      ∃ p', w'.g_scheduler.pcbs[i]? = some p' ∧ p'.pid = p.pid ∧
        p'.arrival_time = p.arrival_time ∧ p'.creation_quantum = p.creation_quantum ∧
        p'.state ≠ process_state.CREATED := by
  apply run_induction (fun s => ∃ p0, s.pcbs[i]? = some p0 ∧ p0.pid = p.pid ∧
    p0.arrival_time = p.arrival_time ∧ p0.creation_quantum = p.creation_quantum ∧
    p0.state ≠ process_state.CREATED)
  intro st w w' hinv hP hd
  obtain ⟨p0, h0, e1, e2, e3, e4⟩ := hP
  obtain ⟨p', h1, f1, f2, f3, f4⟩ := handle_kept_dispatch hinv hd i p0 h0 e4
  exact ⟨p', h1, by rw [f1, e1], by rw [f2, e2], by rw [f3, e3], f4⟩

/-- The events of a taken timer branch after the preemption: those of
`handle_arrivals`, then those of a context switch if there is one. -/
theorem timer_expiry_trace_parts {env : Env} {w w' : World}
    (hflag : w.g_interrupted = SIGALRM) (h : timer_expiry basic env w = .ok w') :
    ∃ e2 e3, w'.trace = (preempt (emit { w with g_interrupted := 0 }
        [event.out_interrupt w.g_scheduler.current_quantum])).trace ++ e2 ++ e3 ∧
      (∀ e ∈ e2, arrival_event e = true) ∧
      (e3 = [] ∨ ∃ pid, e3 = [event.alarm 1, event.kill pid SIGCONT]) := by
  rcases timer_expiry_cases h with ⟨hne, _⟩ | ⟨_, w3, ha, hb⟩
  · exact absurd hflag hne
  · obtain ⟨_, _, _, _, _, ⟨e2, he2, hall⟩, _, _⟩ := handle_arrivals_loop_ok env _ 0 _ w3 ha
    rcases basic_loop_ok env _ 0 w3 w' hb with ⟨_, he⟩ | ⟨k, pk, _, _, hk, _, _, hcs⟩
    · subst he
      exact ⟨e2, [], by rw [he2]; simp, hall, Or.inl rfl⟩
    · obtain ⟨_, _, _, _, _, _, b6⟩ := context_switch_ok hk hcs
      exact ⟨e2, [event.alarm 1, event.kill pk.pid SIGCONT], by rw [b6, he2], hall,
        Or.inr ⟨pk.pid, rfl⟩⟩

/-! ## Arrivals and the quantum; timestamps -/

/-- A dispatch keeps `Due`: the quantum advances only in a timer branch that
has admitted every PCB due at the old quantum. -/
theorem due_dispatch {st : Step} {w w' : World} (hinv : Inv w.g_scheduler)
    (hdue : Due w.g_scheduler) (hd : dispatch st w = .ok w') : Due w'.g_scheduler := by
  have timer : ∀ (w0 : World), Inv w0.g_scheduler → Due w0.g_scheduler →
      w0.g_interrupted = SIGALRM → timer_expiry basic st.env w0 = .ok w' →
      Due w'.g_scheduler := by
    intro w0 hinv0 hdue0 hflag htm i p' hp' hc'
    obtain ⟨p, hp, hcase⟩ := timer_expiry_back hinv0 hflag htm i p' hp'
    have hq' : w'.g_scheduler.current_quantum ≤ w0.g_scheduler.current_quantum + 1 := by
      obtain ⟨w3, _, hq3, _, _, _, _, hb⟩ := timer_expiry_shape hinv0 hflag htm
      rcases hb with ⟨_, he⟩ | ⟨k, pk, _, _, _, _, _, _, b3, _⟩
      · rw [he, hq3]; omega
      · rw [b3, hq3]
    rcases hcase with he | ⟨_, he⟩
    · by_cases hq : p.creation_quantum = w0.g_scheduler.current_quantum
      · rw [arrived_of_eq _ _ (by rw [preempted_creation]; exact hq)] at he
        rw [he] at hc'
        cases hc'
      · rw [arrived_of_ne _ _ (by rw [preempted_creation]; exact hq)] at he
        rw [he] at hc' ⊢
        have hpc := (preempted_created p).mp hc'
        have := hdue0 i p hp hpc
        rw [preempted_creation]
        omega
    · rw [he, switched_state] at hc'
      cases hc'
  rcases dispatch_shape hd with ⟨he, _⟩ | ⟨hflag, htm⟩ | ⟨k, pk, _, hz0, _, hk, hpid, _, htm⟩
  · rw [he]; exact hdue
  · exact timer (deliver st.signals w) (by rw [deliver_sched]; exact hinv)
      (by rw [deliver_sched]; exact hdue) hflag htm
  · obtain ⟨m1, m2, m3, _, _, m6, _⟩ := marked_facts st hinv hk hpid hz0
    refine timer _ m1 ?_ m2 htm
    intro i p hp hc
    rw [m3]
    rw [m6 i] at hp
    by_cases hki : k = i
    · rw [if_pos hki] at hp
      injection hp with hp
      rw [← hp] at hc
      cases hc
    · rw [if_neg hki] at hp
      exact hdue i p hp hc

/-- The loaded state satisfies `Due` when no creation quantum is negative. -/
theorem due_read_spec (jobs : List job) (hnn : ∀ j ∈ jobs, 0 ≤ j.creation_quantum) :
    Due (read_spec jobs) := by
  intro i p hp _
  simp only [read_spec, List.getElem?_map] at hp
  rcases Option.map_eq_some'.mp hp with ⟨j, hj, he⟩
  subst he
  exact hnn j (List.mem_iff_getElem?.mpr ⟨i, hj⟩)

theorem tok_mono {hi hi' : Nat} {p : process_ctl_block} (hle : hi ≤ hi') (h : TOk hi p) :
    TOk hi' p :=
  ⟨le_trans h.arrival_le hle, le_trans h.start_le hle, le_trans h.completion_le hle,
    h.created_unset, h.arrival_start, h.completed_terminated, h.start_completion⟩

theorem tok_reaped {hi : Nat} {p : process_ctl_block} (env : Env) (h : TOk hi p)
    (hle : hi ≤ env.time_completion) : TOk env.time_completion (reaped env p) :=
  ⟨le_trans h.arrival_le hle, le_trans h.start_le hle, le_refl _,
    fun hc => (by cases hc), h.arrival_start, fun _ => rfl,
    fun _ => le_trans h.start_le hle⟩

theorem tok_preempted {hi : Nat} {p : process_ctl_block} (h : TOk hi p) :
    TOk hi (preempted p) := by
  by_cases hr : p.state = process_state.RUNNING
  · rw [preempted_of_running hr]
    have hc0 : p.completion_time = 0 := by
      by_contra hne
      have := h.completed_terminated hne
      rw [hr] at this
      cases this
    exact ⟨h.arrival_le, h.start_le, h.completion_le, fun hc => (by cases hc), h.arrival_start,
      fun hne => absurd hc0 hne, fun hne => absurd hc0 hne⟩
  · rw [preempted_of_not_running hr]
    exact h

theorem tok_admitted {hi hi' : Nat} {p : process_ctl_block} (env : Env) (j : Nat)
    (h : TOk hi p) (hc : p.state = process_state.CREATED) (hle : hi ≤ hi')
    (ha : env.time_arrival j ≤ hi') : TOk hi' (admitted env j p) := by
  obtain ⟨hs0, hc0⟩ := h.created_unset hc
  exact ⟨ha, le_trans h.start_le hle, le_trans h.completion_le hle, fun hcr => (by cases hcr),
    fun hne => absurd hs0 hne, fun hne => absurd hc0 hne, fun hne => absurd hc0 hne⟩

theorem tok_switched {hi : Nat} {p : process_ctl_block} (env : Env) (h : TOk hi p)
    (hw : p.state = process_state.WAITING) (hle : hi ≤ env.time_start) :
    TOk env.time_start (switched env p) := by
  have hc0 : p.completion_time = 0 := by
    by_contra hne
    have := h.completed_terminated hne
    rw [hw] at this
    cases this
  have hcs : (switched env p).completion_time = 0 := by rw [switched_completion]; exact hc0
  have hstart : (switched env p).start_time = env.time_start ∨
      ((switched env p).start_time = p.start_time ∧ p.start_time ≠ 0) := by
    unfold switched
    by_cases h0 : p.start_time = 0
    · rw [if_pos h0]; exact Or.inl rfl
    · rw [if_neg h0]; exact Or.inr ⟨rfl, h0⟩
  refine ⟨?_, ?_, ?_, ?_, ?_, fun hne => absurd hcs hne, fun hne => absurd hcs hne⟩
  · rw [switched_arrival]; exact le_trans h.arrival_le hle
  · rcases hstart with hs | ⟨hs, _⟩
    · rw [hs]
    · rw [hs]; exact le_trans h.start_le hle
  · rw [hcs]; exact Nat.zero_le _
  · intro hcr
    rw [switched_state] at hcr
    cases hcr
  · intro _
    rw [switched_arrival]
    rcases hstart with hs | ⟨hs, hne⟩
    · rw [hs]; exact le_trans h.arrival_le hle
    · rw [hs]; exact h.arrival_start hne

/-- A dispatch whose clock readings follow the reading `lo` keeps the
timestamps of every PCB consistent. -/
theorem tok_dispatch {st : Step} {w w' : World} {lo : Nat} (hinv : Inv w.g_scheduler)
    (htok : ∀ (i : Nat) (p : process_ctl_block), w.g_scheduler.pcbs[i]? = some p → TOk lo p)
    (h1 : lo ≤ st.env.time_completion)
    (h2 : ∀ i, st.env.time_completion ≤ st.env.time_arrival i)
    (h3 : ∀ i, st.env.time_arrival i ≤ st.env.time_start)
    (hd : dispatch st w = .ok w') :
    ∀ (i : Nat) (p : process_ctl_block), w'.g_scheduler.pcbs[i]? = some p →
      TOk st.env.time_start p := by
  have hlo : lo ≤ st.env.time_start := le_trans h1 (le_trans (h2 0) (h3 0))
  have timer : ∀ (w0 : World) (b : Nat), Inv w0.g_scheduler →
      (∀ (i : Nat) (p : process_ctl_block), w0.g_scheduler.pcbs[i]? = some p → TOk b p) →
      (∀ i, b ≤ st.env.time_arrival i) →
      w0.g_interrupted = SIGALRM → timer_expiry basic st.env w0 = .ok w' →
      ∀ (i : Nat) (p : process_ctl_block), w'.g_scheduler.pcbs[i]? = some p →
        TOk st.env.time_start p := by
    intro w0 b hinv0 htok0 hb hflag htm i p' hp'
    obtain ⟨p, hp, hcase⟩ := timer_expiry_back hinv0 hflag htm i p' hp'
    have hbs : b ≤ st.env.time_start := le_trans (hb 0) (h3 0)
    have h3' : TOk st.env.time_start
        (arrived st.env w0.g_scheduler.current_quantum i (preempted p)) := by
      by_cases hq : p.creation_quantum = w0.g_scheduler.current_quantum
      · have hc : p.state = process_state.CREATED := by
          by_contra hnc
          have := hinv0.admitted_before i p hp hnc
          omega
        rw [arrived_of_eq _ _ (by rw [preempted_creation]; exact hq),
          preempted_of_not_running (by rw [hc]; decide)]
        exact tok_admitted st.env i (htok0 i p hp) hc hbs (h3 i)
      · rw [arrived_of_ne _ _ (by rw [preempted_creation]; exact hq)]
        exact tok_mono hbs (tok_preempted (htok0 i p hp))
    rcases hcase with he | ⟨hw, he⟩
    · rw [he]; exact h3'
    · rw [he]; exact tok_switched st.env h3' hw (le_refl _)
  rcases dispatch_shape hd with ⟨he, _⟩ | ⟨hflag, htm⟩ | ⟨k, pk, _, hz0, _, hk, hpid, _, htm⟩
  · intro i p hp
    rw [he] at hp
    exact tok_mono hlo (htok i p hp)
  · exact timer (deliver st.signals w) lo (by rw [deliver_sched]; exact hinv)
      (by rw [deliver_sched]; exact htok) (fun i => le_trans h1 (h2 i)) hflag htm
  · obtain ⟨m1, m2, _, _, _, m6, _⟩ := marked_facts st hinv hk hpid hz0
    refine timer _ st.env.time_completion m1 ?_ h2 m2 htm
    intro i p hp
    rw [m6 i] at hp
    by_cases hki : k = i
    · rw [if_pos hki] at hp
      injection hp with hp
      rw [← hp]
      exact tok_reaped st.env (htok k pk hk) h1
    · rw [if_neg hki] at hp
      exact tok_mono h1 (htok i p hp)

/-- Along a run whose clock is non-decreasing, the timestamps of every PCB stay
consistent. -/
theorem tok_run : ∀ (steps : List Step) (lo : Nat) (w w' : World), Inv w.g_scheduler →
    (∀ (i : Nat) (p : process_ctl_block), w.g_scheduler.pcbs[i]? = some p → TOk lo p) →
    clock_ok lo steps → run steps w = .ok w' →
    ∃ hi, ∀ (i : Nat) (p : process_ctl_block), w'.g_scheduler.pcbs[i]? = some p → TOk hi p := by
  intro steps
  induction steps with
  | nil =>
    intro lo w w' _ htok _ h
    simp only [run] at h
    injection h with h
    subst h
    exact ⟨lo, htok⟩
  | cons st rest ih =>
    intro lo w w' hinv htok hclock h
    obtain ⟨h1, h2, h3, hrest⟩ := hclock
    rw [run] at h
    cases hd : dispatch st w with
    | error e => rw [hd] at h; cases h
    | ok w1 =>
      rw [hd] at h
      exact ih st.env.time_start w1 w' (inv_dispatch hinv hd)
        (tok_dispatch hinv htok h1 h2 h3 hd) hrest h

/-- The loaded PCBs have consistent timestamps: none is set. -/
theorem tok_read_spec (jobs : List job) (lo : Nat) :
    ∀ (i : Nat) (p : process_ctl_block), (read_spec jobs).pcbs[i]? = some p → TOk lo p := by
  intro i p hp
  simp only [read_spec, List.getElem?_map] at hp
  rcases Option.map_eq_some'.mp hp with ⟨j, _, he⟩
  subst he
  exact ⟨Nat.zero_le _, Nat.zero_le _, Nat.zero_le _, fun _ => ⟨rfl, rfl⟩,
    fun hne => absurd rfl hne, fun hne => absurd rfl hne, fun hne => absurd rfl hne⟩

/-! ## A stalled scheduler -/

/-- Without a `RUNNING` PCB the preemption step does nothing. -/
theorem preempt_idle {w : World}
    (h : ∀ (i : Nat) (p : process_ctl_block), w.g_scheduler.pcbs[i]? = some p →
      p.state ≠ process_state.RUNNING) : preempt w = w := by
  cases hc : w.g_scheduler.current_process with
  | none => exact preempt_no_current hc
  | some c =>
    cases hp : w.g_scheduler.pcbs[c]? with
    | none => exact preempt_dangling hc hp
    | some cur => exact preempt_not_running hc hp (h c cur hp)

/-- Without a PCB due at the current quantum the arrival loop does nothing. -/
theorem handle_arrivals_loop_idle (env : Env) {w : World}
    (h : ∀ (i : Nat) (p : process_ctl_block), w.g_scheduler.pcbs[i]? = some p →
      p.creation_quantum ≠ w.g_scheduler.current_quantum) :
    ∀ (n i : Nat), handle_arrivals_loop env n i w = .ok w := by
  intro n
  induction n with
  | zero => intro i; rfl
  | succ n ih =>
    intro i
    rw [handle_arrivals_loop]
    cases hi : w.g_scheduler.pcbs[i]? with
    | none => exact ih (i + 1)
    | some pcb =>
      simp only
      rw [if_neg (h i pcb hi)]
      exact ih (i + 1)

/-- Without a `WAITING` PCB the loop of `basic` does nothing. -/
theorem basic_loop_idle (env : Env) {w : World}
    (h : ∀ (i : Nat) (p : process_ctl_block), w.g_scheduler.pcbs[i]? = some p →
      p.state ≠ process_state.WAITING) :
    ∀ (n i : Nat), basic_loop env n i w = .ok w := by
  intro n
  induction n with
  | zero => intro i; rfl
  | succ n ih =>
    intro i
    rw [basic_loop]
    cases hi : w.g_scheduler.pcbs[i]? with
    | none => exact ih (i + 1)
    | some pcb =>
      simp only
      rw [if_neg (h i pcb hi)]
      exact ih (i + 1)

/-- In a stalled state the timer branch only prints its console line. -/
theorem timer_expiry_stalled (env : Env) {w : World} (hst : stalled w.g_scheduler)
    (hflag : w.g_interrupted = SIGALRM) :
    timer_expiry basic env w = .ok (emit { w with g_interrupted := 0 }
      [event.out_interrupt w.g_scheduler.current_quantum]) := by
  have hpre : preempt (emit { w with g_interrupted := 0 }
      [event.out_interrupt w.g_scheduler.current_quantum]) =
      emit { w with g_interrupted := 0 }
        [event.out_interrupt w.g_scheduler.current_quantum] :=
    preempt_idle (fun i p hp => (hst i p hp).1)
  refine @timer_expiry_of_stages _ _ _ (emit { w with g_interrupted := 0 }
    [event.out_interrupt w.g_scheduler.current_quantum]) _ hflag ?_ ?_
  · rw [hpre]
    exact handle_arrivals_loop_idle env (w := emit { w with g_interrupted := 0 } _)
      (fun i p hp => (hst i p hp).2.2) _ 0
  · exact basic_loop_idle env (w := emit { w with g_interrupted := 0 } _)
      (fun i p hp => (hst i p hp).2.1) _ 0

/-- A dispatch whose flag is the timer flag is the timer branch. -/
theorem dispatch_of_timer {st : Step} {w : World}
    (hflag : (deliver st.signals w).g_interrupted = SIGALRM) :
    dispatch st w = timer_expiry basic st.env (deliver st.signals w) := by
  unfold dispatch
  simp only
  rw [if_pos (by rw [hflag]; decide)]
  unfold interrupt_handler
  rw [if_neg (by rw [hflag]; decide)]

/-- From a stalled state every dispatch returns, in a stalled state at the same
quantum, in which every PCB has the state it had or is `TERMINATED`. -/
theorem dispatch_stalled (st : Step) {w : World} (hst : stalled w.g_scheduler) :
    ∃ w', dispatch st w = .ok w' ∧
      w'.g_scheduler.current_quantum = w.g_scheduler.current_quantum ∧
      stalled w'.g_scheduler ∧
      ∀ (i : Nat) (p : process_ctl_block), w.g_scheduler.pcbs[i]? = some p →
        ∃ p', w'.g_scheduler.pcbs[i]? = some p' ∧
          p'.creation_quantum = p.creation_quantum ∧
          (p'.state = p.state ∨ p'.state = process_state.TERMINATED) := by
  have same : ∀ w' : World, w'.g_scheduler = w.g_scheduler →
      w'.g_scheduler.current_quantum = w.g_scheduler.current_quantum ∧
      stalled w'.g_scheduler ∧
      ∀ (i : Nat) (p : process_ctl_block), w.g_scheduler.pcbs[i]? = some p →
        ∃ p', w'.g_scheduler.pcbs[i]? = some p' ∧
          p'.creation_quantum = p.creation_quantum ∧
          (p'.state = p.state ∨ p'.state = process_state.TERMINATED) := by
    intro w' he
    rw [he]
    exact ⟨rfl, hst, fun i p hp => ⟨p, hp, rfl, Or.inl rfl⟩⟩
  have hst0 : stalled (deliver st.signals w).g_scheduler := by rw [deliver_sched]; exact hst
  unfold dispatch
  simp only
  by_cases h0 : (deliver st.signals w).g_interrupted = 0
  · rw [if_neg (fun x => x h0)]
    exact ⟨_, rfl, same _ (deliver_sched _ _)⟩
  rw [if_pos h0]
  unfold interrupt_handler
  by_cases hchld : (deliver st.signals w).g_interrupted = SIGCHLD
  · rw [if_pos hchld]
    simp only
    by_cases hz : st.env.waitpid = 0 ∨ st.env.waitpid = -1
    · rw [if_pos hz]
      exact ⟨_, rfl, same _ (deliver_sched _ _)⟩
    · rw [if_neg hz]
      cases hfind : find_pcb_loop (emit (deliver st.signals w)
          [event.waitpid st.env.waitpid]).g_scheduler st.env.waitpid
          (emit (deliver st.signals w) [event.waitpid st.env.waitpid]).g_scheduler.num_processes 0
        with
      | none =>
        simp only
        refine ⟨emit (deliver st.signals w) [event.waitpid st.env.waitpid], ?_,
          same _ (deliver_sched _ _)⟩
        unfold timer_expiry
        rw [if_neg (by rw [emit_flag, hchld]; decide)]
      | some k =>
        simp only
        obtain ⟨_, _, ⟨pk, hk, _⟩, _⟩ := find_pcb_loop_some _ _ _ _ _ hfind
        have hget := mark_terminated_get st.env k _ pk hk
        obtain ⟨_, m2, _, m4, _⟩ := mark_terminated_rest st.env k _ pk hk
        rw [emit_sched, deliver_sched] at hk m2
        have hstm : stalled (mark_terminated st.env k
            (emit (deliver st.signals w) [event.waitpid st.env.waitpid])).g_scheduler := by
          intro i p hp
          rw [m2]
          rw [hget i, emit_sched, deliver_sched] at hp
          by_cases hki : k = i
          · rw [if_pos hki] at hp
            injection hp with hp
            rw [← hp]
            exact ⟨by show process_state.TERMINATED ≠ _; decide,
              by show process_state.TERMINATED ≠ _; decide, (hst k pk hk).2.2⟩
          · rw [if_neg hki] at hp
            exact hst i p hp
        refine ⟨_, timer_expiry_stalled st.env hstm m4, ?_, ?_, ?_⟩
        · rw [emit_sched]; exact m2
        · rw [emit_sched]; exact hstm
        · intro i p hp
          rw [emit_sched, hget i, emit_sched, deliver_sched]
          by_cases hki : k = i
          · rw [if_pos hki]
            subst hki
            rw [hk] at hp
            injection hp with hp
            subst hp
            exact ⟨_, rfl, rfl, Or.inr rfl⟩
          · rw [if_neg hki]
            exact ⟨p, hp, rfl, Or.inl rfl⟩
  · rw [if_neg hchld]
    by_cases hflag : (deliver st.signals w).g_interrupted = SIGALRM
    · exact ⟨_, timer_expiry_stalled st.env hst0 hflag, same _ (deliver_sched _ _)⟩
    · refine ⟨deliver st.signals w, ?_, same _ (deliver_sched _ _)⟩
      unfold timer_expiry
      rw [if_neg hflag]

/-- From a stalled state every run returns, in a stalled state at the same
quantum, in which every PCB has the state it had or is `TERMINATED`. -/
theorem run_stalled : ∀ (steps : List Step) (w : World), stalled w.g_scheduler →
    ∃ w', run steps w = .ok w' ∧
      w'.g_scheduler.current_quantum = w.g_scheduler.current_quantum ∧
      stalled w'.g_scheduler ∧
      ∀ (i : Nat) (p : process_ctl_block), w.g_scheduler.pcbs[i]? = some p →
        ∃ p', w'.g_scheduler.pcbs[i]? = some p' ∧
          p'.creation_quantum = p.creation_quantum ∧
          (p'.state = p.state ∨ p'.state = process_state.TERMINATED) := by
  intro steps
  induction steps with
  | nil =>
    intro w hst
    exact ⟨w, rfl, rfl, hst, fun i p hp => ⟨p, hp, rfl, Or.inl rfl⟩⟩
  | cons st rest ih =>
    intro w hst
    obtain ⟨w1, hd, hq1, hst1, hp1⟩ := dispatch_stalled st hst
    obtain ⟨w', hr, hq', hst', hp'⟩ := ih w1 hst1
    refine ⟨w', ?_, by rw [hq', hq1], hst', fun i p hp => ?_⟩
    · rw [run, hd]
      exact hr
    · obtain ⟨p1, g1, c1, s1⟩ := hp1 i p hp
      obtain ⟨p2, g2, c2, s2⟩ := hp' i p1 g1
      refine ⟨p2, g2, by rw [c2, c1], ?_⟩
      rcases s2 with s2 | s2
      · rcases s1 with s1 | s1
        · exact Or.inl (by rw [s2, s1])
        · exact Or.inr (by rw [s2, s1])
      · exact Or.inr s2

/-! ## The first dispatch -/

/-- The PCBs of the loaded state. -/
theorem read_spec_get (jobs : List job) (j : Nat) :
    (read_spec jobs).pcbs[j]? = (jobs[j]?).map loaded := by
  simp only [read_spec, List.getElem?_map]
  rfl

/-- When every `fork` for a due PCB succeeds and `kill(pid, SIGCONT)`
succeeds, the timer branch returns. -/
theorem timer_expiry_returns {env : Env} {w : World}
    (hflag : w.g_interrupted = SIGALRM)
    (hfork : ∀ (j : Nat) (p : process_ctl_block), w.g_scheduler.pcbs[j]? = some p →
      p.creation_quantum = w.g_scheduler.current_quantum →
      env.fork j ≠ -1 ∧ env.fork j ≠ 0)
    (hkill : env.kill_ret ≠ -1) : ∃ w', timer_expiry basic env w = .ok w' := by
  obtain ⟨_, a2, _, _, _, a6⟩ := preempt_spec (emit { w with g_interrupted := 0 }
      [event.out_interrupt w.g_scheduler.current_quantum])
  obtain ⟨w3, ha⟩ := @handle_arrivals_returns env
    (preempt (emit { w with g_interrupted := 0 }
      [event.out_interrupt w.g_scheduler.current_quantum]))
    (by
      intro j p2 hp2 hq2
      rw [a6 j] at hp2
      rcases Option.map_eq_some'.mp hp2 with ⟨p, hp, he⟩
      refine hfork j p hp ?_
      rw [a2] at hq2
      rw [← he] at hq2
      have hcq : ∀ (c : Prop) [Decidable c],
          (if c then ({ p with state := process_state.WAITING } : process_ctl_block)
            else p).creation_quantum = p.creation_quantum := by
        intro c _
        split <;> rfl
      rw [hcq] at hq2
      exact hq2)
  obtain ⟨w', hb⟩ := basic_loop_returns env hkill w3.g_scheduler.num_processes 0 w3
  exact ⟨w', timer_expiry_of_stages hflag ha hb⟩

/-! ## The state the algorithm is called on after a matched child exit -/

@[simp] theorem preempted_at_creation (cur : Option Nat) (j : Nat) (x : process_ctl_block) :
    (preempted_at cur j x).creation_quantum = x.creation_quantum := by
  unfold preempted_at; split <;> rfl

/-- After a matched child exit of `pcbs[i]`, in a state whose `num_processes`
is the number of PCBs and when every `fork` for a due PCB succeeds, arrival
admission returns, and the state the algorithm is then called on holds at each
index the PCB described by `seen_by_policy`. -/
theorem matched_exit_stages (env : Env) (w : World) (i : Nat) (p : process_ctl_block)
    (hp : w.g_scheduler.pcbs[i]? = some p)
    (hwf : w.g_scheduler.num_processes = w.g_scheduler.pcbs.length)
    (hfork : ∀ (j : Nat) (x : process_ctl_block), w.g_scheduler.pcbs[j]? = some x →
      x.creation_quantum = w.g_scheduler.current_quantum →
      env.fork j ≠ -1 ∧ env.fork j ≠ 0) :
    ∃ w3 : World,
      handle_arrivals env (preempt (emit
        { (mark_terminated env i (emit w [event.waitpid env.waitpid])) with g_interrupted := 0 }
        [event.out_interrupt (mark_terminated env i
          (emit w [event.waitpid env.waitpid])).g_scheduler.current_quantum])) = .ok w3 ∧
      w3.g_scheduler.num_processes = w3.g_scheduler.pcbs.length ∧
      w3.g_scheduler.num_processes = w.g_scheduler.num_processes ∧
      w3.g_scheduler.current_quantum = w.g_scheduler.current_quantum ∧
      ∀ j, w3.g_scheduler.pcbs[j]? = (w.g_scheduler.pcbs[j]?).map (seen_by_policy env w i j) := by
  have hp' : (emit w [event.waitpid env.waitpid]).g_scheduler.pcbs[i]? = some p := hp
  obtain ⟨m1, m2, m3, _, _⟩ := mark_terminated_rest env i _ p hp'
  have hget := mark_terminated_get env i _ p hp'
  obtain ⟨a1, a2, _, _, a5, a6⟩ := preempt_spec
    (emit { (mark_terminated env i (emit w [event.waitpid env.waitpid]))
      with g_interrupted := 0 }
    [event.out_interrupt (mark_terminated env i
      (emit w [event.waitpid env.waitpid])).g_scheduler.current_quantum])
  have hlen : (mark_terminated env i (emit w
      [event.waitpid env.waitpid])).g_scheduler.pcbs.length = w.g_scheduler.pcbs.length := by
    rw [mark_terminated_spec env i _ p hp']
    show (List.set _ _ _).length = _
    rw [List.length_set]
    rfl
  have hq2 : (preempt (emit { (mark_terminated env i (emit w [event.waitpid env.waitpid]))
      with g_interrupted := 0 }
      [event.out_interrupt (mark_terminated env i
        (emit w [event.waitpid env.waitpid])).g_scheduler.current_quantum])).g_scheduler.current_quantum
      = w.g_scheduler.current_quantum := by
    rw [a2]
    show (mark_terminated env i _).g_scheduler.current_quantum = _
    rw [m2]
    rfl
  have hn2 : (preempt (emit { (mark_terminated env i (emit w [event.waitpid env.waitpid]))
      with g_interrupted := 0 }
      [event.out_interrupt (mark_terminated env i
        (emit w [event.waitpid env.waitpid])).g_scheduler.current_quantum])).g_scheduler.num_processes
      = w.g_scheduler.num_processes := by
    rw [a1]
    show (mark_terminated env i _).g_scheduler.num_processes = _
    rw [m1]
    rfl
  have hwf2 : (preempt (emit { (mark_terminated env i (emit w [event.waitpid env.waitpid]))
      with g_interrupted := 0 }
      [event.out_interrupt (mark_terminated env i
        (emit w [event.waitpid env.waitpid])).g_scheduler.current_quantum])).g_scheduler.num_processes
      = (preempt (emit { (mark_terminated env i (emit w [event.waitpid env.waitpid]))
      with g_interrupted := 0 }
      [event.out_interrupt (mark_terminated env i
        (emit w [event.waitpid env.waitpid])).g_scheduler.current_quantum])).g_scheduler.pcbs.length
      := by
    rw [hn2, a5]
    show _ = (mark_terminated env i _).g_scheduler.pcbs.length
    rw [hlen]
    exact hwf
  have hget2 : ∀ j, (preempt (emit { (mark_terminated env i (emit w [event.waitpid env.waitpid]))
      with g_interrupted := 0 }
      [event.out_interrupt (mark_terminated env i
        (emit w [event.waitpid env.waitpid])).g_scheduler.current_quantum])).g_scheduler.pcbs[j]?
      = (w.g_scheduler.pcbs[j]?).map (fun x =>
          preempted_at w.g_scheduler.current_process j (if j = i then reaped env x else x)) := by
    intro j
    rw [a6 j]
    show Option.map _ ((mark_terminated env i _).g_scheduler.pcbs[j]?) = _
    rw [hget j]
    have hcur : (emit { (mark_terminated env i (emit w [event.waitpid env.waitpid]))
        with g_interrupted := 0 }
        [event.out_interrupt (mark_terminated env i
          (emit w [event.waitpid env.waitpid])).g_scheduler.current_quantum]).g_scheduler.current_process
        = w.g_scheduler.current_process := by
      show (mark_terminated env i _).g_scheduler.current_process = _
      rw [m3]
      rfl
    rw [hcur]
    by_cases hij : i = j
    · subst hij
      rw [if_pos rfl, hp]
      simp only [Option.map_some', if_pos rfl]
      rfl
    · rw [if_neg hij]
      show Option.map _ (w.g_scheduler.pcbs[j]?) = _
      cases hj : w.g_scheduler.pcbs[j]? with
      | none => rfl
      | some x =>
        have hji : ¬ j = i := fun h => hij h.symm
        simp only [Option.map_some', if_neg hji]
        rfl
  obtain ⟨w3, ha⟩ := @handle_arrivals_returns env
    (preempt (emit { (mark_terminated env i (emit w [event.waitpid env.waitpid]))
      with g_interrupted := 0 }
      [event.out_interrupt (mark_terminated env i
        (emit w [event.waitpid env.waitpid])).g_scheduler.current_quantum]))
    (by
      intro j p2 hp2 hcq
      rw [hget2 j] at hp2
      rcases Option.map_eq_some'.mp hp2 with ⟨x, hx, he⟩
      refine hfork j x hx ?_
      rw [hq2, ← he, preempted_at_creation] at hcq
      by_cases hji : j = i
      · rw [if_pos hji] at hcq; exact hcq
      · rw [if_neg hji] at hcq; exact hcq)
  obtain ⟨c1, c2, _, _, c5, _, c7, _⟩ := handle_arrivals_ok hwf2 ha
  refine ⟨w3, ha, by rw [c1, c5]; exact hwf2, by rw [c1, hn2], by rw [c2, hq2], fun j => ?_⟩
  rw [c7 j, hget2 j, hq2]
  cases w.g_scheduler.pcbs[j]? with
  | none => rfl
  | some x => rfl

/-! ## The claims -/

/-- C1: in every state reached from the loaded state by any sequence of
dispatches (each with arbitrary delivered signals and arbitrary answers of the
operating system), the number of PCBs in state `RUNNING` is 0 or 1. -/
theorem C1_at_most_one_running (jobs : List job) (steps : List Step) (w : World)
    (h : run steps (boot jobs) = .ok w) :
    num_running w.g_scheduler = 0 ∨ num_running w.g_scheduler = 1 := by
  have hinv := inv_reachable h
  have hle : num_running w.g_scheduler ≤ 1 := by
    unfold num_running
    apply countP_le_one_of_unique
    intro i j a b ha hb fa fb
    have h1 := hinv.running_is_current i a ha (by simpa using fa)
    have h2 := hinv.running_is_current j b hb (by simpa using fb)
    rw [h1] at h2
    injection h2
  omega

/-- Witness of C1: after the first dispatch on jobs `A` and `B` exactly one PCB
is `RUNNING`. -/
theorem C1_at_most_one_running_witness :
    run [first_step] (boot [job_A, job_B]) = .ok world_A_running ∧
    (num_running world_A_running.g_scheduler = 0 ∨
      num_running world_A_running.g_scheduler = 1) :=
  ⟨by rfl, C1_at_most_one_running [job_A, job_B] [first_step] world_A_running (by rfl)⟩

/-- C2: in every state reached from the loaded state, every dispatch (whatever
signals were delivered and whatever the operating system answers) leaves every
`TERMINATED` PCB `TERMINATED`; in particular arrival admission in the timer
branch does not move it back to `WAITING`. -/
theorem C2_terminated_is_final (jobs : List job) (steps : List Step) (w : World)
    (h : run steps (boot jobs) = .ok w) (st : Step) (w' : World)
    (hd : dispatch st w = .ok w') (i : Nat) (p : process_ctl_block)
    (hp : w.g_scheduler.pcbs[i]? = some p) (ht : p.state = process_state.TERMINATED) :
    ∃ p', w'.g_scheduler.pcbs[i]? = some p' ∧ p'.state = process_state.TERMINATED := by
  have hinv := inv_reachable h
  have hinv0 : Inv (deliver st.signals w).g_scheduler := by rw [deliver_sched]; exact hinv
  have hp0 : (deliver st.signals w).g_scheduler.pcbs[i]? = some p := by
    rw [deliver_sched]; exact hp
  rcases dispatch_cases hd with ⟨_, he⟩ | ⟨_, hi⟩
  · subst he; exact ⟨p, hp0, ht⟩
  · rcases interrupt_handler_cases hi with ⟨_, _, he⟩ | ⟨_, _, _, he⟩ |
      ⟨_, hz, k, hfind, htm⟩ | ⟨_, htm⟩
    · subst he; exact ⟨p, hp0, ht⟩
    · subst he; exact ⟨p, hp0, ht⟩
    · obtain ⟨_, _, ⟨pk, hk, hpid⟩, _⟩ := find_pcb_loop_some _ _ _ _ _ hfind
      have hk' : (emit (deliver st.signals w) [event.waitpid st.env.waitpid]).g_scheduler.pcbs[k]?
          = some pk := hk
      have hinv1 : Inv (mark_terminated st.env k
          (emit (deliver st.signals w) [event.waitpid st.env.waitpid])).g_scheduler :=
        inv_mark_terminated (w := emit (deliver st.signals w) _) hinv0 hk'
          (by rw [hpid]; exact fun h0 => hz (Or.inl h0))
      by_cases hki : k = i
      · subst hki
        have hp1 : (mark_terminated st.env k
            (emit (deliver st.signals w) [event.waitpid st.env.waitpid])).g_scheduler.pcbs[k]?
            = some (reaped st.env pk) := by
          rw [mark_terminated_get _ _ _ pk hk', if_pos rfl]
        exact ⟨_, timer_expiry_keeps_terminated hinv1 htm k _ hp1 rfl, rfl⟩
      · have hp1 : (mark_terminated st.env k
            (emit (deliver st.signals w) [event.waitpid st.env.waitpid])).g_scheduler.pcbs[i]?
            = some p := by
          rw [mark_terminated_get _ _ _ pk hk', if_neg hki]
          exact hp0
        exact ⟨_, timer_expiry_keeps_terminated hinv1 htm i _ hp1 ht, ht⟩
    · exact ⟨_, timer_expiry_keeps_terminated hinv0 htm i p hp0 ht, ht⟩

/-- Witness of C2: job `A`, terminated, stays terminated over a timer dispatch. -/
theorem C2_terminated_is_final_witness :
    run [first_step, exit_step] (boot [job_A, job_B]) = .ok world_A_terminated ∧
    dispatch tick_step world_A_terminated = .ok world_A_terminated_tick ∧
    ∃ p', world_A_terminated_tick.g_scheduler.pcbs[0]? = some p' ∧
      p'.state = process_state.TERMINATED :=
  ⟨by rfl, by rfl,
    C2_terminated_is_final [job_A, job_B] [first_step, exit_step] world_A_terminated (by rfl)
      tick_step world_A_terminated_tick (by rfl) 0 pcb_A_terminated (by rfl) (by rfl)⟩

/-- C3 as stated fails outside the reachable states: `handle_arrivals` makes no
test of the state.  A PCB that is `TERMINATED` and whose creation quantum is
the current quantum is not left unchanged: it is admitted again. -/
theorem C3_counterexample :
    ∃ (w' : World) (p' : process_ctl_block),
      world_stale.g_scheduler.pcbs[0]? = some pcb_stale ∧
      pcb_stale.state ≠ process_state.CREATED ∧
      handle_arrivals demo_env world_stale = .ok w' ∧
      w'.g_scheduler.pcbs[0]? = some p' ∧
      p' ≠ pcb_stale ∧ p'.state = process_state.WAITING ∧ p'.pid = 100 :=
  ⟨{ g_scheduler := { world_stale.g_scheduler with pcbs := [admitted demo_env 0 pcb_stale] }
     g_interrupted := 0
     trace := [event.out_arrival "Z", event.fork 100, event.out_created "Z" 100 1] },
    admitted demo_env 0 pcb_stale,
    by rfl, by decide, by rfl, by rfl,
    fun h => absurd (congrArg process_ctl_block.state h) (by decide), by rfl, by rfl⟩

/-- C3 (amended): for every scheduler state whose `num_processes` is the
number of PCBs, when every `fork` for an arriving PCB succeeds,
`handle_arrivals` returns and has admitted exactly the PCBs whose
`creation_quantum` equals `current_quantum`, whatever their state: each of
those has state `WAITING`, the clock reading as `arrival_time` and the pid
returned by `fork`, its other fields unchanged; every PCB whose
`creation_quantum` differs is unchanged, and so are `current_quantum`,
`current_process` and `num_processes`. -/
theorem C3_handle_arrivals_admits_by_quantum (env : Env) (w : World)
    (hwf : w.g_scheduler.num_processes = w.g_scheduler.pcbs.length)
    (hfork : ∀ (j : Nat) (p : process_ctl_block), w.g_scheduler.pcbs[j]? = some p →
      p.creation_quantum = w.g_scheduler.current_quantum →
      env.fork j ≠ -1 ∧ env.fork j ≠ 0) :
    ∃ w', handle_arrivals env w = .ok w' ∧
      w'.g_scheduler.current_quantum = w.g_scheduler.current_quantum ∧
      w'.g_scheduler.current_process = w.g_scheduler.current_process ∧
      w'.g_scheduler.num_processes = w.g_scheduler.num_processes ∧
      w'.g_scheduler.pcbs.length = w.g_scheduler.pcbs.length ∧
      ∀ (j : Nat) (p : process_ctl_block), w.g_scheduler.pcbs[j]? = some p →
        (p.creation_quantum = w.g_scheduler.current_quantum →
          w'.g_scheduler.pcbs[j]? = some
            { p with state := process_state.WAITING, arrival_time := env.time_arrival j,
                     pid := env.fork j }) ∧
        (p.creation_quantum ≠ w.g_scheduler.current_quantum →
          w'.g_scheduler.pcbs[j]? = some p) := by
  obtain ⟨w', hw'⟩ := handle_arrivals_returns hfork
  obtain ⟨a1, a2, a3, _, a5, _, a7, _⟩ := handle_arrivals_ok hwf hw'
  refine ⟨w', hw', a2, a3, a1, a5, fun j p hp => ⟨fun hq => ?_, fun hq => ?_⟩⟩
  · rw [a7 j, hp]
    simp only [Option.map_some', if_pos hq]
    rfl
  · rw [a7 j, hp]
    simp only [Option.map_some', if_neg hq]

/-- Witness of C3 (amended): on the loaded jobs `A` and `B`, at quantum 0,
`handle_arrivals` admits `A` and leaves `B` alone. -/
theorem C3_handle_arrivals_admits_by_quantum_witness :
    (boot [job_A, job_B]).g_scheduler.num_processes =
      (boot [job_A, job_B]).g_scheduler.pcbs.length ∧
    ∃ w', handle_arrivals demo_env (boot [job_A, job_B]) = .ok w' ∧
      w'.g_scheduler.pcbs[0]? = some
        { pcb_A_created with state := process_state.WAITING, arrival_time := 10, pid := 100 } ∧
      w'.g_scheduler.pcbs[1]? = some pcb_B_created :=
  have h := C3_handle_arrivals_admits_by_quantum demo_env (boot [job_A, job_B]) (by rfl)
    (fun j _ _ _ => by
      show (100 + (j : Int) ≠ -1) ∧ (100 + (j : Int) ≠ 0)
      omega)
  ⟨by rfl, h.elim fun w' hw' =>
    ⟨w', hw'.1, (hw'.2.2.2.2.2 0 pcb_A_created (by rfl)).1 (by rfl),
      (hw'.2.2.2.2.2 1 pcb_B_created (by rfl)).2 (by decide)⟩⟩

/-- C4: in every state reached from the loaded state and for every dispatch, a
PCB that is `CREATED` before and not `CREATED` after was admitted by the timer
branch at its creation quantum: `current_quantum` before the dispatch equals
its `creation_quantum`, the console line of the timer branch for that quantum
is among the events of this dispatch, the PCB is now `WAITING` or `RUNNING`, and
the dispatch saw either the timer flag or a child-exit flag whose reaped pid
matches a PCB (which then continues into the timer branch). -/
theorem C4_admitted_only_at_creation_quantum (jobs : List job) (steps : List Step) (w : World)
    (h : run steps (boot jobs) = .ok w) (st : Step) (w' : World)
    (hd : dispatch st w = .ok w') (i : Nat) (p p' : process_ctl_block)
    (hp : w.g_scheduler.pcbs[i]? = some p) (hc : p.state = process_state.CREATED)
    (hp' : w'.g_scheduler.pcbs[i]? = some p') (hn : p'.state ≠ process_state.CREATED) :
    p.creation_quantum = w.g_scheduler.current_quantum ∧
    (∃ pre post, w'.trace =
      w.trace ++ pre ++ event.out_interrupt w.g_scheduler.current_quantum :: post) ∧
    (p'.state = process_state.WAITING ∨ p'.state = process_state.RUNNING) ∧
    ((deliver st.signals w).g_interrupted = SIGALRM ∨
      ((deliver st.signals w).g_interrupted = SIGCHLD ∧
        st.env.waitpid ≠ 0 ∧ st.env.waitpid ≠ -1 ∧
        ∃ (k : Nat) (pk : process_ctl_block),
          w.g_scheduler.pcbs[k]? = some pk ∧ pk.pid = st.env.waitpid)) := by
  have hinv := inv_reachable h
  have hinv0 : Inv (deliver st.signals w).g_scheduler := by rw [deliver_sched]; exact hinv
  have hp0 : (deliver st.signals w).g_scheduler.pcbs[i]? = some p := by
    rw [deliver_sched]; exact hp
  have same : w'.g_scheduler = w.g_scheduler → False := by
    intro hs
    rw [hs, hp] at hp'
    injection hp' with hp'
    subst hp'
    exact hn hc
  rcases dispatch_cases hd with ⟨_, he⟩ | ⟨_, hi⟩
  · exact (same (by rw [he, deliver_sched])).elim
  · rcases interrupt_handler_cases hi with ⟨_, _, he⟩ | ⟨_, _, _, he⟩ |
      ⟨hchld, hz, k, hfind, htm⟩ | ⟨_, htm⟩
    · exact (same (by rw [he]; exact deliver_sched _ _)).elim
    · exact (same (by rw [he]; exact deliver_sched _ _)).elim
    · obtain ⟨_, _, ⟨pk, hk, hpid⟩, _⟩ := find_pcb_loop_some _ _ _ _ _ hfind
      have hk' : (emit (deliver st.signals w) [event.waitpid st.env.waitpid]).g_scheduler.pcbs[k]?
          = some pk := hk
      have hz0 : st.env.waitpid ≠ 0 := fun h0 => hz (Or.inl h0)
      have hz1 : st.env.waitpid ≠ -1 := fun h0 => hz (Or.inr h0)
      have hinv1 : Inv (mark_terminated st.env k
          (emit (deliver st.signals w) [event.waitpid st.env.waitpid])).g_scheduler :=
        inv_mark_terminated (w := emit (deliver st.signals w) _) hinv0 hk'
          (by rw [hpid]; exact hz0)
      have hki : k ≠ i := by
        intro hki
        subst hki
        rw [hp0] at hk
        injection hk with hk
        subst hk
        exact hz0 (by rw [← hpid]; exact hinv.created_pid k p hp hc)
      have hp1 : (mark_terminated st.env k
          (emit (deliver st.signals w) [event.waitpid st.env.waitpid])).g_scheduler.pcbs[i]?
          = some p := by
        rw [mark_terminated_get _ _ _ pk hk', if_neg hki]
        exact hp0
      obtain ⟨_, m2, _, m4, m5⟩ := mark_terminated_rest st.env k
        (emit (deliver st.signals w) [event.waitpid st.env.waitpid]) pk hk'
      obtain ⟨_, hq, hs⟩ := timer_expiry_created hinv1 htm i p p' hp1 hc hp' hn
      obtain ⟨rest, hr⟩ := timer_expiry_trace m4 htm
      rw [m2] at hq hr
      rw [m5] at hr
      simp only [emit_sched, emit_trace, deliver_sched, deliver_trace] at hq hr
      refine ⟨hq, ⟨[event.waitpid st.env.waitpid, event.alarm 0], rest, ?_⟩, hs,
        Or.inr ⟨hchld, hz0, hz1, k, pk, ?_, hpid⟩⟩
      · rw [hr]; simp
      · rw [← deliver_sched st.signals w]; exact hk
    · obtain ⟨hflag, hq, hs⟩ := timer_expiry_created hinv0 htm i p p' hp0 hc hp' hn
      obtain ⟨rest, hr⟩ := timer_expiry_trace hflag htm
      simp only [deliver_sched, deliver_trace] at hq hr
      exact ⟨hq, ⟨[], rest, by rw [hr]; simp⟩, hs, Or.inl hflag⟩

/-- Witness of C4: job `A` leaves `CREATED` in the first dispatch, at quantum 0. -/
theorem C4_admitted_only_at_creation_quantum_witness :
    dispatch first_step (boot [job_A, job_B]) = .ok world_A_running ∧
    pcb_A_created.creation_quantum = (boot [job_A, job_B]).g_scheduler.current_quantum ∧
    (∃ pre post, world_A_running.trace = (boot [job_A, job_B]).trace ++ pre ++
      event.out_interrupt (boot [job_A, job_B]).g_scheduler.current_quantum :: post) :=
  have h := C4_admitted_only_at_creation_quantum [job_A, job_B] [] (boot [job_A, job_B])
    (by rfl) first_step world_A_running (by rfl) 0 pcb_A_created pcb_A_running (by rfl) (by rfl)
    (by rfl) (by decide)
  ⟨by rfl, h.1, h.2.1⟩

/-- C5: for a scheduler state whose `num_processes` is the number of PCBs: if
the PCB at index `k` is the first `WAITING` one and `kill(pid, SIGCONT)`
succeeds, `basic` returns with that PCB `RUNNING` (the other fields as
`context_switch` leaves them), `current_process` pointing at it,
`current_quantum` increased by one and every other PCB unchanged; if no PCB is
`WAITING`, `basic` returns the globals and the record of calls unchanged. -/
theorem C5_basic_selects_first_waiting (env : Env) (w : World)
    (hwf : w.g_scheduler.num_processes = w.g_scheduler.pcbs.length) :
    (∀ (k : Nat) (p : process_ctl_block), w.g_scheduler.pcbs[k]? = some p →
      p.state = process_state.WAITING →
      (∀ (j : Nat) (q : process_ctl_block), j < k → w.g_scheduler.pcbs[j]? = some q →
        q.state ≠ process_state.WAITING) →
      env.kill_ret ≠ -1 →
      ∃ w', basic env w = .ok w' ∧
        w'.g_scheduler.pcbs[k]? = some (switched env p) ∧
        (switched env p).state = process_state.RUNNING ∧
        w'.g_scheduler.current_process = some k ∧
        w'.g_scheduler.current_quantum = w.g_scheduler.current_quantum + 1 ∧
        (∀ j, j ≠ k → w'.g_scheduler.pcbs[j]? = w.g_scheduler.pcbs[j]?) ∧
        w'.trace = w.trace ++ [event.alarm 1, event.kill p.pid SIGCONT]) ∧
    ((∀ (j : Nat) (p : process_ctl_block), w.g_scheduler.pcbs[j]? = some p →
        p.state ≠ process_state.WAITING) →
      basic env w = .ok w) := by
  constructor
  · intro k p hk hw hmin hkill
    obtain ⟨w', hb⟩ := basic_loop_returns env hkill w.g_scheduler.num_processes 0 w
    refine ⟨w', hb, ?_⟩
    rcases basic_ok hwf hb with ⟨hnone, _⟩ | ⟨k', p', hk', hw', hmin', hcs⟩
    · exact absurd hw (hnone k p hk)
    · have hkk : k' = k := by
        rcases Nat.lt_trichotomy k' k with hlt | heq | hgt
        · exact absurd hw' (hmin k' p' hlt hk')
        · exact heq
        · exact absurd hw (hmin' k p hgt hk)
      subst hkk
      rw [hk] at hk'
      injection hk' with hk'
      subst hk'
      obtain ⟨_, b1, _, b3, b4, _, b6⟩ := context_switch_ok hk hcs
      have hlen := lt_length_of_get hk
      refine ⟨?_, rfl, b4, b3, fun j hj => ?_, b6⟩
      · rw [b1, List.getElem?_set_self hlen]
      · rw [b1, List.getElem?_set_ne (fun x => hj x.symm)]
  · intro hnone
    obtain ⟨n, hn⟩ : ∃ n, n = w.g_scheduler.num_processes := ⟨_, rfl⟩
    unfold basic
    rw [← hn]
    have gen : ∀ (n i : Nat), basic_loop env n i w = .ok w := by
      intro n
      induction n with
      | zero => intro i; rfl
      | succ n ih =>
        intro i
        rw [basic_loop]
        cases hi : w.g_scheduler.pcbs[i]? with
        | none => exact ih (i + 1)
        | some pcb =>
          simp only
          rw [if_neg (hnone i pcb hi)]
          exact ih (i + 1)
    exact gen n 0

/-- Witness of C5: in a store with a terminated job followed by two waiting
ones, `basic` switches to the first waiting one, at index 1. -/
theorem C5_basic_selects_first_waiting_witness :
    world_queue.g_scheduler.num_processes = world_queue.g_scheduler.pcbs.length ∧
    ∃ w', basic demo_env world_queue = .ok w' ∧
      w'.g_scheduler.pcbs[1]? = some (switched demo_env pcb_W) ∧
      (switched demo_env pcb_W).state = process_state.RUNNING ∧
      w'.g_scheduler.current_process = some 1 ∧
      w'.g_scheduler.current_quantum = world_queue.g_scheduler.current_quantum + 1 ∧
      (∀ j, j ≠ 1 → w'.g_scheduler.pcbs[j]? = world_queue.g_scheduler.pcbs[j]?) ∧
      w'.trace = world_queue.trace ++ [event.alarm 1, event.kill pcb_W.pid SIGCONT] :=
  ⟨by rfl,
    (C5_basic_selects_first_waiting demo_env world_queue (by rfl)).1 1 pcb_W (by rfl) (by rfl)
      (fun j q hj hq => by
        have hj0 : j = 0 := by omega
        subst hj0
        have hq' : some pcb_A_terminated = some q := hq
        injection hq' with hq'
        subst hq'
        decide)
      (by decide)⟩

/-- C6 as stated fails: the program starts with the timer flag set; with a
single job due at quantum 1 the first dispatch services that flag and leaves
`current_quantum` at 0. -/
theorem C6_counterexample :
    ∃ w', run [] (boot [job_L]) = .ok (boot [job_L]) ∧
      (deliver first_step.signals (boot [job_L])).g_interrupted = SIGALRM ∧
      dispatch first_step (boot [job_L]) = .ok w' ∧
      w'.g_scheduler.current_quantum ≠ (boot [job_L]).g_scheduler.current_quantum + 1 :=
  ⟨{ boot [job_L] with g_interrupted := 0, trace := [event.out_interrupt 0] },
    by rfl, by rfl, by rfl, by decide⟩

/-- C6 (amended): `current_quantum` advances with the context switch, not with
the timer interrupt.  In every state reached from the loaded state, a dispatch
that sees the timer flag and returns ends with `current_quantum` one higher
when some PCB is `WAITING`, `RUNNING` or has its creation quantum equal to the
current quantum (the algorithm then finds a `WAITING` PCB and switches to it),
and with `current_quantum` unchanged when there is no such PCB. -/
theorem C6_quantum_advances_with_context_switch (jobs : List job) (steps : List Step)
    (w : World) (h : run steps (boot jobs) = .ok w) (st : Step) (w' : World)
    (hflag : (deliver st.signals w).g_interrupted = SIGALRM)
    (hd : dispatch st w = .ok w') :
    ((∃ (i : Nat) (p : process_ctl_block), w.g_scheduler.pcbs[i]? = some p ∧
        (p.state = process_state.WAITING ∨ p.state = process_state.RUNNING ∨
          p.creation_quantum = w.g_scheduler.current_quantum)) →
      w'.g_scheduler.current_quantum = w.g_scheduler.current_quantum + 1) ∧
    ((∀ (i : Nat) (p : process_ctl_block), w.g_scheduler.pcbs[i]? = some p →
        p.state ≠ process_state.WAITING ∧ p.state ≠ process_state.RUNNING ∧
          p.creation_quantum ≠ w.g_scheduler.current_quantum) →
      w'.g_scheduler.current_quantum = w.g_scheduler.current_quantum) := by
  have hinv := inv_reachable h
  have hinv0 : Inv (deliver st.signals w).g_scheduler := by rw [deliver_sched]; exact hinv
  have htm : timer_expiry basic st.env (deliver st.signals w) = .ok w' := by
    rcases dispatch_cases hd with ⟨h0, _⟩ | ⟨_, hi⟩
    · rw [hflag] at h0; exact absurd h0 (by decide)
    · rcases interrupt_handler_cases hi with ⟨hc, _⟩ | ⟨hc, _⟩ | ⟨hc, _⟩ | ⟨_, htm⟩
      · rw [hflag] at hc; exact absurd hc (by decide)
      · rw [hflag] at hc; exact absurd hc (by decide)
      · rw [hflag] at hc; exact absurd hc (by decide)
      · exact htm
  rcases timer_expiry_cases htm with ⟨hne, _⟩ | ⟨_, w3, ha, hb⟩
  · exact absurd hflag hne
  · obtain ⟨hmid3, hq3, _, hget⟩ := timer_expiry_mid hinv0 ha
    simp only [deliver_sched] at hq3 hget
    constructor
    · rintro ⟨i, p, hp, hs⟩
      have hw3 : ∃ p3, w3.g_scheduler.pcbs[i]? = some p3 ∧
          p3.state = process_state.WAITING := by
        refine ⟨arrived st.env w.g_scheduler.current_quantum i (preempted p),
          by rw [hget i, hp]; rfl, ?_⟩
        by_cases hcq : p.creation_quantum = w.g_scheduler.current_quantum
        · rw [arrived_of_eq _ _ (by rw [preempted_creation]; exact hcq)]
          rfl
        · rw [arrived_of_ne _ _ (by rw [preempted_creation]; exact hcq)]
          rcases hs with hs | hs | hs
          · rw [preempted_of_not_running (by rw [hs]; decide)]; exact hs
          · rw [preempted_of_running hs]
          · exact absurd hs hcq
      obtain ⟨p3, hp3, hs3⟩ := hw3
      rcases basic_ok hmid3.wf hb with ⟨hnone, _⟩ | ⟨k, pk, hk, _, _, hcs⟩
      · exact absurd hs3 (hnone i p3 hp3)
      · obtain ⟨_, _, _, b3, _⟩ := context_switch_ok hk hcs
        rw [b3, hq3]
    · intro hall
      rcases basic_ok hmid3.wf hb with ⟨_, he⟩ | ⟨k, pk, hk, hwk, _, _⟩
      · rw [he, hq3]
      · rw [hget k] at hk
        rcases Option.map_eq_some'.mp hk with ⟨p, hp, he⟩
        obtain ⟨n1, n2, n3⟩ := hall k p hp
        have : arrived st.env w.g_scheduler.current_quantum k (preempted p) = p := by
          rw [arrived_of_ne _ _ (by rw [preempted_creation]; exact n3),
            preempted_of_not_running n2]
        rw [this] at he
        subst he
        exact absurd hwk n1

/-- Witness of C6 (amended): the first dispatch on jobs `A` and `B` finds job
`A` due and ends at quantum 1. -/
theorem C6_quantum_advances_with_context_switch_witness :
    (deliver first_step.signals (boot [job_A, job_B])).g_interrupted = SIGALRM ∧
    dispatch first_step (boot [job_A, job_B]) = .ok world_A_running ∧
    world_A_running.g_scheduler.current_quantum =
      (boot [job_A, job_B]).g_scheduler.current_quantum + 1 :=
  ⟨by rfl, by rfl,
    (C6_quantum_advances_with_context_switch [job_A, job_B] [] (boot [job_A, job_B]) (by rfl)
      first_step world_A_running (by rfl) (by rfl)).1
      ⟨0, pcb_A_created, by rfl, Or.inr (Or.inr (by rfl))⟩⟩

/-- C7 as stated fails for one of the two orders: `signal_handler` keeps only
the last signal number.  With job `A` running, a child-exit notification
followed by a timer notification leaves the timer flag; the dispatch does not
call `waitpid`, suspends and resumes the process of `A` (pid 100, the one that
exited) and leaves its PCB `RUNNING`. -/
theorem C7_counterexample :
    ∃ (w' : World) (p' : process_ctl_block),
      run [first_step] (boot [job_A, job_B]) = .ok world_A_running ∧
      late_step.signals = [SIGCHLD, SIGALRM] ∧
      late_step.env.waitpid = pcb_A_running.pid ∧
      dispatch late_step world_A_running = .ok w' ∧
      w'.trace = world_A_running.trace ++
        [event.out_interrupt 1, event.kill 100 SIGSTOP, event.alarm 1,
          event.kill 100 SIGCONT] ∧
      w'.g_scheduler.pcbs[0]? = some p' ∧
      p'.state = process_state.RUNNING :=
  ⟨{ g_scheduler := { world_A_running.g_scheduler with current_quantum := 2 }
     g_interrupted := 0
     trace := world_A_running.trace ++
        [event.out_interrupt 1, event.kill 100 SIGSTOP, event.alarm 1,
          event.kill 100 SIGCONT] },
    pcb_A_running, by rfl, by rfl, by rfl, by rfl, by rfl, by rfl, by rfl⟩

/-- C7 (amended): when the child-exit notification is the one received last
(`SIGALRM`, then `SIGCHLD`), the dispatch services the child exit first.  The
first call it makes is `waitpid`; and when the reaped pid (neither 0 nor -1) is
the pid of a PCB, the first such PCB is marked `TERMINATED` with its completion
time and the timer is disarmed before the timer branch (preemption, arrival
admission, scheduling algorithm) runs on the resulting state. -/
theorem C7_child_exit_first_when_received_last (env : Env) (w : World) :
    (∀ w', dispatch { signals := [SIGALRM, SIGCHLD], env := env } w = .ok w' →
      ∃ rest, w'.trace = w.trace ++ event.waitpid env.waitpid :: rest) ∧
    (∀ (i : Nat) (p : process_ctl_block),
      env.waitpid ≠ 0 → env.waitpid ≠ -1 →
      i < w.g_scheduler.num_processes → w.g_scheduler.pcbs[i]? = some p →
      p.pid = env.waitpid →
      (∀ (j : Nat) (q : process_ctl_block), j < i → w.g_scheduler.pcbs[j]? = some q →
        q.pid ≠ env.waitpid) →
      dispatch { signals := [SIGALRM, SIGCHLD], env := env } w =
        timer_expiry basic env
          { set_pcb (emit w [event.waitpid env.waitpid, event.alarm 0]) i (reaped env p)
            with g_interrupted := SIGALRM }) := by
  have hdel : deliver [SIGALRM, SIGCHLD] w = { w with g_interrupted := SIGCHLD } := rfl
  have hdisp : dispatch { signals := [SIGALRM, SIGCHLD], env := env } w =
      interrupt_handler basic env { w with g_interrupted := SIGCHLD } := by
    unfold dispatch
    simp only [hdel]
    rw [if_pos (by decide)]
  constructor
  · intro w' hw'
    rw [hdisp] at hw'
    rcases interrupt_handler_cases hw' with ⟨_, _, he⟩ | ⟨_, _, _, he⟩ |
      ⟨_, _, k, hfind, htm⟩ | ⟨hne, _⟩
    · exact ⟨[], by rw [he]; rfl⟩
    · exact ⟨[], by rw [he]; rfl⟩
    · obtain ⟨_, _, ⟨pk, hk, _⟩, _⟩ := find_pcb_loop_some _ _ _ _ _ hfind
      have hk' : (emit { w with g_interrupted := SIGCHLD }
          [event.waitpid env.waitpid]).g_scheduler.pcbs[k]? = some pk := hk
      obtain ⟨_, m2, _, m4, m5⟩ := mark_terminated_rest env k _ pk hk'
      obtain ⟨rest, hr⟩ := timer_expiry_trace m4 htm
      refine ⟨event.alarm 0 :: event.out_interrupt w.g_scheduler.current_quantum :: rest, ?_⟩
      rw [hr, m5, m2]
      simp
    · exact absurd rfl hne
  · intro i p h0 h1 hi hp hpid hfirst
    rw [hdisp]
    unfold interrupt_handler
    rw [if_pos rfl]
    simp only
    rw [if_neg (by rintro (h | h); exact h0 h; exact h1 h)]
    simp only [emit_sched]
    have hfind : find_pcb_loop w.g_scheduler env.waitpid w.g_scheduler.num_processes 0 = some i :=
      find_pcb_loop_first w.g_scheduler env.waitpid i p hi hp hpid hfirst
    rw [hfind]
    simp only
    have hm := mark_terminated_spec env i
      (emit { w with g_interrupted := SIGCHLD } [event.waitpid env.waitpid]) p hp
    rw [hm]
    congr 1
    simp [emit, set_pcb]

/-- Witness of C7 (amended): with job `A` running, a timer notification
followed by a child-exit notification for pid 100 makes the dispatch reap
first and mark `A` terminated; the process of `A` is not suspended. -/
theorem C7_child_exit_first_when_received_last_witness :
    dispatch { signals := [SIGALRM, SIGCHLD], env := demo_env_exit } world_A_running =
      timer_expiry basic demo_env_exit
        { set_pcb (emit world_A_running [event.waitpid 100, event.alarm 0]) 0
            (reaped demo_env_exit pcb_A_running)
          with g_interrupted := SIGALRM } ∧
    dispatch { signals := [SIGALRM, SIGCHLD], env := demo_env_exit } world_A_running =
      .ok world_A_terminated :=
  ⟨(C7_child_exit_first_when_received_last demo_env_exit world_A_running).2 0 pcb_A_running
      (by decide) (by decide) (by decide) (by rfl) (by rfl)
      (fun j _ hj _ => absurd hj (Nat.not_lt_zero j)),
    by rfl⟩

/-- C8 as stated fails: after job `A` has exited while job `B` is not yet due,
`current_process` still points at the PCB of `A`, which is `TERMINATED`; the
loop of `main` has not ended. -/
theorem C8_counterexample :
    ∃ (w : World) (p : process_ctl_block),
      run [first_step, exit_step] (boot [job_A, job_B]) = .ok w ∧
      loop_exits w.g_scheduler = false ∧
      w.g_scheduler.current_process = some 0 ∧
      w.g_scheduler.pcbs[0]? = some p ∧
      p.state ≠ process_state.RUNNING :=
  ⟨world_A_terminated, pcb_A_terminated, by rfl, by rfl, by rfl, by rfl, by decide⟩

/-- C8 (amended): in every state reached from the loaded state,
`current_process` is unset or points at a PCB that is `RUNNING` or
`TERMINATED` (a job that exited stays `current_process` until the next context
switch); and a PCB that is `RUNNING` is the one `current_process` points at. -/
theorem C8_current_process_running_or_terminated (jobs : List job) (steps : List Step)
    (w : World) (h : run steps (boot jobs) = .ok w) :
    (w.g_scheduler.current_process = none ∨
      ∃ (c : Nat) (p : process_ctl_block), w.g_scheduler.current_process = some c ∧
        w.g_scheduler.pcbs[c]? = some p ∧
        (p.state = process_state.RUNNING ∨ p.state = process_state.TERMINATED)) ∧
    (∀ (i : Nat) (p : process_ctl_block), w.g_scheduler.pcbs[i]? = some p →
      p.state = process_state.RUNNING → w.g_scheduler.current_process = some i) := by
  have hinv := inv_reachable h
  refine ⟨?_, hinv.running_is_current⟩
  cases hc : w.g_scheduler.current_process with
  | none => exact Or.inl rfl
  | some c =>
    obtain ⟨p, hp, hs⟩ := hinv.current_state c hc
    exact Or.inr ⟨c, p, rfl, hp, hs⟩

/-- Witness of C8 (amended): after the first dispatch `current_process` points
at the PCB of job `A`, which is `RUNNING`. -/
theorem C8_current_process_running_or_terminated_witness :
    run [first_step] (boot [job_A, job_B]) = .ok world_A_running ∧
    (world_A_running.g_scheduler.current_process = none ∨
      ∃ (c : Nat) (p : process_ctl_block),
        world_A_running.g_scheduler.current_process = some c ∧
        world_A_running.g_scheduler.pcbs[c]? = some p ∧
        (p.state = process_state.RUNNING ∨ p.state = process_state.TERMINATED)) :=
  ⟨by rfl,
    (C8_current_process_running_or_terminated [job_A, job_B] [first_step] world_A_running
      (by rfl)).1⟩

/-- C9: a dispatch with the child-exit flag pending in which `waitpid` reports
no exited child (0 or -1), or a pid that no PCB has, returns with every PCB,
`current_quantum` and `current_process` unchanged; the only call it makes is
`waitpid` (no signal, no `alarm`, no `fork`, no console line of the timer
branch), and this whatever the scheduling algorithm is, which is therefore not
run. -/
theorem C9_spurious_child_exit (alg : Env → World → Except Halt World) (env : Env) (w : World)
    (hflag : w.g_interrupted = SIGCHLD)
    (hsp : env.waitpid = 0 ∨ env.waitpid = -1 ∨
      ∀ (j : Nat) (p : process_ctl_block), j < w.g_scheduler.num_processes →
        w.g_scheduler.pcbs[j]? = some p → p.pid ≠ env.waitpid) :
    ∃ w', interrupt_handler alg env w = .ok w' ∧
      w'.g_scheduler = w.g_scheduler ∧
      w'.trace = w.trace ++ [event.waitpid env.waitpid] := by
  unfold interrupt_handler
  rw [if_pos hflag]
  simp only
  by_cases hz : env.waitpid = 0 ∨ env.waitpid = -1
  · rw [if_pos hz]
    exact ⟨_, rfl, rfl, rfl⟩
  · rw [if_neg hz]
    have hno : ∀ (j : Nat) (p : process_ctl_block), j < w.g_scheduler.num_processes →
        w.g_scheduler.pcbs[j]? = some p → p.pid ≠ env.waitpid := by
      rcases hsp with h | h | h
      · exact absurd (Or.inl h) hz
      · exact absurd (Or.inr h) hz
      · exact h
    have hfind : find_pcb_loop w.g_scheduler env.waitpid w.g_scheduler.num_processes 0 = none :=
      (find_pcb_loop_none _ _ _ 0).mpr (fun j p _ h2 h3 => hno j p (by omega) h3)
    simp only [emit_sched]
    rw [hfind]
    simp only
    refine ⟨emit w [event.waitpid env.waitpid], ?_, rfl, rfl⟩
    unfold timer_expiry
    rw [if_neg]
    rw [emit_flag, hflag]
    decide

/-- Witness of C9: with job `A` running, a child-exit notification for which
`waitpid` returns 0 changes nothing. -/
theorem C9_spurious_child_exit_witness :
    ∃ w', interrupt_handler basic demo_env (signal_handler SIGCHLD world_A_running) = .ok w' ∧
      w'.g_scheduler = world_A_running.g_scheduler ∧
      w'.trace = world_A_running.trace ++ [event.waitpid 0] :=
  C9_spurious_child_exit basic demo_env (signal_handler SIGCHLD world_A_running) (by rfl)
    (Or.inl (by rfl))

/-- C10: for a scheduler state whose `num_processes` is the number of PCBs, the
exit test of the loop of `main` succeeds exactly when the count of `TERMINATED`
PCBs equals `num_processes`, that is exactly when every PCB is `TERMINATED`,
that is exactly when no PCB is `CREATED`, `WAITING` or `RUNNING`; the empty
store passes the test. -/
theorem C10_loop_exits_iff_all_terminated (s : scheduler_state)
    (hwf : s.num_processes = s.pcbs.length) :
    (loop_exits s = true ↔
      s.pcbs.countP (fun p => decide (p.state = process_state.TERMINATED)) = s.num_processes) ∧
    (loop_exits s = true ↔ ∀ p ∈ s.pcbs, p.state = process_state.TERMINATED) ∧
    (loop_exits s = true ↔ ∀ p ∈ s.pcbs, p.state ≠ process_state.CREATED ∧
      p.state ≠ process_state.WAITING ∧ p.state ≠ process_state.RUNNING) ∧
    (s.pcbs = [] → loop_exits s = true) := by
  have hcount : count_terminated_loop s s.num_processes 0 0 =
      s.pcbs.countP (fun p => decide (p.state = process_state.TERMINATED)) := by
    rw [count_terminated_loop_eq s s.num_processes 0 0 (by omega)]
    simp
  have h1 : loop_exits s = true ↔
      s.pcbs.countP (fun p => decide (p.state = process_state.TERMINATED)) = s.num_processes := by
    unfold loop_exits
    rw [decide_eq_true_iff, hcount]
  have h2 : loop_exits s = true ↔ ∀ p ∈ s.pcbs, p.state = process_state.TERMINATED := by
    rw [h1, hwf, List.countP_eq_length]
    simp
  refine ⟨h1, h2, ?_, ?_⟩
  · rw [h2]
    constructor
    · intro h p hp
      rw [h p hp]
      exact ⟨by decide, by decide, by decide⟩
    · intro h p hp
      obtain ⟨a, b, c⟩ := h p hp
      cases hs : p.state with
      | CREATED => exact absurd hs a
      | WAITING => exact absurd hs b
      | RUNNING => exact absurd hs c
      | TERMINATED => rfl
  · intro he
    rw [h2, he]
    intro p hp
    cases hp

/-- Witness of C10: with job `A` running and job `B` not yet created the loop
of `main` goes on. -/
theorem C10_loop_exits_iff_all_terminated_witness :
    world_A_running.g_scheduler.num_processes = world_A_running.g_scheduler.pcbs.length ∧
    loop_exits world_A_running.g_scheduler = false ∧
    (loop_exits world_A_running.g_scheduler = true ↔
      ∀ p ∈ world_A_running.g_scheduler.pcbs, p.state = process_state.TERMINATED) :=
  ⟨by rfl, by rfl, (C10_loop_exits_iff_all_terminated world_A_running.g_scheduler (by rfl)).2.1⟩

/-- C11: in every state reached from the loaded state, if the PCB at index `i`
is `RUNNING` then no PCB at an index `j < i` is `WAITING` (nor `RUNNING`).  So
with jobs `A` at index 0 and `B` at index 1, `B` is not `RUNNING` while `A` is
`WAITING` or `RUNNING`; and a job admitted later is not `RUNNING` while a job
in front of it is `WAITING`. -/
theorem C11_strict_priority_by_index (jobs : List job) (steps : List Step) (w : World)
    (h : run steps (boot jobs) = .ok w) (i : Nat) (p : process_ctl_block)
    (hp : w.g_scheduler.pcbs[i]? = some p) (hr : p.state = process_state.RUNNING)
    (j : Nat) (q : process_ctl_block) (hji : j < i) (hq : w.g_scheduler.pcbs[j]? = some q) :
    q.state ≠ process_state.WAITING ∧ q.state ≠ process_state.RUNNING := by
  refine ⟨(inv2_reachable h).priority i p hp hr j q hji hq, fun hrq => ?_⟩
  have hinv := inv_reachable h
  have h1 := hinv.running_is_current i p hp hr
  have h2 := hinv.running_is_current j q hq hrq
  rw [h1] at h2
  injection h2 with h2
  omega

/-- Witness of C11: with jobs `A` and `C`, after `A` has exited, `C` runs at
index 1 and `A` in front of it is neither `WAITING` nor `RUNNING`. -/
theorem C11_strict_priority_by_index_witness :
    run [first_step, exit_step] (boot [job_A, job_C]) = .ok world_C_running ∧
    pcb_A_terminated.state ≠ process_state.WAITING ∧
    pcb_A_terminated.state ≠ process_state.RUNNING :=
  ⟨by rfl,
    C11_strict_priority_by_index [job_A, job_C] [first_step, exit_step] world_C_running (by rfl)
      1 pcb_C_running (by rfl) (by rfl) 0 pcb_A_terminated (by decide) (by rfl)⟩

/-- C12: along every run from the loaded state, a PCB still `CREATED` has no
process handle (pid 0); and once a PCB has left `CREATED`, every later state of
the run shows the same `pid` and `arrival_time` for it, the PCB is still out of
`CREATED`, and its creation quantum differs from the current quantum, so the
admission body of `handle_arrivals`, the only place that writes these two
fields, is not entered for it again. -/
theorem C12_process_handle_set_once (jobs : List job) (steps : List Step) (w : World)
    (h : run steps (boot jobs) = .ok w) :
    (∀ (i : Nat) (p : process_ctl_block), w.g_scheduler.pcbs[i]? = some p →
      p.state = process_state.CREATED → p.pid = 0) ∧
    (∀ (later : List Step) (w' : World), run later w = .ok w' →
      ∀ (i : Nat) (p : process_ctl_block), w.g_scheduler.pcbs[i]? = some p →
        p.state ≠ process_state.CREATED →
        ∃ p', w'.g_scheduler.pcbs[i]? = some p' ∧ p'.pid = p.pid ∧
          p'.arrival_time = p.arrival_time ∧ p'.state ≠ process_state.CREATED ∧
          p'.creation_quantum ≠ w'.g_scheduler.current_quantum) := by
  have hinv := inv_reachable h
  refine ⟨hinv.created_pid, ?_⟩
  intro later w' h' i p hp hs
  obtain ⟨p', h1, f1, f2, _, f4⟩ :=
    handle_kept_run i p later w w' hinv ⟨p, hp, rfl, rfl, rfl, hs⟩ h'
  have hinv' := inv_run later w w' hinv h'
  have hlt := hinv'.admitted_before i p' h1 f4
  exact ⟨p', h1, f1, f2, f4, by omega⟩

/-- Witness of C12: job `A` keeps pid 100 and arrival time 10 when it exits. -/
theorem C12_process_handle_set_once_witness :
    run [first_step] (boot [job_A, job_B]) = .ok world_A_running ∧
    run [exit_step] world_A_running = .ok world_A_terminated ∧
    ∃ p', world_A_terminated.g_scheduler.pcbs[0]? = some p' ∧ p'.pid = pcb_A_running.pid ∧
      p'.arrival_time = pcb_A_running.arrival_time ∧ p'.state ≠ process_state.CREATED ∧
      p'.creation_quantum ≠ world_A_terminated.g_scheduler.current_quantum :=
  ⟨by rfl, by rfl,
    (C12_process_handle_set_once [job_A, job_B] [first_step] world_A_running (by rfl)).2
      [exit_step] world_A_terminated (by rfl) 0 pcb_A_running (by rfl) (by decide)⟩

/-- C13: in a state reached from the loaded state in which `current_process`
is `RUNNING` and the admitted PCBs have distinct pids, a dispatch that sees the
child-exit flag and in which `waitpid` returns the pid of the current process
ends with that PCB `TERMINATED` and its `completion_time` the clock reading;
after `waitpid` the first call is `alarm(0)`, and no `SIGSTOP` is sent during
the dispatch. -/
theorem C13_exit_of_running_job (jobs : List job) (steps : List Step) (w : World)
    (h : run steps (boot jobs) = .ok w) (c : Nat) (p : process_ctl_block)
    (hc : w.g_scheduler.current_process = some c) (hp : w.g_scheduler.pcbs[c]? = some p)
    (hr : p.state = process_state.RUNNING)
    (hdist : ∀ (i j : Nat) (a b : process_ctl_block), w.g_scheduler.pcbs[i]? = some a →
      w.g_scheduler.pcbs[j]? = some b → a.state ≠ process_state.CREATED →
      b.state ≠ process_state.CREATED → a.pid = b.pid → i = j)
    (st : Step) (w' : World) (hflag : (deliver st.signals w).g_interrupted = SIGCHLD)
    (hw : st.env.waitpid = p.pid) (hd : dispatch st w = .ok w') :
    ∃ p', w'.g_scheduler.pcbs[c]? = some p' ∧
      p'.state = process_state.TERMINATED ∧
      p'.completion_time = st.env.time_completion ∧
      ∃ rest, w'.trace = w.trace ++ event.waitpid p.pid :: event.alarm 0 :: rest ∧
        ∀ e ∈ rest, ∀ pid, e ≠ event.kill pid SIGSTOP := by
  have hinv := inv_reachable h
  have hinv2 := inv2_reachable h
  obtain ⟨hp0, hp1⟩ := hinv2.pid_set c p hp (by rw [hr]; decide)
  rcases dispatch_shape hd with ⟨he, _⟩ | ⟨hflag', _⟩ | ⟨k, pk, _, hz0, _, hk, hpid, _, htm⟩
  · exfalso
    rcases dispatch_cases hd with ⟨h0, _⟩ | ⟨_, hi⟩
    · rw [hflag] at h0; exact absurd h0 (by decide)
    · rcases interrupt_handler_cases hi with ⟨_, hz, _⟩ | ⟨_, _, hfind, _⟩ |
        ⟨_, _, k, hfind, htm⟩ | ⟨hne, _⟩
      · rw [hw] at hz
        rcases hz with hz | hz
        · exact hp0 hz
        · exact hp1 hz
      · rw [deliver_sched] at hfind
        have hlt := lt_length_of_get hp
        exact (find_pcb_loop_none _ _ _ 0).mp hfind c p (Nat.zero_le _)
          (by rw [hinv.wf]; omega) hp hw.symm
      · obtain ⟨_, _, ⟨pk, hk, hpid⟩, _⟩ := find_pcb_loop_some _ _ _ _ _ hfind
        rw [deliver_sched] at hk
        obtain ⟨m1, _, _, _, _, m6, _⟩ := marked_facts st hinv hk hpid
          (by rw [hw]; exact hp0)
        have hkt := timer_expiry_keeps_terminated m1 htm k (reaped st.env pk)
          (by rw [m6 k, if_pos rfl]) rfl
        rw [he, hk] at hkt
        injection hkt with hkt
        have hst := congrArg process_ctl_block.state hkt
        have hpkc : pk.state ≠ process_state.CREATED := fun hcr =>
          hp0 (by rw [← hw, ← hpid]; exact hinv.created_pid k pk hk hcr)
        have hkc := hdist k c pk p hk hp hpkc (by rw [hr]; decide) (by rw [hpid, hw])
        subst hkc
        rw [hp] at hk
        injection hk with hk
        rw [← hk, hr] at hst
        cases hst
      · exact hne hflag
  · rw [hflag] at hflag'; exact absurd hflag' (by decide)
  · have hpkc : pk.state ≠ process_state.CREATED := fun hcr =>
      hz0 (by rw [← hpid]; exact hinv.created_pid k pk hk hcr)
    have hkc := hdist k c pk p hk hp hpkc (by rw [hr]; decide) (by rw [hpid, hw])
    subst hkc
    rw [hp] at hk
    injection hk with hk
    subst hk
    obtain ⟨m1, m2, m3, m4, m5, m6, _⟩ := marked_facts st hinv hp hpid hz0
    have hkt := timer_expiry_keeps_terminated m1 htm k (reaped st.env p)
      (by rw [m6 k, if_pos rfl]) rfl
    refine ⟨reaped st.env p, hkt, rfl, rfl, ?_⟩
    obtain ⟨e2, e3, ht, hall, he3⟩ := timer_expiry_trace_parts m2 htm
    have hpre : preempt (emit { (mark_terminated st.env k (emit (deliver st.signals w)
          [event.waitpid st.env.waitpid])) with g_interrupted := 0 }
        [event.out_interrupt (mark_terminated st.env k (emit (deliver st.signals w)
          [event.waitpid st.env.waitpid])).g_scheduler.current_quantum]) =
        emit { (mark_terminated st.env k (emit (deliver st.signals w)
          [event.waitpid st.env.waitpid])) with g_interrupted := 0 }
        [event.out_interrupt (mark_terminated st.env k (emit (deliver st.signals w)
          [event.waitpid st.env.waitpid])).g_scheduler.current_quantum] := by
      refine @preempt_not_running _ k (reaped st.env p) ?_ ?_ ?_
      · show (mark_terminated st.env k _).g_scheduler.current_process = some k
        rw [m4]; exact hc
      · show (mark_terminated st.env k _).g_scheduler.pcbs[k]? = _
        rw [m6 k, if_pos rfl]
      · show process_state.TERMINATED ≠ _
        decide
    rw [hpre] at ht
    refine ⟨event.out_interrupt w.g_scheduler.current_quantum :: (e2 ++ e3), ?_, ?_⟩
    · rw [ht, emit_trace]
      show (mark_terminated st.env k _).trace ++ _ ++ e2 ++ e3 = _
      rw [m5, m3, hw]
      simp
    · intro e he pid hek
      rw [List.mem_cons, List.mem_append] at he
      rcases he with he | he | he
      · rw [hek] at he; cases he
      · have := hall e he
        rw [hek] at this
        cases this
      · rcases he3 with h3 | ⟨x, h3⟩
        · rw [h3] at he; cases he
        · rw [h3, hek] at he
          simp only [List.mem_cons, List.mem_singleton, List.not_mem_nil, or_false] at he
          rcases he with he | he
          · cases he
          · injection he with _ hsig
            exact absurd hsig (by decide)

/-- Witness of C13: job `A` is running with pid 100 and exits. -/
theorem C13_exit_of_running_job_witness :
    run [first_step] (boot [job_A, job_B]) = .ok world_A_running ∧
    dispatch exit_step world_A_running = .ok world_A_terminated ∧
    ∃ p', world_A_terminated.g_scheduler.pcbs[0]? = some p' ∧
      p'.state = process_state.TERMINATED ∧
      p'.completion_time = exit_step.env.time_completion ∧
      ∃ rest, world_A_terminated.trace =
          world_A_running.trace ++ event.waitpid pcb_A_running.pid :: event.alarm 0 :: rest ∧
        ∀ e ∈ rest, ∀ pid, e ≠ event.kill pid SIGSTOP :=
  have idx : ∀ (i : Nat) (a : process_ctl_block),
      world_A_running.g_scheduler.pcbs[i]? = some a → a.state ≠ process_state.CREATED →
      i = 0 := by
    intro i a ha hs
    match i, ha with
    | 0, _ => rfl
    | 1, ha =>
      have ha' : some pcb_B_created = some a := ha
      injection ha' with ha'
      subst ha'
      exact absurd rfl hs
    | n + 2, ha =>
      have ha' : (none : Option process_ctl_block) = some a := ha
      cases ha'
  ⟨by rfl, by rfl,
    C13_exit_of_running_job [job_A, job_B] [first_step] world_A_running (by rfl)
      0 pcb_A_running (by rfl) (by rfl) (by rfl)
      (fun i j a b ha hb hsa hsb _ => by rw [idx i a ha hsa, idx j b hb hsb])
      exit_step world_A_terminated (by rfl) (by rfl) (by rfl)⟩

/-- C14: when the clock read by `get_time` is non-decreasing along the run
(from any first reading `lo`, so in particular when it is strictly positive),
every PCB of a state reached from the loaded state whose `arrival_time`,
`start_time` and `completion_time` are all non-zero satisfies
`arrival_time ≤ start_time ≤ completion_time`. -/
theorem C14_timestamps_ordered (jobs : List job) (steps : List Step) (lo : Nat) (w : World)
    (hclock : clock_ok lo steps) (h : run steps (boot jobs) = .ok w)
    (i : Nat) (p : process_ctl_block) (hp : w.g_scheduler.pcbs[i]? = some p)
    (_ha : p.arrival_time ≠ 0) (hs : p.start_time ≠ 0) (hc : p.completion_time ≠ 0) :
    p.arrival_time ≤ p.start_time ∧ p.start_time ≤ p.completion_time := by
  obtain ⟨hi, htok⟩ := tok_run steps lo (boot jobs) w (inv_read_spec jobs)
    (tok_read_spec jobs lo) hclock h
  exact ⟨(htok i p hp).arrival_start hs, (htok i p hp).start_completion hc⟩

/-- Witness of C14: job `A` arrives at 10, starts at 20 and completes at 50. -/
theorem C14_timestamps_ordered_witness :
    clock_ok 0 [timed_first_step, timed_exit_step] ∧
    run [timed_first_step, timed_exit_step] (boot [job_A, job_B]) = .ok world_A_terminated ∧
    pcb_A_terminated.arrival_time ≤ pcb_A_terminated.start_time ∧
    pcb_A_terminated.start_time ≤ pcb_A_terminated.completion_time :=
  have hclock : clock_ok 0 [timed_first_step, timed_exit_step] :=
    ⟨by decide, fun _ => (by decide : (5 : Nat) ≤ 10), fun _ => (by decide : (10 : Nat) ≤ 20),
      by decide, fun _ => (by decide : (50 : Nat) ≤ 60), fun _ => (by decide : (60 : Nat) ≤ 70),
      trivial⟩
  ⟨hclock, by rfl,
    C14_timestamps_ordered [job_A, job_B] [timed_first_step, timed_exit_step] 0
      world_A_terminated hclock (by rfl) 0 pcb_A_terminated (by rfl)
      (by decide) (by decide) (by decide)⟩

/-- C15: from the loaded state, whose flag is the timer flag without any
signal, when some job has creation quantum 0, `k` being the first such job, and
the calls of `fork` and `kill` succeed, the first dispatch returns with
`current_quantum` 1 and `current_process` at index `k`; the PCB at `k` is
`RUNNING` with its pid, arrival time and start time set; every other job with
creation quantum 0 is admitted and `WAITING`; the jobs with another creation
quantum are still `CREATED`. -/
theorem C15_first_dispatch_runs_first_due_job (jobs : List job) (env : Env) (k : Nat)
    (jk : job) (hk : jobs[k]? = some jk) (hcq : jk.creation_quantum = 0)
    (hmin : ∀ (j : Nat) (jj : job), j < k → jobs[j]? = some jj → jj.creation_quantum ≠ 0)
    (hfork : ∀ (j : Nat) (jj : job), jobs[j]? = some jj → jj.creation_quantum = 0 →
      env.fork j ≠ -1 ∧ env.fork j ≠ 0)
    (hkill : env.kill_ret ≠ -1) :
    ∃ w', dispatch { signals := [], env := env } (boot jobs) = .ok w' ∧
      w'.g_scheduler.current_quantum = 1 ∧
      w'.g_scheduler.current_process = some k ∧
      (∃ pk, w'.g_scheduler.pcbs[k]? = some pk ∧ pk.state = process_state.RUNNING ∧
        pk.pid = env.fork k ∧ pk.arrival_time = env.time_arrival k ∧
        pk.start_time = env.time_start) ∧
      (∀ (j : Nat) (jj : job), jobs[j]? = some jj → j ≠ k → jj.creation_quantum = 0 →
        ∃ p, w'.g_scheduler.pcbs[j]? = some p ∧ p.state = process_state.WAITING ∧
          p.pid = env.fork j ∧ p.arrival_time = env.time_arrival j) ∧
      (∀ (j : Nat) (jj : job), jobs[j]? = some jj → jj.creation_quantum ≠ 0 →
        ∃ p, w'.g_scheduler.pcbs[j]? = some p ∧ p.state = process_state.CREATED) := by
  have hinv : Inv (boot jobs).g_scheduler := inv_read_spec jobs
  have hflag : (boot jobs).g_interrupted = SIGALRM := rfl
  have hdisp : dispatch { signals := [], env := env } (boot jobs) =
      timer_expiry basic env (boot jobs) :=
    @dispatch_of_timer { signals := [], env := env } (boot jobs) rfl
  have hforkp : ∀ (j : Nat) (p : process_ctl_block), (boot jobs).g_scheduler.pcbs[j]? = some p →
      p.creation_quantum = (boot jobs).g_scheduler.current_quantum →
      env.fork j ≠ -1 ∧ env.fork j ≠ 0 := by
    intro j p hp hq
    have hp' : (read_spec jobs).pcbs[j]? = some p := hp
    rw [read_spec_get] at hp'
    rcases Option.map_eq_some'.mp hp' with ⟨jj, hjj, he⟩
    refine hfork j jj hjj ?_
    rw [← he] at hq
    exact hq
  obtain ⟨w', htm⟩ := timer_expiry_returns hflag hforkp hkill
  obtain ⟨w3, _, hq3, _, _, hget, _, hb⟩ := timer_expiry_shape hinv hflag htm
  have hget3 : ∀ (j : Nat) (jj : job), jobs[j]? = some jj →
      w3.g_scheduler.pcbs[j]? =
        some (if jj.creation_quantum = 0 then admitted env j (loaded jj) else loaded jj) := by
    intro j jj hjj
    rw [hget j]
    show Option.map _ ((read_spec jobs).pcbs[j]?) = _
    rw [read_spec_get, hjj]
    rfl
  have hk3 : w3.g_scheduler.pcbs[k]? = some (admitted env k (loaded jk)) := by
    rw [hget3 k jk hk, if_pos hcq]
  refine ⟨w', by rw [hdisp]; exact htm, ?_⟩
  rcases hb with ⟨hnone, _⟩ | ⟨k', pk, hk', hw', hmin', _, b1, _, b3, b4, _⟩
  · exact absurd rfl (hnone k _ hk3)
  · have hkk : k' = k := by
      rcases Nat.lt_trichotomy k' k with hlt | heq | hgt
      · exfalso
        have hlen : k' < jobs.length := by
          have := (List.getElem?_eq_some_iff.mp hk).1
          omega
        have hj' : jobs[k']? = some jobs[k'] := List.getElem?_eq_getElem hlen
        have hne := hmin k' _ hlt hj'
        rw [hget3 k' _ hj', if_neg hne] at hk'
        injection hk' with hk'
        rw [← hk'] at hw'
        cases hw'
      · exact heq
      · exact absurd rfl (hmin' k _ hgt hk3)
    subst hkk
    rw [hk3] at hk'
    injection hk' with hk'
    subst hk'
    have hlen := lt_length_of_get hk3
    refine ⟨by rw [b3, hq3]; rfl, b4, ?_, ?_, ?_⟩
    · refine ⟨switched env (admitted env k' (loaded jk)), ?_, rfl, ?_, ?_, rfl⟩
      · rw [b1, List.getElem?_set_self hlen]
      · rw [switched_pid]; rfl
      · rw [switched_arrival]; rfl
    · intro j jj hjj hjk hq
      refine ⟨admitted env j (loaded jj), ?_, rfl, rfl, rfl⟩
      rw [b1, List.getElem?_set_ne (fun x => hjk x.symm), hget3 j jj hjj, if_pos hq]
    · intro j jj hjj hq
      have hjk : j ≠ k' := by
        intro hx
        subst hx
        rw [hk] at hjj
        injection hjj with hjj
        subst hjj
        exact hq hcq
      refine ⟨loaded jj, ?_, rfl⟩
      rw [b1, List.getElem?_set_ne (fun x => hjk x.symm), hget3 j jj hjj, if_neg hq]

/-- Witness of C15: on jobs `A` and `B` the first dispatch runs `A`. -/
theorem C15_first_dispatch_runs_first_due_job_witness :
    ∃ w', dispatch { signals := [], env := demo_env } (boot [job_A, job_B]) = .ok w' ∧
      w'.g_scheduler.current_quantum = 1 ∧
      w'.g_scheduler.current_process = some 0 :=
  have h := C15_first_dispatch_runs_first_due_job [job_A, job_B] demo_env 0 job_A (by rfl)
    (by rfl) (fun j _ hj _ => absurd hj (Nat.not_lt_zero j))
    (fun j _ _ _ => by
      show (100 + (j : Int) ≠ -1) ∧ (100 + (j : Int) ≠ 0)
      omega)
    (by decide)
  h.elim fun w' hw' => ⟨w', hw'.1, hw'.2.1, hw'.2.2.1⟩

/-- C16 as stated fails: with job `A` alone and running, a timer dispatch sends
`SIGSTOP` to its process (pid 100) and calls `handle_arrivals` with its PCB
`WAITING`, before it resumes it. -/
theorem C16_counterexample :
    ∃ (w w' : World) (p : process_ctl_block),
      run [first_step] (boot [job_A]) = .ok w ∧
      w.g_scheduler.pcbs = [pcb_A_running] ∧
      dispatch tick_step w = .ok w' ∧
      w'.trace = w.trace ++ [event.out_interrupt 1, event.kill pcb_A_running.pid SIGSTOP,
        event.alarm 1, event.kill pcb_A_running.pid SIGCONT] ∧
      (preempt (emit { deliver tick_step.signals w with g_interrupted := 0 }
        [event.out_interrupt 1])).g_scheduler.pcbs[0]? = some p ∧
      p.state = process_state.WAITING :=
  ⟨world_solo_running, world_solo_tick, { pcb_A_running with state := process_state.WAITING },
    by rfl, by rfl, by rfl, by rfl, by rfl, by rfl⟩

/-- C16 (amended): for a store with a single job `A` that is `RUNNING` and
current (its creation quantum not being the current quantum), a dispatch that
sees the timer flag preempts `A` and selects it again: `SIGSTOP` is sent to the
process of `A`, its state passes through `WAITING` (the state in which
`handle_arrivals` is called), then `alarm(1)` and `SIGCONT` follow, and when the
dispatch returns `A` is `RUNNING` again and `current_quantum` has advanced by
one. -/
theorem C16_single_job_is_preempted_and_reselected (env : Env) (w : World)
    (a : process_ctl_block) (hpcbs : w.g_scheduler.pcbs = [a])
    (hnum : w.g_scheduler.num_processes = 1)
    (hcur : w.g_scheduler.current_process = some 0)
    (hr : a.state = process_state.RUNNING)
    (hq : a.creation_quantum ≠ w.g_scheduler.current_quantum)
    (hflag : w.g_interrupted = SIGALRM) (hkill : env.kill_ret ≠ -1) :
    (preempt (emit { w with g_interrupted := 0 }
      [event.out_interrupt w.g_scheduler.current_quantum])).g_scheduler.pcbs
        = [{ a with state := process_state.WAITING }] ∧
    ∃ w', interrupt_handler basic env w = .ok w' ∧
      w'.g_scheduler.pcbs = [switched env { a with state := process_state.WAITING }] ∧
      (switched env { a with state := process_state.WAITING }).state = process_state.RUNNING ∧
      w'.g_scheduler.current_process = some 0 ∧
      w'.g_scheduler.current_quantum = w.g_scheduler.current_quantum + 1 ∧
      w'.trace = w.trace ++ [event.out_interrupt w.g_scheduler.current_quantum,
        event.kill a.pid SIGSTOP, event.alarm 1, event.kill a.pid SIGCONT] := by
  have hget : w.g_scheduler.pcbs[0]? = some a := by rw [hpcbs]; rfl
  have hpre : preempt (emit { w with g_interrupted := 0 }
      [event.out_interrupt w.g_scheduler.current_quantum]) =
      set_pcb (emit (emit { w with g_interrupted := 0 }
        [event.out_interrupt w.g_scheduler.current_quantum]) [event.kill a.pid SIGSTOP]) 0
        { a with state := process_state.WAITING } :=
    preempt_running (w := emit { w with g_interrupted := 0 } _) hcur hget hr
  have hpcbs2 : (preempt (emit { w with g_interrupted := 0 }
      [event.out_interrupt w.g_scheduler.current_quantum])).g_scheduler.pcbs
        = [{ a with state := process_state.WAITING }] := by
    rw [hpre]
    show w.g_scheduler.pcbs.set 0 _ = _
    rw [hpcbs]
    rfl
  refine ⟨hpcbs2, ?_⟩
  have hidle : handle_arrivals env (preempt (emit { w with g_interrupted := 0 }
      [event.out_interrupt w.g_scheduler.current_quantum])) =
      .ok (preempt (emit { w with g_interrupted := 0 }
      [event.out_interrupt w.g_scheduler.current_quantum])) := by
    refine handle_arrivals_loop_idle env ?_ _ 0
    intro i p hp
    rw [hpcbs2] at hp
    cases i with
    | zero =>
      have hp' : some ({ a with state := process_state.WAITING } : process_ctl_block) = some p := hp
      injection hp' with hp'
      rw [← hp', hpre]
      exact hq
    | succ n => cases hp
  have hbasic : basic env (preempt (emit { w with g_interrupted := 0 }
      [event.out_interrupt w.g_scheduler.current_quantum])) =
      context_switch env 0 (preempt (emit { w with g_interrupted := 0 }
      [event.out_interrupt w.g_scheduler.current_quantum])) := by
    unfold basic
    have hn : (preempt (emit { w with g_interrupted := 0 }
      [event.out_interrupt w.g_scheduler.current_quantum])).g_scheduler.num_processes = 1 := by
      rw [hpre]; exact hnum
    rw [hn, basic_loop, hpcbs2]
    rfl
  obtain ⟨w', hcs⟩ := @context_switch_returns env 0 (preempt (emit
    { w with g_interrupted := 0 } [event.out_interrupt w.g_scheduler.current_quantum])) hkill
  have hget2 : (preempt (emit { w with g_interrupted := 0 }
      [event.out_interrupt w.g_scheduler.current_quantum])).g_scheduler.pcbs[0]? =
      some { a with state := process_state.WAITING } := by rw [hpcbs2]; rfl
  obtain ⟨_, b1, _, b3, b4, _, b6⟩ := context_switch_ok hget2 hcs
  refine ⟨w', ?_, ?_, rfl, b4, ?_, ?_⟩
  · unfold interrupt_handler
    rw [if_neg (by rw [hflag]; decide)]
    exact timer_expiry_of_stages hflag hidle (by rw [hbasic]; exact hcs)
  · rw [b1, hpcbs2]; rfl
  · rw [b3, hpre]; rfl
  · rw [b6, hpre]
    simp

/-- Witness of C16 (amended): job `A` alone and running is preempted and
selected again by a timer dispatch. -/
theorem C16_single_job_is_preempted_and_reselected_witness :
    ∃ w', interrupt_handler basic demo_env (signal_handler SIGALRM world_solo_running) = .ok w' ∧
      w'.g_scheduler.current_quantum = 2 ∧
      w'.trace = world_solo_running.trace ++ [event.out_interrupt 1,
        event.kill 100 SIGSTOP, event.alarm 1, event.kill 100 SIGCONT] :=
  have h := (C16_single_job_is_preempted_and_reselected demo_env
    (signal_handler SIGALRM world_solo_running) pcb_A_running (by rfl) (by rfl) (by rfl)
    (by rfl) (by decide) (by rfl) (by decide)).2
  h.elim fun w' hw' => ⟨w', hw'.1, hw'.2.2.2.2.1, hw'.2.2.2.2.2⟩

/-- C17: when no creation quantum is negative, in every state reached from the
loaded state a PCB is `CREATED` exactly when its creation quantum is at or
after the current quantum: every PCB whose creation quantum is below the
current quantum has been admitted, and every admitted PCB has its creation
quantum strictly below the current quantum. -/
theorem C17_created_iff_not_yet_due (jobs : List job)
    (hnn : ∀ j ∈ jobs, 0 ≤ j.creation_quantum) (steps : List Step) (w : World)
    (h : run steps (boot jobs) = .ok w) (i : Nat) (p : process_ctl_block)
    (hp : w.g_scheduler.pcbs[i]? = some p) :
    (p.state = process_state.CREATED ↔ w.g_scheduler.current_quantum ≤ p.creation_quantum) ∧
    (p.creation_quantum < w.g_scheduler.current_quantum → p.state ≠ process_state.CREATED) ∧
    (p.state ≠ process_state.CREATED → p.creation_quantum < w.g_scheduler.current_quantum) := by
  have hinv := inv_reachable h
  have hdue : Due w.g_scheduler :=
    run_induction Due (fun _ _ _ hi hp hd => due_dispatch hi hp hd) steps (boot jobs) w
      (inv_read_spec jobs) (due_read_spec jobs hnn) h
  refine ⟨⟨fun hc => hdue i p hp hc, fun hle => ?_⟩, fun hlt hc => ?_,
    fun hnc => hinv.admitted_before i p hp hnc⟩
  · by_contra hnc
    have := hinv.admitted_before i p hp hnc
    omega
  · have := hdue i p hp hc
    omega

/-- Witness of C17: after the first dispatch on jobs `A` and `B`, job `B` (due
at quantum 5) is `CREATED` and the quantum is 1. -/
theorem C17_created_iff_not_yet_due_witness :
    run [first_step] (boot [job_A, job_B]) = .ok world_A_running ∧
    (pcb_B_created.state = process_state.CREATED ↔
      world_A_running.g_scheduler.current_quantum ≤ pcb_B_created.creation_quantum) :=
  ⟨by rfl,
    (C17_created_iff_not_yet_due [job_A, job_B]
      (fun j hj => by
        simp only [List.mem_cons, List.mem_singleton, List.not_mem_nil, or_false] at hj
        rcases hj with hj | hj <;> subst hj <;> decide)
      [first_step] world_A_running (by rfl) 1 pcb_B_created (by rfl)).1⟩

/-- C18 as stated fails in its consequence: with jobs `L` (due at quantum 1),
`A` and `C` (due at quantum 0), after the first dispatch `A` runs and `C` is the
only `WAITING` PCB.  When `A` exits (`waitpid` returns its pid 101), `C` at
index 2 is still the only `WAITING` PCB after the marking, but the timer branch
of the same dispatch admits `L` in front of it: when the dispatch returns, `L`
at index 0 is `RUNNING` and current, and `C` is still `WAITING`. -/
theorem C18_counterexample :
    ∃ w' : World,
      run [first_step] (boot [job_L, job_A, job_C]) = .ok world_LAC_running ∧
      world_LAC_running.g_scheduler.pcbs.map (fun x => x.state) =
        [process_state.CREATED, process_state.RUNNING, process_state.WAITING] ∧
      world_LAC_running.g_scheduler.pcbs.map (fun x => x.pid) = [0, 101, 102] ∧
      (deliver exit_step_101.signals world_LAC_running).g_interrupted = SIGCHLD ∧
      exit_step_101.env.waitpid = 101 ∧
      (mark_terminated exit_step_101.env 1
          (emit (deliver exit_step_101.signals world_LAC_running)
            [event.waitpid 101])).g_scheduler.pcbs.map (fun x => x.state) =
        [process_state.CREATED, process_state.TERMINATED, process_state.WAITING] ∧
      dispatch exit_step_101 world_LAC_running = .ok w' ∧
      w'.g_scheduler.pcbs.map (fun x => x.state) =
        [process_state.RUNNING, process_state.TERMINATED, process_state.WAITING] ∧
      w'.g_scheduler.current_process = some 0 :=
  ⟨{ g_scheduler :=
       { pcbs := [switched demo_env (admitted demo_env 0 (loaded job_L)),
           reaped demo_env { pcb_A_running with pid := 101, arrival_time := 11 },
           { pcb_C_running with state := process_state.WAITING, pid := 102,
                                arrival_time := 12, start_time := 0 }]
         num_processes := 3
         current_quantum := 2
         current_process := some 0 }
     g_interrupted := 0
     trace := world_LAC_running.trace ++
       [event.waitpid 101, event.alarm 0, event.out_interrupt 1, event.out_arrival "L",
         event.fork 100, event.out_created "L" 100 2, event.alarm 1,
         event.kill 100 SIGCONT] },
    by rfl, by rfl, by rfl, by rfl, by rfl, by rfl, by rfl, by rfl, by rfl⟩

/-- C18 (amended): for every scheduler state, when `interrupt_handler` sees the
child-exit flag and `waitpid` returns a pid (neither 0 nor -1) that is the pid
of a PCB, `pcbs[i]` being the first such PCB, the result equals marking
`pcbs[i]` terminated (completion time set, timer disarmed) and then performing
a timer-expiry dispatch on the resulting state.  So, when `num_processes` is
the number of PCBs, another PCB is `WAITING` and the calls of `fork` and `kill`
succeed, the dispatch returns, and the PCB that is `RUNNING` and current is the
lowest-index PCB that is `WAITING` once the marked PCB is terminated, the
current process preempted and the due PCBs admitted (`seen_by_policy`), which
need not be the lowest-index PCB that was `WAITING` right after the marking;
every other PCB is as `seen_by_policy` describes, the last calls are `alarm(1)`
and `SIGCONT` to the selected process, and `current_quantum` has advanced by
one. -/
theorem C18_matched_exit_runs_timer_path (env : Env) (w : World) (i : Nat)
    (p : process_ctl_block) (hflag : w.g_interrupted = SIGCHLD)
    (h0 : env.waitpid ≠ 0) (h1 : env.waitpid ≠ -1)
    (hi : i < w.g_scheduler.num_processes) (hp : w.g_scheduler.pcbs[i]? = some p)
    (hpid : p.pid = env.waitpid)
    (hfirst : ∀ (j : Nat) (q : process_ctl_block), j < i → w.g_scheduler.pcbs[j]? = some q →
      q.pid ≠ env.waitpid) :
    interrupt_handler basic env w = mark_then_timer_dispatch env i p w ∧
    (w.g_scheduler.num_processes = w.g_scheduler.pcbs.length →
      (∃ (m : Nat) (pm : process_ctl_block), m ≠ i ∧ w.g_scheduler.pcbs[m]? = some pm ∧
        pm.state = process_state.WAITING) →
      (∀ (j : Nat) (x : process_ctl_block), w.g_scheduler.pcbs[j]? = some x →
        x.creation_quantum = w.g_scheduler.current_quantum →
        env.fork j ≠ -1 ∧ env.fork j ≠ 0) →
      env.kill_ret ≠ -1 →
      ∃ (k : Nat) (x : process_ctl_block) (w' : World),
        w.g_scheduler.pcbs[k]? = some x ∧
        (seen_by_policy env w i k x).state = process_state.WAITING ∧
        (∀ (j : Nat) (y : process_ctl_block), j < k → w.g_scheduler.pcbs[j]? = some y →
          (seen_by_policy env w i j y).state ≠ process_state.WAITING) ∧
        interrupt_handler basic env w = .ok w' ∧
        w'.g_scheduler.pcbs[k]? = some (switched env (seen_by_policy env w i k x)) ∧
        (switched env (seen_by_policy env w i k x)).state = process_state.RUNNING ∧
        (∀ (j : Nat) (y : process_ctl_block), j ≠ k → w.g_scheduler.pcbs[j]? = some y →
          w'.g_scheduler.pcbs[j]? = some (seen_by_policy env w i j y)) ∧
        w'.g_scheduler.current_process = some k ∧
        w'.g_scheduler.current_quantum = w.g_scheduler.current_quantum + 1 ∧
        ∃ pre, w'.trace =
          pre ++ [event.alarm 1, event.kill (seen_by_policy env w i k x).pid SIGCONT]) := by
  have hfind : find_pcb_loop w.g_scheduler env.waitpid w.g_scheduler.num_processes 0 = some i :=
    find_pcb_loop_first w.g_scheduler env.waitpid i p hi hp hpid hfirst
  have hmark : mark_terminated env i (emit w [event.waitpid env.waitpid]) =
      { set_pcb (emit w [event.waitpid env.waitpid, event.alarm 0]) i (reaped env p)
        with g_interrupted := SIGALRM } := by
    rw [mark_terminated_spec env i (emit w [event.waitpid env.waitpid]) p hp]
    simp [emit, set_pcb]
  have hleft : interrupt_handler basic env w =
      timer_expiry basic env (mark_terminated env i (emit w [event.waitpid env.waitpid])) := by
    unfold interrupt_handler
    rw [if_pos hflag]
    simp only
    rw [if_neg (by rintro (h | h); exact h0 h; exact h1 h)]
    simp only [emit_sched]
    rw [hfind]
  constructor
  · rw [hleft, hmark]
    unfold mark_then_timer_dispatch interrupt_handler
    rw [if_neg (show ¬ (SIGALRM = SIGCHLD) by decide)]
  · intro hwf ⟨m, pm, hmi, hm, hwm⟩ hfork hkill
    have hp' : (emit w [event.waitpid env.waitpid]).g_scheduler.pcbs[i]? = some p := hp
    obtain ⟨_, _, _, m4, _⟩ := mark_terminated_rest env i _ p hp'
    obtain ⟨w3, ha, hwf3, _, hq3, hget3⟩ := matched_exit_stages env w i p hp hwf hfork
    obtain ⟨w', hb⟩ := basic_loop_returns env hkill w3.g_scheduler.num_processes 0 w3
    have htm : timer_expiry basic env
        (mark_terminated env i (emit w [event.waitpid env.waitpid])) = .ok w' :=
      timer_expiry_of_stages m4 ha hb
    have hm3 : w3.g_scheduler.pcbs[m]? = some (seen_by_policy env w i m pm) := by
      rw [hget3 m, hm]; rfl
    have hsm : (seen_by_policy env w i m pm).state = process_state.WAITING := by
      unfold seen_by_policy
      rw [if_neg hmi]
      have hpa : preempted_at w.g_scheduler.current_process m pm = pm := by
        unfold preempted_at
        rw [if_neg (fun x => by rw [hwm] at x; exact absurd x.2 (by decide))]
      rw [hpa]
      unfold arrived
      split
      · rfl
      · exact hwm
    rcases basic_ok hwf3 hb with ⟨hnone, _⟩ | ⟨k, pk, hk, hwk, hmin, hcs⟩
    · exact absurd hsm (hnone m _ hm3)
    · obtain ⟨_, b1, _, b3, b4, _, b6⟩ := context_switch_ok hk hcs
      have hlk := lt_length_of_get hk
      rw [hget3 k] at hk
      rcases Option.map_eq_some'.mp hk with ⟨x, hx, he⟩
      subst he
      refine ⟨k, x, w', hx, hwk, ?_, by rw [hleft]; exact htm, ?_, rfl, ?_, b4, ?_,
        ⟨w3.trace, b6⟩⟩
      · intro j y hj hy
        exact hmin j _ hj (by rw [hget3 j, hy]; rfl)
      · rw [b1, List.getElem?_set_self hlk]
      · intro j y hjk hy
        rw [b1, List.getElem?_set_ne (fun h => hjk h.symm), hget3 j, hy]
        rfl
      · rw [b3, hq3]

/-- Witness of C18 (amended): after the first dispatch on jobs `A` and `C`, `A`
runs and `C` waits; a child exit for pid 100 is then the marking of `A`
followed by a timer-expiry dispatch, and the dispatch returns with `C`, at
index 1, selected. -/
theorem C18_matched_exit_runs_timer_path_witness :
    run [first_step] (boot [job_A, job_C]) = .ok world_AC_running ∧
    interrupt_handler basic demo_env_exit (signal_handler SIGCHLD world_AC_running) =
      mark_then_timer_dispatch demo_env_exit 0 pcb_A_running
        (signal_handler SIGCHLD world_AC_running) ∧
    interrupt_handler basic demo_env_exit (signal_handler SIGCHLD world_AC_running) =
      .ok world_C_running ∧
    ∃ (k : Nat) (x : process_ctl_block) (w' : World),
      (signal_handler SIGCHLD world_AC_running).g_scheduler.pcbs[k]? = some x ∧
      (seen_by_policy demo_env_exit (signal_handler SIGCHLD world_AC_running) 0 k x).state
        = process_state.WAITING ∧
      (∀ (j : Nat) (y : process_ctl_block), j < k →
        (signal_handler SIGCHLD world_AC_running).g_scheduler.pcbs[j]? = some y →
        (seen_by_policy demo_env_exit (signal_handler SIGCHLD world_AC_running) 0 j y).state
          ≠ process_state.WAITING) ∧
      interrupt_handler basic demo_env_exit (signal_handler SIGCHLD world_AC_running) = .ok w' ∧
      w'.g_scheduler.current_process = some k :=
  have h := C18_matched_exit_runs_timer_path demo_env_exit
    (signal_handler SIGCHLD world_AC_running) 0 pcb_A_running (by rfl) (by decide) (by decide)
    (by decide) (by rfl) (by rfl) (fun j _ hj _ => absurd hj (Nat.not_lt_zero j))
  have h2 := h.2 (by rfl) ⟨1, pcb_C_waiting, by decide, by rfl, by rfl⟩
    (fun j _ _ _ => by
      show (100 + (j : Int) ≠ -1) ∧ (100 + (j : Int) ≠ 0)
      omega)
    (by decide)
  ⟨by rfl, h.1, by rfl, h2.elim fun k hk => hk.elim fun x hx => hx.elim fun w' hw' =>
    ⟨k, x, w', hw'.1, hw'.2.1, hw'.2.2.1, hw'.2.2.2.1, hw'.2.2.2.2.2.2.2.1⟩⟩

/-- C19: in a scheduler state in which no PCB is `RUNNING` or `WAITING` and no
PCB has its creation quantum equal to the current quantum, a dispatch that sees
the timer flag returns with the scheduler state unchanged (every PCB,
`current_quantum`, `current_process`); it only prints its console line, so it
sends no signal and arms no timer.  Hence every sequence of dispatches from
such a state returns at the same quantum with no PCB `WAITING` or `RUNNING`: a
`CREATED` PCB whose creation quantum lies ahead is never admitted. -/
theorem C19_gap_in_arrivals_stalls (w : World) (hst : stalled w.g_scheduler) :
    (∀ st : Step, (deliver st.signals w).g_interrupted = SIGALRM →
      dispatch st w = .ok
        { g_scheduler := w.g_scheduler
          g_interrupted := 0
          trace := w.trace ++ [event.out_interrupt w.g_scheduler.current_quantum] }) ∧
    (∀ steps : List Step, ∃ w', run steps w = .ok w' ∧
      w'.g_scheduler.current_quantum = w.g_scheduler.current_quantum ∧
      stalled w'.g_scheduler ∧
      ∀ (i : Nat) (p : process_ctl_block), w.g_scheduler.pcbs[i]? = some p →
        ∃ p', w'.g_scheduler.pcbs[i]? = some p' ∧
          p'.creation_quantum = p.creation_quantum ∧
          (p'.state = p.state ∨ p'.state = process_state.TERMINATED)) := by
  refine ⟨fun st hflag => ?_, fun steps => run_stalled steps w hst⟩
  rw [dispatch_of_timer hflag,
    timer_expiry_stalled st.env (w := deliver st.signals w)
      (by rw [deliver_sched]; exact hst) hflag]
  simp [emit]

/-- Witness of C19: a store whose only job is due at quantum 1 does not leave
the loaded state: the first dispatch only prints its console line. -/
theorem C19_gap_in_arrivals_stalls_witness :
    stalled (boot [job_L]).g_scheduler ∧
    dispatch first_step (boot [job_L]) = .ok
      { g_scheduler := (boot [job_L]).g_scheduler
        g_interrupted := 0
        trace := [event.out_interrupt 0] } :=
  have hst : stalled (boot [job_L]).g_scheduler := by
    intro i p hp
    match i, hp with
    | 0, hp =>
      have hp' : some (loaded job_L) = some p := hp
      injection hp' with hp'
      subst hp'
      exact ⟨by decide, by decide, by decide⟩
    | n + 1, hp =>
      have hp' : (none : Option process_ctl_block) = some p := hp
      cases hp'
  ⟨hst, (C19_gap_in_arrivals_stalls (boot [job_L]) hst).1 first_step (by rfl)⟩

end Scheduler
